import Mathlib

/-!
# TailorCV vector_service — a shallow embedding in Lean 4

This file embeds the core of the `vector_service` component of the
TailorCV repository (`src/vector_service/app/{embedder,service,
pinecone_client,mq_consumer,api}.py`) and proves properties of the
embedded functions.

Modelling conventions:
* Python `float` similarity scores are modelled as `ℚ` (only order,
  addition and rounding to three decimals are ever used on them).
* Python strings are Lean `String`s; `str.strip()` / `str.lower()` are
  modelled on the underlying character lists with the usual ASCII-ish
  whitespace set.
* Python JSON-like values (the shapes `isinstance` dispatches on) are an
  inductive `JVal`; operations that would raise in Python (`.strip()` on
  a non-string, `", ".join` over non-strings, iteration over an `int`)
  return `Except String _` errors.
* RabbitMQ ack/nack outcomes are a three-valued `MqAction`.
-/

namespace TailorCV

/-- Whitespace characters recognised by Python's `str.strip()`
(restricted to the ASCII whitespace actually occurring in the data). -/
def pyIsSpace (c : Char) : Bool :=
  c = ' ' || c = '\t' || c = '\n' || c = '\r' || c = '\x0b' || c = '\x0c'

/-- `str.strip()` on the character list: drop leading and trailing
whitespace. -/
def stripChars (l : List Char) : List Char :=
  ((l.dropWhile pyIsSpace).reverse.dropWhile pyIsSpace).reverse

/-- Python `str.strip()`. -/
def pystrip (s : String) : String :=
  String.mk (stripChars s.data)

/-- Python `str.lower()` (character-wise, as used on ASCII data). -/
def pylower (s : String) : String :=
  String.mk (s.data.map Char.toLower)

/-- Python's `a or b` for an optional string `a` with fallback `b`:
yields `a`'s value when it is present and truthy (non-empty). -/
def truthyOr (a : Option String) (b : String) : String :=
  match a with
  | some s => if s = "" then b else s
  | none => b

/-- Whether `n` occurs as a contiguous run at the head of `h`. -/
def startsWithChars : List Char → List Char → Bool
  | [], _ => true
  | _ :: _, [] => false
  | a :: as, b :: bs => a = b && startsWithChars as bs

/-- Whether `n` occurs as a contiguous run anywhere in `h`
(Python's `needle in haystack` on strings). -/
def containsChars (n : List Char) : List Char → Bool
  | [] => startsWithChars n []
  | c :: t => startsWithChars n (c :: t) || containsChars n t

/-- Python `needle in haystack` for strings. -/
def pyInStr (needle haystack : String) : Bool :=
  containsChars needle.data haystack.data

/-- Decimal digits of `n`, most significant first (the digit list of
Python's `str(i)` for a non-negative int). -/
def natDigits (n : Nat) : List Nat :=
  if h : n < 10 then [n] else natDigits (n / 10) ++ [n % 10]
decreasing_by
  exact Nat.div_lt_self (by omega) (by omega)

/-- The character of a decimal digit. -/
def digitChar (d : Nat) : Char :=
  Char.ofNat (48 + d)

/-- Python `str(i)` for a natural number. -/
def pyNatRepr (n : Nat) : String :=
  String.mk ((natDigits n).map digitChar)

/-- Python `str(i)` for an int. -/
def pyIntRepr (i : Int) : String :=
  if i < 0 then "-" ++ pyNatRepr i.natAbs else pyNatRepr i.natAbs

/-- Python `round(score, 3)` on the rational model of floats
(round-to-integer of `1000·q`, scaled back). -/
def round3 (q : ℚ) : ℚ :=
  (round (q * 1000) : ℚ) / 1000

/-! ## Lemmas about the string primitives -/

theorem dropWhile_dropWhile (p : α → Bool) (l : List α) :
    (l.dropWhile p).dropWhile p = l.dropWhile p := by
  induction l with
  | nil => simp
  | cons x xs ih =>
    by_cases h : p x
    · simpa [List.dropWhile_cons, h] using ih
    · simp [List.dropWhile_cons, h]

theorem mem_dropWhile_of_not (p : α → Bool) (l : List α) (c : α)
    (hc : c ∈ l) (hp : ¬ p c) : c ∈ l.dropWhile p := by
  induction l with
  | nil => simp at hc
  | cons x xs ih =>
    by_cases h : p x
    · rcases List.mem_cons.mp hc with rfl | hm
      · exact absurd h hp
      · simpa [List.dropWhile_cons, h] using ih hm
    · simpa [List.dropWhile_cons, h] using hc

theorem stripChars_prefix (l : List Char) :
    stripChars l ++ ((l.dropWhile pyIsSpace).reverse.takeWhile pyIsSpace).reverse
      = l.dropWhile pyIsSpace := by
  unfold stripChars
  have h := List.takeWhile_append_dropWhile
    (p := pyIsSpace) (l := (l.dropWhile pyIsSpace).reverse)
  calc ((l.dropWhile pyIsSpace).reverse.dropWhile pyIsSpace).reverse
        ++ ((l.dropWhile pyIsSpace).reverse.takeWhile pyIsSpace).reverse
      = ((l.dropWhile pyIsSpace).reverse.takeWhile pyIsSpace
          ++ (l.dropWhile pyIsSpace).reverse.dropWhile pyIsSpace).reverse := by
        rw [List.reverse_append]
    _ = (l.dropWhile pyIsSpace).reverse.reverse := by rw [h]
    _ = l.dropWhile pyIsSpace := by rw [List.reverse_reverse]

theorem mem_of_mem_stripChars {l : List Char} {c : Char}
    (hc : c ∈ stripChars l) : c ∈ l := by
  have h1 : c ∈ l.dropWhile pyIsSpace := by
    rw [← stripChars_prefix l]
    exact List.mem_append_left _ hc
  have h2 := List.takeWhile_append_dropWhile (p := pyIsSpace) (l := l)
  rw [← h2]
  exact List.mem_append_right _ h1

theorem mem_stripChars_of_not_space {l : List Char} {c : Char}
    (hc : c ∈ l) (hsp : ¬ pyIsSpace c) : c ∈ stripChars l := by
  unfold stripChars
  rw [List.mem_reverse]
  apply mem_dropWhile_of_not _ _ _ _ hsp
  rw [List.mem_reverse]
  exact mem_dropWhile_of_not _ _ _ hc hsp

theorem stripChars_eq_nil_iff (l : List Char) :
    stripChars l = [] ↔ ∀ c ∈ l, pyIsSpace c := by
  constructor
  · intro h c hc
    by_contra hsp
    have := mem_stripChars_of_not_space hc hsp
    rw [h] at this
    simp at this
  · intro h
    unfold stripChars
    have : l.dropWhile pyIsSpace = [] :=
      List.dropWhile_eq_nil_iff.mpr h
    simp [this]

theorem pystrip_eq_empty_iff (s : String) :
    pystrip s = "" ↔ ∀ c ∈ s.data, pyIsSpace c := by
  unfold pystrip
  rw [show ("" : String) = String.mk [] from rfl]
  constructor
  · intro h
    exact (stripChars_eq_nil_iff s.data).mp (by injection h)
  · intro h
    rw [(stripChars_eq_nil_iff s.data).mpr h]

theorem pystrip_ne_empty_of_mem {s : String} {c : Char}
    (hc : c ∈ s.data) (hsp : ¬ pyIsSpace c) : pystrip s ≠ "" := by
  intro h
  exact hsp ((pystrip_eq_empty_iff s).mp h c hc)

theorem dropWhile_head_not {p : α → Bool} {l : List α}
    (h : l.dropWhile p ≠ []) :
    ∃ x t, l.dropWhile p = x :: t ∧ ¬ p x := by
  induction l with
  | nil => simp at h
  | cons a as ih =>
    by_cases hp : p a
    · rw [List.dropWhile_cons, if_pos hp] at h ⊢
      exact ih h
    · exact ⟨a, as, by rw [List.dropWhile_cons, if_neg hp], hp⟩

theorem stripChars_idem (l : List Char) :
    stripChars (stripChars l) = stripChars l := by
  by_cases hnil : stripChars l = []
  · rw [hnil]; rfl
  · have hd1 : (stripChars l).dropWhile pyIsSpace = stripChars l := by
      obtain ⟨c, t, hct⟩ : ∃ c t, stripChars l = c :: t := by
        cases h : stripChars l with
        | nil => exact absurd h hnil
        | cons c t => exact ⟨c, t, rfl⟩
      have hM : l.dropWhile pyIsSpace ≠ [] := by
        intro h
        have := stripChars_prefix l
        rw [h] at this
        exact hnil (List.append_eq_nil.mp this).1
      obtain ⟨x, t', hx, hpx⟩ := dropWhile_head_not hM
      have hcx : c = x := by
        have h1 := stripChars_prefix l
        rw [hct, hx] at h1
        simpa using congrArg (List.head? ·) h1
      rw [hct, List.dropWhile_cons, if_neg (by rwa [hcx])]
    have hd2 : (stripChars l).reverse.dropWhile pyIsSpace
        = (stripChars l).reverse := by
      have : (stripChars l).reverse
          = (l.dropWhile pyIsSpace).reverse.dropWhile pyIsSpace := by
        unfold stripChars
        rw [List.reverse_reverse]
      rw [this, dropWhile_dropWhile]
    calc stripChars (stripChars l)
        = (((stripChars l).dropWhile pyIsSpace).reverse.dropWhile
            pyIsSpace).reverse := rfl
      _ = ((stripChars l).reverse.dropWhile pyIsSpace).reverse := by rw [hd1]
      _ = (stripChars l).reverse.reverse := by rw [hd2]
      _ = stripChars l := List.reverse_reverse _

theorem pystrip_idem (s : String) : pystrip (pystrip s) = pystrip s := by
  unfold pystrip
  rw [show (String.mk (stripChars s.data)).data = stripChars s.data from rfl,
    stripChars_idem]

theorem pystrip_pystrip_ne {s : String} (h : pystrip s ≠ "") :
    pystrip (pystrip s) ≠ "" := by
  rwa [pystrip_idem]

/-! ## Decimal representation lemmas (for vector-record ids) -/

theorem natDigits_ne_nil (n : Nat) : natDigits n ≠ [] := by
  rw [natDigits]
  split
  · simp
  · simp

theorem natDigits_lt_ten (n : Nat) : ∀ d ∈ natDigits n, d < 10 := by
  induction n using Nat.strong_induction_on with
  | _ n ih =>
    intro d hd
    rw [natDigits] at hd
    split at hd
    · simpa using lt_of_eq_of_lt (List.mem_singleton.mp hd) (by assumption)
    · rcases List.mem_append.mp hd with h | h
      · exact ih (n / 10) (Nat.div_lt_self (by omega) (by omega)) d h
      · rw [List.mem_singleton.mp h]
        exact Nat.mod_lt n (by omega)

/-- Valuation of a digit list (base-10, most significant first). -/
def digitsVal (l : List Nat) : Nat :=
  l.foldl (fun a d => a * 10 + d) 0

theorem digitsVal_aux (l : List Nat) (a : Nat) :
    l.foldl (fun a d => a * 10 + d) a
      = a * 10 ^ l.length + l.foldl (fun a d => a * 10 + d) 0 := by
  induction l generalizing a with
  | nil => simp
  | cons d t ih =>
    rw [List.foldl_cons, List.foldl_cons, ih (a * 10 + d), ih (0 * 10 + d)]
    simp [pow_succ]
    ring

theorem digitsVal_natDigits (n : Nat) : digitsVal (natDigits n) = n := by
  induction n using Nat.strong_induction_on with
  | _ n ih =>
    rw [natDigits]
    split
    · simp [digitsVal]
    · rename_i h
      unfold digitsVal
      rw [List.foldl_append]
      have hrec := ih (n / 10) (Nat.div_lt_self (by omega) (by omega))
      unfold digitsVal at hrec
      rw [hrec, List.foldl_cons, List.foldl_nil]
      omega

theorem natDigits_injective {a b : Nat} (h : natDigits a = natDigits b) :
    a = b := by
  rw [← digitsVal_natDigits a, ← digitsVal_natDigits b, h]

theorem digitChar_lt_ten_ne_underscore {d : Nat} (hd : d < 10) :
    digitChar d ≠ '_' := by
  interval_cases d <;> decide

theorem digitChar_inj {d e : Nat} (hd : d < 10) (he : e < 10)
    (h : digitChar d = digitChar e) : d = e := by
  interval_cases d <;> interval_cases e <;> first | rfl | exact absurd h (by decide)

theorem map_digitChar_inj {l m : List Nat}
    (hl : ∀ d ∈ l, d < 10) (hm : ∀ d ∈ m, d < 10)
    (h : l.map digitChar = m.map digitChar) : l = m := by
  induction l generalizing m with
  | nil => cases m with
    | nil => rfl
    | cons e t => simp at h
  | cons d t ih =>
    cases m with
    | nil => simp at h
    | cons e u =>
      simp only [List.map_cons, List.cons.injEq] at h
      rcases h with ⟨h1, h2⟩
      have hde := digitChar_inj (hl d (by simp)) (hm e (by simp)) h1
      have ht := ih (fun x hx => hl x (by simp [hx]))
        (fun x hx => hm x (by simp [hx])) h2
      rw [hde, ht]

/-- The digit characters of `pyNatRepr` never contain an underscore. -/
theorem pyNatRepr_no_underscore (n : Nat) :
    ∀ c ∈ (pyNatRepr n).data, c ≠ '_' := by
  intro c hc
  unfold pyNatRepr at hc
  simp only [List.mem_map] at hc
  rcases hc with ⟨d, hd, rfl⟩
  exact digitChar_lt_ten_ne_underscore (natDigits_lt_ten n d hd)

theorem pyNatRepr_ne_nil (n : Nat) : (pyNatRepr n).data ≠ [] := by
  unfold pyNatRepr
  simpa using natDigits_ne_nil n

theorem pyNatRepr_injective {a b : Nat} (h : pyNatRepr a = pyNatRepr b) :
    a = b := by
  unfold pyNatRepr at h
  have hdata : (natDigits a).map digitChar = (natDigits b).map digitChar := by
    injection h
  exact natDigits_injective
    (map_digitChar_inj (natDigits_lt_ten a) (natDigits_lt_ten b) hdata)

/-- Two decompositions of the same character list as
`stem ++ '_' :: digits`, with underscore-free digit parts, have the same
digit part.  This is the heart of vector-id injectivity: the id's digit
suffix after the last underscore recovers the chunk ordinal. -/
theorem underscore_suffix_eq : ∀ (xs ys ds es : List Char),
    xs ++ '_' :: ds = ys ++ '_' :: es →
    (∀ c ∈ ds, c ≠ '_') → (∀ c ∈ es, c ≠ '_') → ds = es := by
  intro xs ys ds es heq hds hes
  rcases Nat.lt_trichotomy ds.length es.length with hlt | heqlen | hgt
  · exfalso
    have hsuf1 : ('_' :: ds) <:+ ys ++ '_' :: es := ⟨xs, heq⟩
    have hsuf2 : ('_' :: es) <:+ ys ++ '_' :: es := ⟨ys, rfl⟩
    have h12 : ('_' :: ds) <:+ ('_' :: es) :=
      List.suffix_of_suffix_length_le hsuf1 hsuf2 (by simpa using hlt.le)
    rcases h12 with ⟨w, hw⟩
    cases w with
    | nil =>
      have hde : ds = es := by simpa using hw
      rw [hde] at hlt
      exact lt_irrefl _ hlt
    | cons c t =>
      have h2 : t ++ '_' :: ds = es := by
        have := hw
        rw [List.cons_append] at this
        exact (List.cons_eq_cons.mp this).2
      exact hes '_' (by rw [← h2]; simp) rfl
  · have hxy : xs.length = ys.length := by
      have := congrArg List.length heq
      simp only [List.length_append, List.length_cons] at this
      omega
    have h2 := (List.append_inj heq hxy).2
    exact (List.cons_eq_cons.mp h2).2
  · exfalso
    have hsuf1 : ('_' :: ds) <:+ xs ++ '_' :: ds := ⟨xs, rfl⟩
    have hsuf2 : ('_' :: es) <:+ xs ++ '_' :: ds := ⟨ys, heq.symm⟩
    have h21 : ('_' :: es) <:+ ('_' :: ds) :=
      List.suffix_of_suffix_length_le hsuf2 hsuf1 (by simpa using hgt.le)
    rcases h21 with ⟨w, hw⟩
    cases w with
    | nil =>
      have hde : es = ds := by simpa using hw
      rw [hde] at hgt
      exact lt_irrefl _ hgt
    | cons c t =>
      have h2 : t ++ '_' :: es = ds := by
        have := hw
        rw [List.cons_append] at this
        exact (List.cons_eq_cons.mp this).2
      exact hds '_' (by rw [← h2]; simp) rfl

/-- Injectivity of the id scheme `stem ++ "_" ++ str(i)` in the ordinal,
whatever the per-chunk stems are. -/
theorem stem_underscore_repr_inj (p q : String) (a b : Nat)
    (h : p ++ "_" ++ pyNatRepr a = q ++ "_" ++ pyNatRepr b) : a = b := by
  have hdata : p.data ++ '_' :: (pyNatRepr a).data
      = q.data ++ '_' :: (pyNatRepr b).data := by
    have := congrArg String.data h
    simpa [String.data_append] using this
  have hd := underscore_suffix_eq _ _ _ _ hdata
    (pyNatRepr_no_underscore a) (pyNatRepr_no_underscore b)
  exact pyNatRepr_injective (String.ext hd)

/-! ## Python JSON-like values -/

/-- The value shapes that the chunker's `isinstance` dispatch
distinguishes: strings, ints, bools, lists and dicts. -/
inductive JVal where
  | jstr (s : String)
  | jint (n : Int)
  | jbool (b : Bool)
  | jlist (items : List JVal)
  | jdict (entries : List (String × JVal))

/-- Python truthiness of a `JVal`. -/
def JVal.truthy : JVal → Bool
  | .jstr s => decide (s ≠ "")
  | .jint n => decide (n ≠ 0)
  | .jbool b => b
  | .jlist items => !items.isEmpty
  | .jdict entries => !entries.isEmpty

/-- Whether a value is a scalar in the sense of
`isinstance(value, (str, int, float, bool))`. -/
def JVal.isScalar : JVal → Bool
  | .jstr _ => true
  | .jint _ => true
  | .jbool _ => true
  | _ => false

/-- Python `sep.join(strings)`. -/
def sepJoin (sep : String) : List String → String
  | [] => ""
  | [s] => s
  | s :: rest => s ++ sep ++ sepJoin sep rest

mutual

/-- Python `repr` of a value (string escapes elided: quotes are placed
around string contents verbatim, which is all the claims depend on). -/
def pyRepr : JVal → String
  | .jstr s => "'" ++ s ++ "'"
  | .jint n => pyIntRepr n
  | .jbool b => if b then "True" else "False"
  | .jlist items => "[" ++ sepJoin ", " (pyReprList items) ++ "]"
  | .jdict entries => "\x7b" ++ sepJoin ", " (pyReprEntries entries) ++ "\x7d"

/-- `repr` of each element of a list. -/
def pyReprList : List JVal → List String
  | [] => []
  | v :: vs => pyRepr v :: pyReprList vs

/-- `repr` of each `'key': value` entry of a dict. -/
def pyReprEntries : List (String × JVal) → List String
  | [] => []
  | (k, v) :: kvs => ("'" ++ k ++ "': " ++ pyRepr v) :: pyReprEntries kvs

end

/-- Python `str(v)`: identity on strings, `repr`-like elsewhere. -/
def pyStr : JVal → String
  | .jstr s => s
  | .jint n => pyIntRepr n
  | .jbool b => if b then "True" else "False"
  | .jlist items => pyRepr (.jlist items)
  | .jdict entries => pyRepr (.jdict entries)

/-- Python `dict.get(k)` (first binding wins; dict keys are unique). -/
def pyGet (obj : List (String × JVal)) (k : String) : Option JVal :=
  match obj with
  | [] => none
  | (k', v) :: t => if k' = k then some v else pyGet t k

/-- Python `dict.get(k, default)`. -/
def pyGetD (obj : List (String × JVal)) (k : String) (d : JVal) : JVal :=
  (pyGet obj k).getD d

/-- Python iteration over a value: lists yield elements, strings yield
one-character strings, dicts yield their keys; ints/bools raise. -/
def pyIter : JVal → Except String (List JVal)
  | .jlist xs => .ok xs
  | .jstr s => .ok (s.data.map fun c => .jstr (String.mk [c]))
  | .jdict kvs => .ok (kvs.map fun kv => .jstr kv.1)
  | _ => .error "TypeError: object is not iterable"

/-- Collect a list of values that must all be strings
(`str.join` raises `TypeError` otherwise). -/
def pyStrList : List JVal → Except String (List String)
  | [] => .ok []
  | .jstr s :: vs =>
    match pyStrList vs with
    | .ok rest => .ok (s :: rest)
    | .error e => .error e
  | _ :: _ => .error "TypeError: sequence item is not str"

/-- Python `sep.join(parts)` for a list of values. -/
def pyJoin (sep : String) (parts : List JVal) : Except String String := do
  let ss ← pyStrList parts
  .ok (sepJoin sep ss)

/-- Python `sep.join(iterable)`. -/
def pyJoinIter (sep : String) (v : JVal) : Except String String := do
  let items ← pyIter v
  pyJoin sep items

/-- Python dict assignment `d[k] = v` on an association list: replace the
existing binding in place, else append. -/
def pyDictInsert (md : List (String × α)) (k : String) (v : α) :
    List (String × α) :=
  match md with
  | [] => [(k, v)]
  | (k', v') :: t => if k' = k then (k, v) :: t else (k', v') :: pyDictInsert t k v

/-- Python `{**base, **upd}`-style update: insert the entries of `upd`
into `base` left to right. -/
def pyDictExtend (base upd : List (String × α)) : List (String × α) :=
  upd.foldl (fun m kv => pyDictInsert m kv.1 kv.2) base

/-! ## Embedder: chunking (src/vector_service/app/embedder.py) -/

/-- A chunk produced by the chunker (`cv_id`, `section`, `text`,
`metadata`); the section field is named `sect` because `section` is a
Lean keyword. -/
structure Chunk where
  cv_id : String
  sect : String
  text : String
  metadata : List (String × JVal)

/-- Inner loop of `chunk_experience_bullets`: one chunk per truthy,
non-blank bullet, text `f"{company} - {bullet.strip()}"`.  A truthy
non-string bullet raises (`bullet.strip()`on a non-string). -/
def expBulletLoop (cv_id : String) (company title location sdate edate : JVal)
    (exp_idx : Nat) : Nat → List JVal → Except String (List Chunk)
  | _, [] => .ok []
  | bi, b :: bs =>
    if b.truthy then
      match b with
      | .jstr s =>
        if pystrip s = "" then
          expBulletLoop cv_id company title location sdate edate exp_idx (bi + 1) bs
        else
          match expBulletLoop cv_id company title location sdate edate exp_idx (bi + 1) bs with
          | .error e => .error e
          | .ok rest => .ok
            ({ cv_id := cv_id, sect := "experience",
               text := pyStr company ++ " - " ++ pystrip s,
               metadata := [("type", .jstr "experience_bullet"),
                 ("company", company), ("title", title),
                 ("exp_index", .jint exp_idx), ("bullet_index", .jint bi),
                 ("location", location), ("start_date", sdate),
                 ("end_date", edate)] } :: rest)
      | _ => .error "AttributeError: strip"
    else
      expBulletLoop cv_id company title location sdate edate exp_idx (bi + 1) bs

/-- Outer loop of `chunk_experience_bullets` over the experience
entries (each must be a dict, or `.get` raises). -/
def expEntryLoop (cv_id : String) : Nat → List JVal → Except String (List Chunk)
  | _, [] => .ok []
  | i, e :: es =>
    match e with
    | .jdict obj => do
      let company := pyGetD obj "company" (.jstr "")
      let title := pyGetD obj "title" (.jstr "")
      let bullets := pyGetD obj "bullets" (.jlist [])
      let bs ← pyIter bullets
      let here ← expBulletLoop cv_id company title
        (pyGetD obj "location" (.jstr "")) (pyGetD obj "start_date" (.jstr ""))
        (pyGetD obj "end_date" (.jstr "")) i 0 bs
      let rest ← expEntryLoop cv_id (i + 1) es
      .ok (here ++ rest)
    | _ => .error "AttributeError: get"

/-- `chunk_experience_bullets(experience_list, cv_id)`: each bullet
becomes a separate chunk with company context. -/
def chunk_experience_bullets (experience_list : JVal) (cv_id : String) :
    Except String (List Chunk) := do
  let items ← pyIter experience_list
  expEntryLoop cv_id 0 items

/-- Inner loop of `chunk_projects_bullets` over one project's bullets:
text `f"{name} - {bullet.strip()}"`. -/
def projBulletLoop (cv_id : String) (name technologies link : JVal)
    (proj_idx : Nat) : Nat → List JVal → Except String (List Chunk)
  | _, [] => .ok []
  | bi, b :: bs =>
    if b.truthy then
      match b with
      | .jstr s =>
        if pystrip s = "" then
          projBulletLoop cv_id name technologies link proj_idx (bi + 1) bs
        else
          match projBulletLoop cv_id name technologies link proj_idx (bi + 1) bs with
          | .error e => .error e
          | .ok rest => .ok
            ({ cv_id := cv_id, sect := "projects",
               text := pyStr name ++ " - " ++ pystrip s,
               metadata := [("type", .jstr "project_bullet"),
                 ("project_name", name), ("proj_index", .jint proj_idx),
                 ("bullet_index", .jint bi), ("technologies", technologies),
                 ("link", link)] } :: rest)
      | _ => .error "AttributeError: strip"
    else
      projBulletLoop cv_id name technologies link proj_idx (bi + 1) bs

/-- Outer loop of `chunk_projects_bullets`: bullets if present
(truthy), else a single description chunk when the description is
truthy and non-blank. -/
def projEntryLoop (cv_id : String) : Nat → List JVal → Except String (List Chunk)
  | _, [] => .ok []
  | i, p :: ps =>
    match p with
    | .jdict obj =>
      let name := pyGetD obj "name" (.jstr "")
      let bullets := pyGetD obj "bullets" (.jlist [])
      if bullets.truthy then do
        let bs ← pyIter bullets
        let here ← projBulletLoop cv_id name
          (pyGetD obj "technologies" (.jlist []))
          (pyGetD obj "link" (.jstr "")) i 0 bs
        let rest ← projEntryLoop cv_id (i + 1) ps
        .ok (here ++ rest)
      else
        let description := pyGetD obj "description" (.jstr "")
        if description.truthy then
          match description with
          | .jstr d =>
            if pystrip d = "" then projEntryLoop cv_id (i + 1) ps
            else
              match projEntryLoop cv_id (i + 1) ps with
              | .error e => .error e
              | .ok rest => .ok
                ({ cv_id := cv_id, sect := "projects",
                   text := pyStr name ++ " - " ++ pystrip d,
                   metadata := [("type", .jstr "project_description"),
                     ("project_name", name), ("proj_index", .jint i),
                     ("technologies", pyGetD obj "technologies" (.jlist []))] } :: rest)
          | _ => .error "AttributeError: strip"
        else projEntryLoop cv_id (i + 1) ps
    | _ => .error "AttributeError: get"

/-- `chunk_projects_bullets(projects_list, cv_id)`. -/
def chunk_projects_bullets (projects_list : JVal) (cv_id : String) :
    Except String (List Chunk) := do
  let items ← pyIter projects_list
  projEntryLoop cv_id 0 items

/-- `extract_text_from_object(obj, section)`: format the salient fields
of a list-section object.  Returns `none` where Python returns `None`;
raises (`Except.error`) where Python's `" - ".join` would raise on a
non-string part. -/
def extract_text_from_object (obj : List (String × JVal)) (sname : String) :
    Except String (Option String) :=
  if sname = "experience" then
    let company := pyGetD obj "company" (.jstr "")
    let title := pyGetD obj "title" (.jstr "")
    let bullets := pyGetD obj "bullets" (.jlist [])
    if bullets.truthy then .ok none
    else
      let location := pyGetD obj "location" (.jstr "")
      .ok (some (pystrip (pyStr company ++ " - " ++ pyStr title ++ " " ++ pyStr location)))
  else if sname = "projects" then do
    let name := pyGetD obj "name" (.jstr "")
    let description := pyGetD obj "description" (.jstr "")
    let techs := pyGetD obj "technologies" (.jlist [])
    let parts := [name]
    let parts := if description.truthy then parts ++ [description] else parts
    let parts ←
      if techs.truthy then do
        let t ← pyJoinIter ", " techs
        pure (parts ++ [JVal.jstr ("Technologies: " ++ t)])
      else pure parts
    if parts.isEmpty then .ok none
    else do
      let s ← pyJoin " - " parts
      .ok (some s)
  else if sname = "education" then do
    let institution := pyGetD obj "institution" (.jstr "")
    let degree := pyGetD obj "degree" (.jstr "")
    let field := pyGetD obj "field" (.jstr "")
    let gpa := pyGetD obj "gpa" (.jstr "")
    let parts := [institution]
    let parts := if degree.truthy then parts ++ [degree] else parts
    let parts := if field.truthy then parts ++ [field] else parts
    let parts := if gpa.truthy then parts ++ [JVal.jstr ("GPA: " ++ pyStr gpa)] else parts
    if parts.isEmpty then .ok none
    else do
      let s ← pyJoin " - " parts
      .ok (some s)
  else if sname = "leadership" then do
    let role := pyGetD obj "role" (.jstr "")
    let organization := pyGetD obj "organization" (.jstr "")
    let description := pyGetD obj "description" (.jstr "")
    let parts := [role]
    let parts := if organization.truthy then parts ++ [organization] else parts
    let parts := if description.truthy then parts ++ [description] else parts
    if parts.isEmpty then .ok none
    else do
      let s ← pyJoin " - " parts
      .ok (some s)
  else if sname = "certifications" then do
    let name := pyGetD obj "name" (.jstr "")
    let issuer := pyGetD obj "issuer" (.jstr "")
    let date := pyGetD obj "date" (.jstr "")
    let parts := [name]
    let parts := if issuer.truthy then parts ++ [JVal.jstr ("by " ++ pyStr issuer)] else parts
    let parts := if date.truthy then parts ++ [date] else parts
    if parts.isEmpty then .ok none
    else do
      let s ← pyJoin " - " parts
      .ok (some s)
  else
    .ok (some (pyStr (.jdict obj)))

/-- The flattened skills parts: extend with every truthy list-valued
category, in dict order. -/
def skillParts (entries : List (String × JVal)) : List JVal :=
  entries.foldl
    (fun acc kv =>
      match kv.2 with
      | .jlist l => if l.isEmpty then acc else acc ++ l
      | _ => acc)
    []

/-- The list-of-items loop of `chunk_structured_sections`: dict items go
through `extract_text_from_object`, string items become one chunk per
non-blank string, anything else is ignored. -/
def cssListLoop (cv_id sname : String) : Nat → List JVal → Except String (List Chunk)
  | _, [] => .ok []
  | idx, item :: items =>
    match item with
    | .jdict obj => do
      let t? ← extract_text_from_object obj sname
      let rest ← cssListLoop cv_id sname (idx + 1) items
      match t? with
      | some t =>
        if t = "" then .ok rest
        else
          let c : Chunk :=
            { cv_id := cv_id, sect := sname, text := t,
              metadata := pyDictExtend
                [("type", .jstr "object"), ("index", .jint idx)] obj }
          .ok (c :: rest)
      | none => .ok rest
    | .jstr s => do
      let rest ← cssListLoop cv_id sname (idx + 1) items
      if pystrip s = "" then .ok rest
      else
        let c : Chunk :=
          { cv_id := cv_id, sect := sname, text := pystrip s,
            metadata := [("type", .jstr "list_item"), ("index", .jint idx)] }
        .ok (c :: rest)
    | _ => cssListLoop cv_id sname (idx + 1) items

/-- One iteration of the `chunk_structured_sections` loop: the chunks
contributed by the section named `sname` with value `sdata`, dispatching
on section name and value shape exactly as the Python `if`/`isinstance`
chain does (a `continue` contributes no chunk). -/
def cssEntry (cv_id sname : String) (sdata : JVal) : Except String (List Chunk) :=
  if !sdata.truthy then .ok []
  else
    match sname, sdata with
    | "summary", .jdict d =>
      (match pyGet d "text" with
       | none => .ok []
       | some tv =>
         if !tv.truthy then .ok []
         else
           match tv with
           | .jstr s =>
             if pystrip s = "" then .ok []
             else
               .ok [{ cv_id := cv_id, sect := "summary", text := pystrip s,
                      metadata := [("type", .jstr "summary")] }]
           | _ => .error "AttributeError: strip")
    | "contact", _ => .ok []
    | "experience", _ => .ok []
    | "projects", _ => .ok []
    | "skills", .jdict d =>
      let parts := skillParts d
      if parts.isEmpty then .ok []
      else do
        let skills_text ← pyJoin ", " parts
        .ok [{ cv_id := cv_id, sect := "skills", text := skills_text,
               metadata := [("type", .jstr "skills"),
                 ("categories", .jlist (d.map (fun kv => .jstr kv.1)))] }]
    | _, .jlist items => cssListLoop cv_id sname 0 items
    | _, .jstr s =>
      if pystrip s = "" then .ok []
      else
        .ok [{ cv_id := cv_id, sect := sname, text := pystrip s,
               metadata := [("type", .jstr "string")] }]
    | _, _ => .ok []

/-- The `chunk_structured_sections` loop: chunks from each section in
dict order, appended; an exception anywhere aborts. -/
def cssLoop (cv_id : String) : List (String × JVal) → Except String (List Chunk)
  | [] => .ok []
  | (sname, sdata) :: rest => do
    let here ← cssEntry cv_id sname sdata
    let tail ← cssLoop cv_id rest
    .ok (here ++ tail)


/-- `chunk_structured_sections`. -/
def chunk_structured_sections (structured_sections : List (String × JVal))
    (cv_id : String) : Except String (List Chunk) :=
  cssLoop cv_id structured_sections

/-- The chunk emitted for one non-blank experience bullet (abbreviation of
the record literal inside `expBulletLoop`, for use in proofs). -/
def expChunkOf (cv_id : String) (company title location sdate edate : JVal)
    (exp_idx bi : Nat) (s : String) : Chunk :=
  { cv_id := cv_id, sect := "experience",
    text := pyStr company ++ " - " ++ pystrip s,
    metadata := [("type", .jstr "experience_bullet"),
      ("company", company), ("title", title),
      ("exp_index", .jint exp_idx), ("bullet_index", .jint bi),
      ("location", location), ("start_date", sdate),
      ("end_date", edate)] }

/-- The chunk emitted for one non-blank project bullet (abbreviation of
the record literal inside `projBulletLoop`). -/
def projChunkOf (cv_id : String) (name technologies link : JVal)
    (proj_idx bi : Nat) (s : String) : Chunk :=
  { cv_id := cv_id, sect := "projects",
    text := pyStr name ++ " - " ++ pystrip s,
    metadata := [("type", .jstr "project_bullet"),
      ("project_name", name), ("proj_index", .jint proj_idx),
      ("bullet_index", .jint bi), ("technologies", technologies),
      ("link", link)] }

/-- The chunk emitted for a project with no bullets but a non-blank
description (abbreviation of the record literal inside `projEntryLoop`). -/
def projDescChunkOf (cv_id : String) (i : Nat) (obj : List (String × JVal))
    (d : String) : Chunk :=
  { cv_id := cv_id, sect := "projects",
    text := pyStr (pyGetD obj "name" (.jstr "")) ++ " - " ++ pystrip d,
    metadata := [("type", .jstr "project_description"),
      ("project_name", pyGetD obj "name" (.jstr "")),
      ("proj_index", .jint i),
      ("technologies", pyGetD obj "technologies" (.jlist []))] }

/-- The description branch of the `projEntryLoop` body (the code run for a
project whose `bullets` value is falsy but whose `description` is truthy),
abbreviated as a definition so proofs can dispatch on the description value. -/
def projDescStep (cv_id : String) (i : Nat) (ps : List JVal)
    (obj : List (String × JVal)) (description : JVal) :
    Except String (List Chunk) :=
  match description with
  | .jstr d =>
    if pystrip d = "" then projEntryLoop cv_id (i + 1) ps
    else
      match projEntryLoop cv_id (i + 1) ps with
      | .error e => .error e
      | .ok rest => .ok
        ({ cv_id := cv_id, sect := "projects",
           text := pyStr (pyGetD obj "name" (.jstr "")) ++ " - " ++ pystrip d,
           metadata := [("type", .jstr "project_description"),
             ("project_name", pyGetD obj "name" (.jstr "")),
             ("proj_index", .jint i),
             ("technologies", pyGetD obj "technologies" (.jlist []))] } :: rest)
  | _ => .error "AttributeError: strip"

/-- The single chunk emitted for a non-blank summary text (abbreviation of
the record literal inside `cssEntry`, for use in proofs). -/
def summaryChunkOf (cv_id s : String) : Chunk :=
  { cv_id := cv_id, sect := "summary", text := pystrip s,
    metadata := [("type", .jstr "summary")] }

/-- The single chunk emitted for a non-empty skills dict (abbreviation of
the record literal inside `cssEntry`). -/
def skillsChunkOf (cv_id : String) (d : List (String × JVal))
    (skills_text : String) : Chunk :=
  { cv_id := cv_id, sect := "skills", text := skills_text,
    metadata := [("type", .jstr "skills"),
      ("categories", .jlist (d.map (fun kv => .jstr kv.1)))] }

/-- The single chunk emitted for a non-blank string-valued section
(abbreviation of the record literal inside `cssEntry`). -/
def strChunkOf (cv_id sname s : String) : Chunk :=
  { cv_id := cv_id, sect := sname, text := pystrip s,
    metadata := [("type", .jstr "string")] }

/-! ## Vector store adapter (src/vector_service/app/pinecone_client.py) -/

/-- A record as upserted to the vector store.  The embedding values are
not modelled (the embedding function is an external collaborator); the
claims concern only `id` and `metadata`. -/
structure VectorRecord where
  id : String
  metadata : List (String × String)

/-- Python character slicing `s[:n]`. -/
def pySlice (s : String) (n : Nat) : String :=
  ⟨s.data.take n⟩

/-- The metadata of one record: base keys `cv_id`, `section` and `text`
(text sliced to 1000 characters), then each scalar extra stringified and
sliced to 500 characters; non-scalar extras are skipped by the
`isinstance(value, (str, int, float, bool))` test. -/
def recordMetadata (c : Chunk) : List (String × String) :=
  c.metadata.foldl
    (fun md kv =>
      if kv.2.isScalar then pyDictInsert md kv.1 (pySlice (pyStr kv.2) 500) else md)
    [("cv_id", c.cv_id), ("section", c.sect), ("text", pySlice c.text 1000)]

/-- `upsert_chunks_to_pinecone(chunks)`: one record per chunk, with
`vector_id = f"{chunk['cv_id']}_{chunk['section']}_{i}"` for the global
enumeration index `i`. -/
def upsert_chunks_to_pinecone (chunks : List Chunk) : List VectorRecord :=
  chunks.enum.map fun ic =>
    { id := ic.2.cv_id ++ "_" ++ ic.2.sect ++ "_" ++ pyNatRepr ic.1
      metadata := recordMetadata ic.2 }

/-- The ordinal of position `i` within its section: how many chunks before
position `i` carry section `s`.  Used to state that the vector id is a
deterministic function of `(cv_id, section, ordinal_within_section)`. -/
def withinOrdinal (chunks : List Chunk) (i : Nat) (s : String) : Nat :=
  (chunks.take i).countP (fun c => decide (c.sect = s))

/-! ## Service: ingest path (src/vector_service/app/service.py) -/

/-- Lines 49–55 of `process_cv_for_embedding`: the experience chunks, when
the key is present and truthy. -/
def expStep (structured_sections : List (String × JVal)) (cv_id : String) :
    Except String (List Chunk) :=
  match pyGet structured_sections "experience" with
  | some v => if v.truthy then chunk_experience_bullets v cv_id else .ok []
  | none => .ok []

/-- Lines 57–64 of `process_cv_for_embedding`: the project chunks, when
the key is present and truthy. -/
def projStep (structured_sections : List (String × JVal)) (cv_id : String) :
    Except String (List Chunk) :=
  match pyGet structured_sections "projects" with
  | some v => if v.truthy then chunk_projects_bullets v cv_id else .ok []
  | none => .ok []

/-- The chunk-assembly step of `process_cv_for_embedding` (lines 46–71):
experience bullets, then project bullets, then all other sections. -/
def buildAllChunks (structured_sections : List (String × JVal))
    (cv_id : String) : Except String (List Chunk) := do
  let experience_chunks ← expStep structured_sections cv_id
  let project_chunks ← projStep structured_sections cv_id
  let other_sections := structured_sections.filter
    (fun kv => kv.1 ≠ "experience" && kv.1 ≠ "projects")
  let other_chunks ← chunk_structured_sections other_sections cv_id
  .ok (experience_chunks ++ project_chunks ++ other_chunks)

/-- A stored résumé: its `structured_sections` dict. -/
def Resume := List (String × JVal)

/-- Python exception classes distinguished by the consumer callback. -/
inductive PyExc where
  | memoryError (msg : String)
  | osError (msg : String)
  | other (msg : String)

/-- `process_cv_for_embedding(cv_id)` against a structured-document
store: fetch (404 when the store has no document, surfaced as the
generic `Exception(f"Failed to fetch CV: {status}")`), chunk, and upsert.
Embedding is the external pure collaborator and adds no observable state
here; the result is the list of records written to the vector store. -/
def process_cv_for_embedding (store : String → Option Resume) (cv_id : String) :
    Except PyExc (List VectorRecord) :=
  match store cv_id with
  | none => .error (.other ("Failed to fetch CV: " ++ pyNatRepr 404))
  | some structured_sections =>
    match buildAllChunks structured_sections cv_id with
    | .error e => .error (.other e)
    | .ok all_chunks =>
      if all_chunks.isEmpty then .ok []
      else .ok (upsert_chunks_to_pinecone all_chunks)

/-! ## Consumer (src/vector_service/app/mq_consumer.py) -/

/-- Outcome of the callback for one delivered message. -/
inductive MqAction where
  | ack
  | nackRequeue
  | nackNoRequeue
deriving DecidableEq

/-- The `except`-chain of `callback`: `MemoryError` is poison; `OSError`
is poison when its text matches a paging-file marker, else requeued; any
other exception is poison when its lowercased text contains a resource
marker (`"paging file"`, `"1455"`, `"memory"`), else requeued. -/
def classifyExc : PyExc → MqAction
  | .memoryError _ => .nackNoRequeue
  | .osError msg =>
    if pyInStr "paging file" (pylower msg) || pyInStr "1455" msg then
      .nackNoRequeue
    else .nackRequeue
  | .other msg =>
    let error_msg := pylower msg
    if pyInStr "paging file" error_msg || pyInStr "1455" error_msg
        || pyInStr "memory" error_msg then
      .nackNoRequeue
    else .nackRequeue

/-- The consumer `callback` for one message whose parsed payload carries
the optional `cv_id` field: missing/empty `cv_id` is poison; otherwise
`process_cv_for_embedding` runs, an exception selects the `except`
chain's action, success acks.  The second component is the list of
records written to the vector store. -/
def consumer_callback (store : String → Option Resume)
    (cv_id_field : Option String) : MqAction × List VectorRecord :=
  match cv_id_field with
  | none => (.nackNoRequeue, [])
  | some cv_id =>
    if cv_id = "" then (.nackNoRequeue, [])
    else
      match process_cv_for_embedding store cv_id with
      | .ok recs => (.ack, recs)
      | .error e => (classifyExc e, [])

/-! ## Retriever (src/vector_service/app/service.py, query path) -/

/-- The metadata of one vector-store match (all fields read through
`.get` with defaults in the source, hence optional here). -/
structure MatchMeta where
  sect : Option String
  cv_id : Option String
  raw_text : Option String
  text : Option String

/-- One vector-store match: `{"score": ..., "metadata": {...}}`. -/
structure VMatch where
  score : Option ℚ
  metadata : Option MatchMeta

/-- The empty metadata dict (what `match.get("metadata", {}) or {}`
yields when the field is absent or falsy). -/
def emptyMeta : MatchMeta := ⟨none, none, none, none⟩

/-- `float(match.get("score", 0.0))`. -/
def effScore (m : VMatch) : ℚ := m.score.getD 0

/-- `match.get("metadata", {}) or {}`. -/
def effMeta (m : VMatch) : MatchMeta := m.metadata.getD emptyMeta

/-- `(meta.get("raw_text") or meta.get("text") or "").strip()`. -/
def matchText (meta : MatchMeta) : String :=
  pystrip (truthyOr meta.raw_text (truthyOr meta.text ""))

/-- A chunk hit returned by `find_similar_chunks`. -/
structure ChunkHit where
  text : String
  sect : String
  cv_id : String
  score : ℚ
deriving DecidableEq

/-- Loop state of `find_similar_chunks`: the per-CV counters
(`defaultdict(int)`), the two dedup sets and the two output lists. -/
structure FsState where
  perCv : String → ℕ
  seenBulletKeys : List (String × String)
  seenSummaryKeys : List (ℚ × String)
  bulletChunks : List ChunkHit
  summaryChunks : List ChunkHit

/-- The initial loop state. -/
def fsInit : FsState :=
  { perCv := fun _ => 0, seenBulletKeys := [], seenSummaryKeys := [],
    bulletChunks := [], summaryChunks := [] }

/-- `per_cv_counts[cv_id] += 1`. -/
def bumpCv (f : String → ℕ) (cv : String) : String → ℕ :=
  fun s => if s = cv then f s + 1 else f s

/-- Number of chunks accepted so far
(`len(bullet_chunks) + len(summary_chunks)`). -/
def fsSize (st : FsState) : ℕ :=
  st.bulletChunks.length + st.summaryChunks.length

/-- The match-walking loop of `find_similar_chunks` (lines 133–200),
with the Python `continue`s as tail calls and the post-accept global-cap
`break`.  Parameters: `min_score`, `per_cv_limit`, `max_returned_chunks`. -/
def fsLoop (min_score : ℚ) (per_cv_limit max_returned_chunks : ℕ) :
    List VMatch → FsState → FsState
  | [], st => st
  | m :: mlist, st =>
    let score := effScore m
    if score < min_score then
      fsLoop min_score per_cv_limit max_returned_chunks mlist st
    else
      let meta := effMeta m
      let sect := meta.sect.getD ""
      let cv_id := meta.cv_id.getD ""
      let text := matchText meta
      if text = "" then
        fsLoop min_score per_cv_limit max_returned_chunks mlist st
      else if cv_id ≠ "" ∧ per_cv_limit ≤ st.perCv cv_id then
        fsLoop min_score per_cv_limit max_returned_chunks mlist st
      else
        let norm_text := pystrip (pylower text)
        if sect = "experience" ∨ sect = "projects" then
          let key := (sect, norm_text)
          if key ∈ st.seenBulletKeys then
            fsLoop min_score per_cv_limit max_returned_chunks mlist st
          else
            let st' : FsState :=
              { st with
                seenBulletKeys := st.seenBulletKeys ++ [key],
                bulletChunks := st.bulletChunks
                  ++ [{ text := text, sect := sect, cv_id := cv_id, score := score }],
                perCv := bumpCv st.perCv cv_id }
            if max_returned_chunks ≤ fsSize st' then st'
            else fsLoop min_score per_cv_limit max_returned_chunks mlist st'
        else if sect = "summary" then
          let key := (round3 score, norm_text)
          if key ∈ st.seenSummaryKeys then
            fsLoop min_score per_cv_limit max_returned_chunks mlist st
          else
            let st' : FsState :=
              { st with
                seenSummaryKeys := st.seenSummaryKeys ++ [key],
                summaryChunks := st.summaryChunks
                  ++ [{ text := text, sect := sect, cv_id := cv_id, score := score }],
                perCv := bumpCv st.perCv cv_id }
            if max_returned_chunks ≤ fsSize st' then st'
            else fsLoop min_score per_cv_limit max_returned_chunks mlist st'
        else
          let key := (sect, norm_text)
          if key ∈ st.seenBulletKeys then
            fsLoop min_score per_cv_limit max_returned_chunks mlist st
          else
            let st' : FsState :=
              { st with
                seenBulletKeys := st.seenBulletKeys ++ [key],
                bulletChunks := st.bulletChunks
                  ++ [{ text := text, sect := sect, cv_id := cv_id, score := score }],
                perCv := bumpCv st.perCv cv_id }
            if max_returned_chunks ≤ fsSize st' then st'
            else fsLoop min_score per_cv_limit max_returned_chunks mlist st'

/-- The post-loop result: `bullet_chunks + summary_chunks`. -/
def find_similar_chunks_core (mlist : List VMatch) (min_score : ℚ)
    (max_returned_chunks per_cv_limit : ℕ) : List ChunkHit :=
  let st := fsLoop min_score per_cv_limit max_returned_chunks mlist fsInit
  st.bulletChunks ++ st.summaryChunks

/-- `find_similar_chunks` including its input validation.  `jd_text` is
embedded and sent to the store, which answers `mlist`
(`max_chunks_to_query` is forwarded as the store's `top_k`); the walk
itself only depends on `mlist` and the remaining parameters. -/
def find_similar_chunks (jd_text : String) (mlist : List VMatch)
    (min_score : ℚ) (max_chunks_to_query max_returned_chunks per_cv_limit : ℕ) :
    Except String (List ChunkHit) :=
  if pystrip jd_text = "" then
    .error "Job description text cannot be empty"
  else if ¬ (0 ≤ min_score ∧ min_score ≤ 1) then
    .error "min_score must be between 0.0 and 1.0"
  else
    .ok (find_similar_chunks_core mlist min_score max_returned_chunks per_cv_limit)

/-- The hit built from an accepted match. -/
def hitOf (m : VMatch) : ChunkHit :=
  { text := matchText (effMeta m), sect := (effMeta m).sect.getD "",
    cv_id := (effMeta m).cv_id.getD "", score := effScore m }

/-- Decision of the spec's filter cascade (§4.5.1 step 4) for one match
against the current walk state. -/
inductive WalkDecision where
  | reject
  | acceptAsBullet (key : String × String)
  | acceptAsSummary (key : ℚ × String)

/-- The spec's four filters, in the stated order: threshold, blank text,
per-CV cap, then section-aware deduplication (`summary` keyed by
`(round(score, 3), lowercase_trimmed_text)`, every other section by
`(section, lowercase_trimmed_text)`). -/
def specDecide (min_score : ℚ) (per_cv_limit : ℕ) (st : FsState) (m : VMatch) :
    WalkDecision :=
  if effScore m < min_score then .reject
  else if matchText (effMeta m) = "" then .reject
  else if (effMeta m).cv_id.getD "" ≠ ""
      ∧ per_cv_limit ≤ st.perCv ((effMeta m).cv_id.getD "") then .reject
  else
    let sect := (effMeta m).sect.getD ""
    let norm := pystrip (pylower (matchText (effMeta m)))
    if sect = "summary" then
      if (round3 (effScore m), norm) ∈ st.seenSummaryKeys then .reject
      else .acceptAsSummary (round3 (effScore m), norm)
    else
      if (sect, norm) ∈ st.seenBulletKeys then .reject
      else .acceptAsBullet (sect, norm)

/-- The spec's walk (§4.5.1 steps 4–5): apply the cascade, accept, and
stop once the accepted count reaches `max_returned_chunks`. -/
def specWalk (min_score : ℚ) (per_cv_limit max_returned_chunks : ℕ) :
    List VMatch → FsState → FsState
  | [], st => st
  | m :: ms, st =>
    match specDecide min_score per_cv_limit st m with
    | .reject => specWalk min_score per_cv_limit max_returned_chunks ms st
    | .acceptAsBullet key =>
      let st' : FsState :=
        { st with
          seenBulletKeys := st.seenBulletKeys ++ [key],
          bulletChunks := st.bulletChunks ++ [hitOf m],
          perCv := bumpCv st.perCv ((effMeta m).cv_id.getD "") }
      if max_returned_chunks ≤ fsSize st' then st'
      else specWalk min_score per_cv_limit max_returned_chunks ms st'
    | .acceptAsSummary key =>
      let st' : FsState :=
        { st with
          seenSummaryKeys := st.seenSummaryKeys ++ [key],
          summaryChunks := st.summaryChunks ++ [hitOf m],
          perCv := bumpCv st.perCv ((effMeta m).cv_id.getD "") }
      if max_returned_chunks ≤ fsSize st' then st'
      else specWalk min_score per_cv_limit max_returned_chunks ms st'

/-- The spec-side description of `find_similar_chunks` (modelled from
the spec's words in §4.5.1): walk the matches through the ordered filter
cascade, then return accepted bullet-like chunks before summaries,
each group in accept order. -/
def findSimilarChunksSpecModel (mlist : List VMatch) (min_score : ℚ)
    (max_returned_chunks per_cv_limit : ℕ) : List ChunkHit :=
  let st := specWalk min_score per_cv_limit max_returned_chunks mlist fsInit
  st.bulletChunks ++ st.summaryChunks

/-! ## Retriever: top-k CV search -/

/-- A ranked CV hit. -/
structure CvHit where
  cv_id : String
  score : ℚ
deriving DecidableEq

/-- `scores_by_cv[cv_id] += score` on an insertion-ordered association
list (Python dicts preserve first-insertion order). -/
def addScore : List (String × ℚ) → String → ℚ → List (String × ℚ)
  | [], cv, s => [(cv, s)]
  | (k, v) :: t, cv, s =>
    if k = cv then (k, v + s) :: t else (k, v) :: addScore t cv s

/-- The aggregation loop of `search_top_k_cvs` (lines 239–245): sum
scores per `cv_id`, skipping matches with a missing or empty `cv_id`. -/
def aggScores (mlist : List VMatch) : List (String × ℚ) :=
  mlist.foldl
    (fun acc m =>
      match (m.metadata.getD emptyMeta).cv_id with
      | none => acc
      | some cv => if cv = "" then acc else addScore acc cv (effScore m))
    []

/-- `search_top_k_cvs` after the store call: aggregate, stable-sort by
score descending (`sorted(..., key=score, reverse=True)`), take
`top_k`. -/
def search_top_k_cvs_core (mlist : List VMatch) (top_k : ℕ) : List CvHit :=
  let sorted_items := (aggScores mlist).mergeSort (fun a b => decide (b.2 ≤ a.2))
  (sorted_items.take top_k).map (fun p => { cv_id := p.1, score := p.2 })

/-- `search_top_k_cvs` including its input validation; `raw_top_k` is
forwarded to the store as `top_k` of the query that produced `mlist`. -/
def search_top_k_cvs (jd_text : String) (mlist : List VMatch)
    (top_k raw_top_k : ℕ) : Except String (List CvHit) :=
  if pystrip jd_text = "" then
    .error "Job description text cannot be empty"
  else
    .ok (search_top_k_cvs_core mlist top_k)

/-! ## Internal RPC surface (src/vector_service/app/api.py) -/

/-- The request model of `POST /internal/similar_chunks` in the source:
`jd_text` plus `top_k` (default 10, pydantic-validated into 1..50).
The request model has no `min_score` or `max_chunks_to_query` field. -/
structure SimilarChunksRequest where
  jd_text : String
  top_k : ℕ := 10

/-- An HTTP outcome of the route. -/
inductive HttpReply where
  | ok (chunks : List ChunkHit)
  | httpError (status : ℕ) (detail : String)
deriving DecidableEq

/-- The `similar_chunks` route handler.  The body of the `try` evaluates
`service.find_similar_chunks(jd_text=body.jd_text, top_k=body.top_k)`;
the service function's parameters are `(jd_text, min_score,
max_chunks_to_query, max_returned_chunks, per_cv_limit)` — there is no
`top_k` — so the call raises
`TypeError: find_similar_chunks() got an unexpected keyword argument`
before any validation or retrieval runs, and the `except Exception`
handler maps it (like every other exception) to HTTP 500. -/
def similar_chunks_route (body : SimilarChunksRequest) : HttpReply :=
  let call_result : Except String (List ChunkHit) :=
    .error "TypeError: find_similar_chunks() got an unexpected keyword argument 'top_k'"
  match call_result with
  | .ok chunks => .ok chunks
  | .error e => .httpError 500 ("Error while finding similar chunks: " ++ e)

/-! ## Walk equivalence (claim C5) -/

theorem fsLoop_eq_specWalk (min_score : ℚ) (lim maxR : ℕ) :
    ∀ ms st, fsLoop min_score lim maxR ms st = specWalk min_score lim maxR ms st := by
  intro ms
  induction ms with
  | nil => intro st; rfl
  | cons m ms ih =>
    intro st
    simp only [fsLoop, specWalk, specDecide]
    by_cases h1 : effScore m < min_score
    · simp only [if_pos h1]
      exact ih st
    · simp only [if_neg h1]
      by_cases h2 : matchText (effMeta m) = ""
      · simp only [if_pos h2]
        exact ih st
      · simp only [if_neg h2]
        by_cases h3 : (effMeta m).cv_id.getD "" ≠ ""
            ∧ lim ≤ st.perCv ((effMeta m).cv_id.getD "")
        · simp only [if_pos h3]
          exact ih st
        · simp only [if_neg h3]
          by_cases hexp : (effMeta m).sect.getD "" = "experience"
              ∨ (effMeta m).sect.getD "" = "projects"
          · have hnsum : ¬ (effMeta m).sect.getD "" = "summary" := by
              rcases hexp with h | h <;> rw [h] <;> decide
            simp only [if_pos hexp, if_neg hnsum]
            by_cases hseen : ((effMeta m).sect.getD "",
                pystrip (pylower (matchText (effMeta m)))) ∈ st.seenBulletKeys
            · simp only [if_pos hseen]
              exact ih st
            · simp only [if_neg hseen]
              simp only [hitOf]
              split <;> first | rfl | exact ih _
          · simp only [if_neg hexp]
            by_cases hsum : (effMeta m).sect.getD "" = "summary"
            · simp only [if_pos hsum]
              by_cases hseen : (round3 (effScore m),
                  pystrip (pylower (matchText (effMeta m)))) ∈ st.seenSummaryKeys
              · simp only [if_pos hseen]
                exact ih st
              · simp only [if_neg hseen]
                simp only [hitOf]
                split <;> first | rfl | exact ih _
            · simp only [if_neg hsum]
              by_cases hseen : ((effMeta m).sect.getD "",
                  pystrip (pylower (matchText (effMeta m)))) ∈ st.seenBulletKeys
              · simp only [if_pos hseen]
                exact ih st
              · simp only [if_neg hseen]
                simp only [hitOf]
                split <;> first | rfl | exact ih _

/-- **C5.** `find_similar_chunks` walks the store's matches in order,
applying the filters in exactly the order: score below `min_score`,
blank trimmed text, per-CV cap reached, then deduplication keyed by
`(section, lowercase_trimmed_text)` for experience/projects and any
other non-summary section and by `(round(score, 3),
lowercase_trimmed_text)` for summary; it stops once the accepted count
reaches `max_returned_chunks`, and returns accepted bullet-like chunks
before summary chunks, preserving accept order within each group.
Formally: the code walk coincides with the spec-side cascade model on
every input, both for the raw walk and through the validating
wrapper. -/
theorem find_similar_chunks_follows_spec_cascade
    (jd_text : String) (mlist : List VMatch) (min_score : ℚ)
    (max_chunks_to_query max_returned_chunks per_cv_limit : ℕ) :
    find_similar_chunks_core mlist min_score max_returned_chunks per_cv_limit
      = findSimilarChunksSpecModel mlist min_score max_returned_chunks per_cv_limit
    ∧ (∀ out, find_similar_chunks jd_text mlist min_score max_chunks_to_query
          max_returned_chunks per_cv_limit = .ok out →
        out = findSimilarChunksSpecModel mlist min_score max_returned_chunks per_cv_limit) := by
  constructor
  · unfold find_similar_chunks_core findSimilarChunksSpecModel
    rw [fsLoop_eq_specWalk]
  · intro out hout
    unfold find_similar_chunks at hout
    split at hout
    · exact absurd hout (by simp)
    · split at hout
      · exact absurd hout (by simp)
      · have : out = find_similar_chunks_core mlist min_score
            max_returned_chunks per_cv_limit := by
          injection hout with h
          exact h.symm
        rw [this]
        unfold find_similar_chunks_core findSimilarChunksSpecModel
        rw [fsLoop_eq_specWalk]

/-- Witness for C5 at a concrete input. -/
theorem find_similar_chunks_follows_spec_cascade_witness :
    find_similar_chunks "python" [] 0 50 30 3 = .ok []
    ∧ ([] : List ChunkHit) = findSimilarChunksSpecModel [] 0 30 3 :=
  ⟨by rfl,
   (find_similar_chunks_follows_spec_cascade "python" [] 0 50 30 3).2 [] (by rfl)⟩

/-! ## Invariants of the walk (claim C2) -/

/-- The bullet dedup key of a hit: `(section, lowercase_trimmed_text)`. -/
def bulletKeyOf (h : ChunkHit) : String × String :=
  (h.sect, pystrip (pylower h.text))

/-- The summary dedup key of a hit:
`(round(score, 3), lowercase_trimmed_text)`. -/
def summaryKeyOf (h : ChunkHit) : ℚ × String :=
  (round3 h.score, pystrip (pylower h.text))

/-- The walk-state invariant: the dedup sets are exactly the key images
of the accepted chunks, those key images are duplicate-free, the two
output lists are segregated by section, all accepted scores clear the
threshold, the per-CV counters count accepted chunks exactly, and every
non-empty CV is within the cap. -/
structure FsInv (min_score : ℚ) (lim : ℕ) (st : FsState) : Prop where
  seenB : st.seenBulletKeys = st.bulletChunks.map bulletKeyOf
  seenS : st.seenSummaryKeys = st.summaryChunks.map summaryKeyOf
  nodupB : (st.bulletChunks.map bulletKeyOf).Nodup
  nodupS : (st.summaryChunks.map summaryKeyOf).Nodup
  bulletSect : ∀ h ∈ st.bulletChunks, h.sect ≠ "summary"
  summarySect : ∀ h ∈ st.summaryChunks, h.sect = "summary"
  scoreGe : ∀ h ∈ st.bulletChunks ++ st.summaryChunks, min_score ≤ h.score
  perCvEq : ∀ cv, st.perCv cv
    = ((st.bulletChunks ++ st.summaryChunks).filter (fun h => h.cv_id = cv)).length
  perCvCap : ∀ cv, cv ≠ "" → st.perCv cv ≤ lim

theorem fsInit_inv (min_score : ℚ) (lim : ℕ) : FsInv min_score lim fsInit := by
  constructor <;> simp [fsInit]

theorem FsInv.acceptBullet {min_score : ℚ} {lim : ℕ} {st : FsState}
    (hinv : FsInv min_score lim st) (m : VMatch)
    (hscore : ¬ effScore m < min_score)
    (hcap : ¬ ((effMeta m).cv_id.getD "" ≠ ""
      ∧ lim ≤ st.perCv ((effMeta m).cv_id.getD "")))
    (hnsum : (effMeta m).sect.getD "" ≠ "summary")
    (hfresh : ((effMeta m).sect.getD "",
      pystrip (pylower (matchText (effMeta m)))) ∉ st.seenBulletKeys) :
    FsInv min_score lim
      { st with
        seenBulletKeys := st.seenBulletKeys
          ++ [((effMeta m).sect.getD "", pystrip (pylower (matchText (effMeta m))))],
        bulletChunks := st.bulletChunks ++ [hitOf m],
        perCv := bumpCv st.perCv ((effMeta m).cv_id.getD "") } := by
  have hkey : bulletKeyOf (hitOf m)
      = ((effMeta m).sect.getD "", pystrip (pylower (matchText (effMeta m)))) := rfl
  have hfresh' : bulletKeyOf (hitOf m) ∉ st.bulletChunks.map bulletKeyOf := by
    rw [hkey, ← hinv.seenB]
    exact hfresh
  constructor
  · simp only [List.map_append, List.map_cons, List.map_nil, hinv.seenB, hkey]
  · exact hinv.seenS
  · rw [List.map_append]
    rw [List.nodup_append]
    refine ⟨hinv.nodupB, by simp, ?_⟩
    intro x hx hx'
    simp only [List.map_cons, List.map_nil, List.mem_singleton] at hx'
    rw [hx'] at hx
    exact hfresh' hx
  · exact hinv.nodupS
  · intro h hm
    rcases List.mem_append.mp hm with hold | hnew
    · exact hinv.bulletSect h hold
    · rw [List.mem_singleton.mp hnew]
      exact hnsum
  · exact hinv.summarySect
  · intro h hm
    rcases List.mem_append.mp hm with hm1 | hm2
    · rcases List.mem_append.mp hm1 with hold | hnew
      · exact hinv.scoreGe h (List.mem_append_left _ hold)
      · rw [List.mem_singleton.mp hnew]
        exact not_lt.mp hscore
    · exact hinv.scoreGe h (List.mem_append_right _ hm2)
  · intro cv
    have hbase := hinv.perCvEq cv
    by_cases hs : cv = (effMeta m).cv_id.getD ""
    · simp only [bumpCv, if_pos hs]
      rw [hbase]
      simp only [List.append_assoc, List.filter_append, List.length_append]
      have : (List.filter (fun h => decide (h.cv_id = cv)) [hitOf m]).length = 1 := by
        simp [hitOf, hs]
      simp only [List.filter_append, List.length_append] at this ⊢
      omega
    · simp only [bumpCv, if_neg hs]
      rw [hbase]
      simp only [List.append_assoc, List.filter_append, List.length_append]
      have : (List.filter (fun h => decide (h.cv_id = cv)) [hitOf m]).length = 0 := by
        simp [hitOf]
        intro hcontra
        exact hs hcontra.symm
      omega
  · intro cv hcv
    by_cases hs : cv = (effMeta m).cv_id.getD ""
    · simp only [bumpCv, if_pos hs]
      have hne : (effMeta m).cv_id.getD "" ≠ "" := by rw [← hs]; exact hcv
      have : ¬ lim ≤ st.perCv ((effMeta m).cv_id.getD "") := by
        intro hle
        exact hcap ⟨hne, hle⟩
      rw [hs]
      omega
    · simp only [bumpCv, if_neg hs]
      exact hinv.perCvCap cv hcv

theorem FsInv.acceptSummary {min_score : ℚ} {lim : ℕ} {st : FsState}
    (hinv : FsInv min_score lim st) (m : VMatch)
    (hscore : ¬ effScore m < min_score)
    (hcap : ¬ ((effMeta m).cv_id.getD "" ≠ ""
      ∧ lim ≤ st.perCv ((effMeta m).cv_id.getD "")))
    (hsum : (effMeta m).sect.getD "" = "summary")
    (hfresh : (round3 (effScore m),
      pystrip (pylower (matchText (effMeta m)))) ∉ st.seenSummaryKeys) :
    FsInv min_score lim
      { st with
        seenSummaryKeys := st.seenSummaryKeys
          ++ [(round3 (effScore m), pystrip (pylower (matchText (effMeta m))))],
        summaryChunks := st.summaryChunks ++ [hitOf m],
        perCv := bumpCv st.perCv ((effMeta m).cv_id.getD "") } := by
  have hkey : summaryKeyOf (hitOf m)
      = (round3 (effScore m), pystrip (pylower (matchText (effMeta m)))) := rfl
  have hfresh' : summaryKeyOf (hitOf m) ∉ st.summaryChunks.map summaryKeyOf := by
    rw [hkey, ← hinv.seenS]
    exact hfresh
  constructor
  · exact hinv.seenB
  · simp only [List.map_append, List.map_cons, List.map_nil, hinv.seenS, hkey]
  · exact hinv.nodupB
  · rw [List.map_append]
    rw [List.nodup_append]
    refine ⟨hinv.nodupS, by simp, ?_⟩
    intro x hx hx'
    simp only [List.map_cons, List.map_nil, List.mem_singleton] at hx'
    rw [hx'] at hx
    exact hfresh' hx
  · exact hinv.bulletSect
  · intro h hm
    rcases List.mem_append.mp hm with hold | hnew
    · exact hinv.summarySect h hold
    · rw [List.mem_singleton.mp hnew]
      exact hsum
  · intro h hm
    rcases List.mem_append.mp hm with hm1 | hm2
    · exact hinv.scoreGe h (List.mem_append_left _ hm1)
    · rcases List.mem_append.mp hm2 with hold | hnew
      · exact hinv.scoreGe h (List.mem_append_right _ hold)
      · rw [List.mem_singleton.mp hnew]
        exact not_lt.mp hscore
  · intro cv
    have hbase := hinv.perCvEq cv
    by_cases hs : cv = (effMeta m).cv_id.getD ""
    · simp only [bumpCv, if_pos hs]
      rw [hbase]
      have : (List.filter (fun h => decide (h.cv_id = cv)) [hitOf m]).length = 1 := by
        simp [hitOf, hs]
      simp only [List.filter_append, List.length_append] at this ⊢
      omega
    · simp only [bumpCv, if_neg hs]
      rw [hbase]
      have : (List.filter (fun h => decide (h.cv_id = cv)) [hitOf m]).length = 0 := by
        simp [hitOf]
        intro hcontra
        exact hs hcontra.symm
      simp only [List.filter_append, List.length_append] at this ⊢
      omega
  · intro cv hcv
    by_cases hs : cv = (effMeta m).cv_id.getD ""
    · simp only [bumpCv, if_pos hs]
      have hne : (effMeta m).cv_id.getD "" ≠ "" := by rw [← hs]; exact hcv
      have : ¬ lim ≤ st.perCv ((effMeta m).cv_id.getD "") := by
        intro hle
        exact hcap ⟨hne, hle⟩
      rw [hs]
      omega
    · simp only [bumpCv, if_neg hs]
      exact hinv.perCvCap cv hcv

theorem fsLoop_inv (min_score : ℚ) (lim maxR : ℕ) :
    ∀ (ms : List VMatch) (st : FsState), FsInv min_score lim st →
      FsInv min_score lim (fsLoop min_score lim maxR ms st) := by
  intro ms
  induction ms with
  | nil => intro st h; exact h
  | cons m ms ih =>
    intro st hinv
    simp only [fsLoop]
    by_cases h1 : effScore m < min_score
    · simp only [if_pos h1]; exact ih st hinv
    · simp only [if_neg h1]
      by_cases h2 : matchText (effMeta m) = ""
      · simp only [if_pos h2]; exact ih st hinv
      · simp only [if_neg h2]
        by_cases h3 : (effMeta m).cv_id.getD "" ≠ ""
            ∧ lim ≤ st.perCv ((effMeta m).cv_id.getD "")
        · simp only [if_pos h3]; exact ih st hinv
        · simp only [if_neg h3]
          by_cases hexp : (effMeta m).sect.getD "" = "experience"
              ∨ (effMeta m).sect.getD "" = "projects"
          · simp only [if_pos hexp]
            by_cases hseen : ((effMeta m).sect.getD "",
                pystrip (pylower (matchText (effMeta m)))) ∈ st.seenBulletKeys
            · simp only [if_pos hseen]; exact ih st hinv
            · simp only [if_neg hseen]
              have hnsum : (effMeta m).sect.getD "" ≠ "summary" := by
                rcases hexp with h | h <;> rw [h] <;> decide
              have hinv' := hinv.acceptBullet m h1 h3 hnsum hseen
              split
              · exact hinv'
              · exact ih _ hinv'
          · simp only [if_neg hexp]
            by_cases hsum : (effMeta m).sect.getD "" = "summary"
            · simp only [if_pos hsum]
              by_cases hseen : (round3 (effScore m),
                  pystrip (pylower (matchText (effMeta m)))) ∈ st.seenSummaryKeys
              · simp only [if_pos hseen]; exact ih st hinv
              · simp only [if_neg hseen]
                have hinv' := hinv.acceptSummary m h1 h3 hsum hseen
                split
                · exact hinv'
                · exact ih _ hinv'
            · simp only [if_neg hsum]
              by_cases hseen : ((effMeta m).sect.getD "",
                  pystrip (pylower (matchText (effMeta m)))) ∈ st.seenBulletKeys
              · simp only [if_pos hseen]; exact ih st hinv
              · simp only [if_neg hseen]
                have hinv' := hinv.acceptBullet m h1 h3 hsum hseen
                split
                · exact hinv'
                · exact ih _ hinv'

theorem fsLoop_size (min_score : ℚ) (lim maxR : ℕ) :
    ∀ (ms : List VMatch) (st : FsState), fsSize st < maxR →
      fsSize (fsLoop min_score lim maxR ms st) ≤ maxR := by
  intro ms
  induction ms with
  | nil => intro st h; exact Nat.le_of_lt h
  | cons m ms ih =>
    intro st hlt
    simp only [fsLoop]
    by_cases h1 : effScore m < min_score
    · simp only [if_pos h1]; exact ih st hlt
    · simp only [if_neg h1]
      by_cases h2 : matchText (effMeta m) = ""
      · simp only [if_pos h2]; exact ih st hlt
      · simp only [if_neg h2]
        by_cases h3 : (effMeta m).cv_id.getD "" ≠ ""
            ∧ lim ≤ st.perCv ((effMeta m).cv_id.getD "")
        · simp only [if_pos h3]; exact ih st hlt
        · simp only [if_neg h3]
          by_cases hexp : (effMeta m).sect.getD "" = "experience"
              ∨ (effMeta m).sect.getD "" = "projects"
          · simp only [if_pos hexp]
            by_cases hseen : ((effMeta m).sect.getD "",
                pystrip (pylower (matchText (effMeta m)))) ∈ st.seenBulletKeys
            · simp only [if_pos hseen]; exact ih st hlt
            · simp only [if_neg hseen]
              split
              · rename_i hbrk
                simp only [fsSize] at hlt ⊢
                simp only [List.length_append, List.length_cons, List.length_nil] at hlt ⊢
                omega
              · rename_i hbrk
                apply ih
                omega
          · simp only [if_neg hexp]
            by_cases hsum : (effMeta m).sect.getD "" = "summary"
            · simp only [if_pos hsum]
              by_cases hseen : (round3 (effScore m),
                  pystrip (pylower (matchText (effMeta m)))) ∈ st.seenSummaryKeys
              · simp only [if_pos hseen]; exact ih st hlt
              · simp only [if_neg hseen]
                split
                · rename_i hbrk
                  simp only [fsSize] at hlt ⊢
                  simp only [List.length_append, List.length_cons, List.length_nil] at hlt ⊢
                  omega
                · rename_i hbrk
                  apply ih
                  omega
            · simp only [if_neg hsum]
              by_cases hseen : ((effMeta m).sect.getD "",
                  pystrip (pylower (matchText (effMeta m)))) ∈ st.seenBulletKeys
              · simp only [if_pos hseen]; exact ih st hlt
              · simp only [if_neg hseen]
                split
                · rename_i hbrk
                  simp only [fsSize] at hlt ⊢
                  simp only [List.length_append, List.length_cons, List.length_nil] at hlt ⊢
                  omega
                · rename_i hbrk
                  apply ih
                  omega

/-- **C2 (amended).** For every `jd_text`, `min_score`,
`max_chunks_to_query`, `max_returned_chunks` and `per_cv_limit`, and
every match list, a successfully returned list satisfies: every
element's score is `≥ min_score`; no two non-summary elements share the
bullet dedup key `(section, lowercase trimmed text)` and no two summary
elements share the summary dedup key `(round(score,3), lowercase
trimmed text)`; no non-empty `cv_id` occurs in more than `per_cv_limit`
elements; and, provided `max_returned_chunks ≥ 1`, the list's length is
`≤ max_returned_chunks`.  (The unamended claim — a single bullet dedup
key over all elements, and the length bound also at
`max_returned_chunks = 0` — fails; see the counterexample.) -/
theorem find_similar_chunks_invariants
    (jd_text : String) (mlist : List VMatch) (min_score : ℚ)
    (max_chunks_to_query max_returned_chunks per_cv_limit : ℕ)
    (out : List ChunkHit)
    (hout : find_similar_chunks jd_text mlist min_score max_chunks_to_query
      max_returned_chunks per_cv_limit = .ok out) :
    (∀ h ∈ out, min_score ≤ h.score)
    ∧ ((out.filter (fun h => h.sect ≠ "summary")).map bulletKeyOf).Nodup
    ∧ ((out.filter (fun h => h.sect = "summary")).map summaryKeyOf).Nodup
    ∧ (∀ cv, cv ≠ "" → (out.filter (fun h => h.cv_id = cv)).length ≤ per_cv_limit)
    ∧ (1 ≤ max_returned_chunks → out.length ≤ max_returned_chunks) := by
  have hcore : out = find_similar_chunks_core mlist min_score
      max_returned_chunks per_cv_limit := by
    unfold find_similar_chunks at hout
    split at hout
    · exact absurd hout (by simp)
    · split at hout
      · exact absurd hout (by simp)
      · injection hout with h
        exact h.symm
  subst hcore
  simp only [find_similar_chunks_core]
  have hinv := fsLoop_inv min_score per_cv_limit max_returned_chunks mlist
    fsInit (fsInit_inv min_score per_cv_limit)
  set stFin := fsLoop min_score per_cv_limit max_returned_chunks mlist fsInit with hst
  have hfb : stFin.bulletChunks.filter (fun h => decide (h.sect ≠ "summary"))
      = stFin.bulletChunks := by
    rw [List.filter_eq_self]
    intro a ha
    simpa using hinv.bulletSect a ha
  have hfs : stFin.summaryChunks.filter (fun h => decide (h.sect ≠ "summary"))
      = [] := by
    simp only [List.filter_eq_nil_iff]
    intro a ha
    simpa using hinv.summarySect a ha
  have hfb2 : stFin.bulletChunks.filter (fun h => decide (h.sect = "summary"))
      = [] := by
    simp only [List.filter_eq_nil_iff]
    intro a ha
    simpa using hinv.bulletSect a ha
  have hfs2 : stFin.summaryChunks.filter (fun h => decide (h.sect = "summary"))
      = stFin.summaryChunks := by
    rw [List.filter_eq_self]
    intro a ha
    simpa using hinv.summarySect a ha
  refine ⟨hinv.scoreGe, ?_, ?_, ?_, ?_⟩
  · rw [List.filter_append, hfb, hfs, List.append_nil]
    exact hinv.nodupB
  · rw [List.filter_append, hfb2, hfs2, List.nil_append]
    exact hinv.nodupS
  · intro cv hcv
    have := hinv.perCvEq cv
    have hcap := hinv.perCvCap cv hcv
    omega
  · intro hge
    have := fsLoop_size min_score per_cv_limit max_returned_chunks mlist fsInit
      (by simpa [fsSize, fsInit] using hge)
    simpa [fsSize, List.length_append] using this

/-- Witness for C2 at a concrete input. -/
theorem find_similar_chunks_invariants_witness :
    find_similar_chunks "python" [] 0 50 30 3 = .ok []
    ∧ ((∀ h ∈ ([] : List ChunkHit), (0 : ℚ) ≤ h.score)
      ∧ ((([] : List ChunkHit).filter (fun h => h.sect ≠ "summary")).map bulletKeyOf).Nodup
      ∧ ((([] : List ChunkHit).filter (fun h => h.sect = "summary")).map summaryKeyOf).Nodup
      ∧ (∀ cv, cv ≠ "" → (([] : List ChunkHit).filter (fun h => h.cv_id = cv)).length ≤ 3)
      ∧ (1 ≤ 30 → ([] : List ChunkHit).length ≤ 30)) :=
  ⟨by rfl, find_similar_chunks_invariants "python" [] 0 50 30 3 [] (by rfl)⟩

/-- Metadata of a summary match with empty `cv_id` and raw text `"dup"`. -/
def cxSummaryMeta : MatchMeta :=
  { sect := some "summary", cv_id := some "", raw_text := some "dup", text := none }

/-- A summary match with empty `cv_id`, raw text `"dup"` and score `q`. -/
def cxSummaryMatch (q : ℚ) : VMatch :=
  { score := some q, metadata := some cxSummaryMeta }

/-- Metadata of an experience match with `cv_id` `"A"`. -/
def cxBulletMeta : MatchMeta :=
  { sect := some "experience", cv_id := some "A", raw_text := some "led x", text := none }

/-- An experience match with `cv_id` `"A"` and score 1. -/
def cxBulletMatch : VMatch :=
  { score := some 1, metadata := some cxBulletMeta }

theorem core_two_summaries (q1 q2 : ℚ) (h1 : ¬ q1 < 0) (h2 : ¬ q2 < 0)
    (hne : ¬ round3 q2 = round3 q1) :
    find_similar_chunks_core [cxSummaryMatch q1, cxSummaryMatch q2] 0 10 3
      = [{ text := "dup", sect := "summary", cv_id := "", score := q1 },
         { text := "dup", sect := "summary", cv_id := "", score := q2 }] := by
  have edup : ("dup" : String) ≠ "" := by decide
  have elow : pystrip (pylower "dup") = "dup" := by decide
  have etext : ∀ q, matchText (effMeta (cxSummaryMatch q)) = "dup" := fun _ => rfl
  have esect : ∀ q, (effMeta (cxSummaryMatch q)).sect.getD "" = "summary" := fun _ => rfl
  have ecv : ∀ q, (effMeta (cxSummaryMatch q)).cv_id.getD "" = "" := fun _ => rfl
  have escore : ∀ q, effScore (cxSummaryMatch q) = q := fun _ => rfl
  have es1 : ("summary" : String) ≠ "experience" := by decide
  have es2 : ("summary" : String) ≠ "projects" := by decide
  simp only [find_similar_chunks_core, fsLoop, etext, esect, ecv, escore,
    elow, edup, es1, es2, h1, h2, hne, fsInit, fsSize, bumpCv,
    if_false, if_true, List.not_mem_nil, List.mem_singleton, Prod.mk.injEq,
    ne_eq, not_false_eq_true, not_true_eq_false, false_and, and_false,
    or_self, ite_false, ite_true, List.length_append, List.length_cons,
    List.length_nil, List.nil_append, List.append_nil]
  norm_num

/-- **C2 counterexample.**  As stated, the claim fails on the code in
two ways.  (a) Two summary matches with identical text but different
rounded scores are both returned, and they share the bullet dedup key
`("summary", "dup")`, so "no two elements share the bullet dedup key"
is violated.  (b) With `max_returned_chunks = 0` a single accepted
match is returned (the global-cap check runs only after an accept), so
"length ≤ max_returned_chunks" is violated. -/
theorem find_similar_chunks_invariants_counterexample :
    (find_similar_chunks_core [cxSummaryMatch 1, cxSummaryMatch 0] 0 10 3).map bulletKeyOf
      = [("summary", "dup"), ("summary", "dup")]
    ∧ ¬ ((find_similar_chunks_core [cxSummaryMatch 1, cxSummaryMatch 0] 0 10 3).map
        bulletKeyOf).Nodup
    ∧ (find_similar_chunks_core [cxBulletMatch] 1 0 3).length = 1 := by
  have hcore := core_two_summaries 1 0 (by norm_num) (by norm_num)
    (by norm_num [round3, round_eq])
  refine ⟨?_, ?_, ?_⟩
  · rw [hcore]
    decide
  · rw [hcore]
    decide
  · rfl

/-! ## Empty cv_id and the per-CV cap (claim C10) -/

theorem dropWhile_replicate_a (i : ℕ) :
    List.dropWhile pyIsSpace (List.replicate i 'a') = List.replicate i 'a' := by
  cases i with
  | zero => rfl
  | succ n => rw [List.replicate_succ, List.dropWhile_cons, if_neg (by decide)]

theorem stripChars_replicate_a (i : ℕ) :
    stripChars (List.replicate i 'a') = List.replicate i 'a' := by
  unfold stripChars
  rw [dropWhile_replicate_a, List.reverse_replicate, dropWhile_replicate_a,
    List.reverse_replicate]

/-- The all-`a` string of length `i`. -/
def repA (i : ℕ) : String := String.mk (List.replicate i 'a')

theorem pystrip_repA (i : ℕ) : pystrip (repA i) = repA i := by
  unfold pystrip repA
  rw [show (String.mk (List.replicate i 'a')).data = List.replicate i 'a' from rfl,
    stripChars_replicate_a]

theorem pylower_repA (i : ℕ) : pylower (repA i) = repA i := by
  unfold pylower repA
  rw [show (String.mk (List.replicate i 'a')).data = List.replicate i 'a' from rfl,
    List.map_replicate]
  rfl

theorem repA_ne_empty {i : ℕ} (h : 1 ≤ i) : repA i ≠ "" := by
  intro hcontra
  have hdata := congrArg String.data hcontra
  have : List.replicate i 'a' = ([] : List Char) := hdata
  have := congrArg List.length this
  simp at this
  omega

theorem repA_inj {i j : ℕ} (h : repA i = repA j) : i = j := by
  have : List.replicate i 'a' = List.replicate j 'a' := by
    injection h
  have := congrArg List.length this
  simpa using this

/-- The `n`-th empty-`cv_id` match: section `"s"`, text `aⁿ`, score 1. -/
def c10Meta (i : ℕ) : MatchMeta :=
  { sect := some "s", cv_id := some "", raw_text := some (repA i), text := none }

/-- The match used to exhibit cap exemption. -/
def c10Match (i : ℕ) : VMatch :=
  { score := some 1, metadata := some (c10Meta i) }

/-- `m` such matches with text lengths `k, k+1, …`. -/
def c10Matches (k m : ℕ) : List VMatch := (List.range' k m).map c10Match

/-- The hit the walk accepts for `c10Match j`. -/
def c10Hit (j : ℕ) : ChunkHit :=
  { text := repA j, sect := "s", cv_id := "", score := 1 }

theorem c10_walk (lim maxR : ℕ) :
    ∀ (m k : ℕ) (st : FsState), 1 ≤ k → fsSize st + m < maxR →
      (∀ j, k ≤ j → ("s", repA j) ∉ st.seenBulletKeys) →
      (fsLoop 0 lim maxR (c10Matches k m) st).bulletChunks
          = st.bulletChunks ++ (List.range' k m).map c10Hit
        ∧ (fsLoop 0 lim maxR (c10Matches k m) st).summaryChunks
          = st.summaryChunks := by
  intro m
  induction m with
  | zero =>
    intro k st _ _ _
    simp [c10Matches, fsLoop]
  | succ m ih =>
    intro k st hk hsz hfresh
    have hrange : List.range' k (m + 1) = k :: List.range' (k + 1) m := by
      rw [List.range'_succ]
    rw [c10Matches, hrange, List.map_cons]
    have hscore : ¬ effScore (c10Match k) < 0 := by
      show ¬ (1 : ℚ) < 0
      norm_num
    have htext : matchText (effMeta (c10Match k)) = repA k := by
      show pystrip (truthyOr (some (repA k)) (truthyOr none "")) = repA k
      rw [show truthyOr (some (repA k)) (truthyOr none "") = repA k by
        unfold truthyOr
        simp [repA_ne_empty hk]]
      exact pystrip_repA k
    have hne : matchText (effMeta (c10Match k)) ≠ "" := by
      rw [htext]; exact repA_ne_empty hk
    have hcv : (effMeta (c10Match k)).cv_id.getD "" = "" := rfl
    have hsect : (effMeta (c10Match k)).sect.getD "" = "s" := rfl
    have hnorm : pystrip (pylower (matchText (effMeta (c10Match k)))) = repA k := by
      rw [htext, pylower_repA, pystrip_repA]
    rw [fsLoop]
    simp only [if_neg hscore, if_neg (by simpa using hne), hcv, hsect, hnorm]
    rw [if_neg (by simp)]
    rw [if_neg (by decide : ¬ (("s" : String) = "experience" ∨ ("s" : String) = "projects"))]
    rw [if_neg (by decide : ¬ ("s" : String) = "summary")]
    rw [if_neg (hfresh k le_rfl)]
    have hsz' : ¬ maxR ≤ fsSize
        { st with
          seenBulletKeys := st.seenBulletKeys ++ [("s", repA k)],
          bulletChunks := st.bulletChunks
            ++ [{ text := matchText (effMeta (c10Match k)), sect := "s",
                  cv_id := "", score := effScore (c10Match k) }],
          perCv := bumpCv st.perCv "" } := by
      simp only [fsSize, List.length_append, List.length_cons, List.length_nil]
      simp only [fsSize] at hsz
      omega
    rw [if_neg hsz']
    have hmain := ih (k + 1)
      { st with
        seenBulletKeys := st.seenBulletKeys ++ [("s", repA k)],
        bulletChunks := st.bulletChunks
          ++ [{ text := matchText (effMeta (c10Match k)), sect := "s",
                cv_id := "", score := effScore (c10Match k) }],
        perCv := bumpCv st.perCv "" }
      (by omega)
      (by
        simp only [fsSize, List.length_append, List.length_cons, List.length_nil]
        simp only [fsSize] at hsz
        omega)
      (by
        intro j hj
        simp only [List.mem_append, List.mem_singleton]
        rintro (hmem | hkey)
        · exact hfresh j (by omega) hmem
        · have : j = k := repA_inj (congrArg Prod.snd hkey)
          omega)
    rcases hmain with ⟨hb, hs⟩
    constructor
    · rw [show c10Matches (k + 1) m = (List.range' (k + 1) m).map c10Match from rfl] at hb
      rw [hb]
      simp only [List.append_assoc, List.singleton_append, List.map_cons]
      congr 2
      show ({ text := matchText (effMeta (c10Match k)), sect := "s",
              cv_id := "", score := effScore (c10Match k) } : ChunkHit) = c10Hit k
      rw [c10Hit, htext]
      rfl
    · rw [show c10Matches (k + 1) m = (List.range' (k + 1) m).map c10Match from rfl] at hs
      rw [hs]

/-- **C10.** A match whose metadata carries an empty `cv_id` is exempt
from the per-CV cap: for every `per_cv_limit` and every `n`, the `n`
distinct empty-`cv_id` matches of `c10Matches 1 n` are all accepted
(the output is the same closed form for every `per_cv_limit`, has
length `n`, and every returned element carries `cv_id = ""`). -/
theorem find_similar_chunks_empty_cv_exempt_from_cap
    (per_cv_limit n : ℕ) :
    find_similar_chunks_core (c10Matches 1 n) 0 (n + 1) per_cv_limit
        = (List.range' 1 n).map c10Hit
    ∧ (find_similar_chunks_core (c10Matches 1 n) 0 (n + 1) per_cv_limit).length = n
    ∧ ∀ h ∈ find_similar_chunks_core (c10Matches 1 n) 0 (n + 1) per_cv_limit,
        h.cv_id = "" := by
  have hwalk := c10_walk per_cv_limit (n + 1) n 1 fsInit (le_refl 1)
    (by simp [fsSize, fsInit])
    (by intro j _; simp [fsInit])
  rcases hwalk with ⟨hb, hs⟩
  have hout : find_similar_chunks_core (c10Matches 1 n) 0 (n + 1) per_cv_limit
      = (List.range' 1 n).map c10Hit := by
    simp only [find_similar_chunks_core]
    rw [hb, hs]
    simp [fsInit]
  refine ⟨hout, ?_, ?_⟩
  · rw [hout]
    simp
  · intro h hm
    rw [hout] at hm
    rcases List.mem_map.mp hm with ⟨j, _, rfl⟩
    rfl

/-! ## Aggregation lemmas (claim C4) -/

/-- The `cv_id` borne by a match (`meta.get("cv_id")`). -/
def matchCv (m : VMatch) : Option String := (m.metadata.getD emptyMeta).cv_id

/-- One step of the aggregation loop of `search_top_k_cvs`. -/
def aggStep (acc : List (String × ℚ)) (m : VMatch) : List (String × ℚ) :=
  match (m.metadata.getD emptyMeta).cv_id with
  | none => acc
  | some cv => if cv = "" then acc else addScore acc cv (effScore m)

theorem aggScores_eq_fold (ms : List VMatch) :
    aggScores ms = ms.foldl aggStep [] := rfl

/-- Total value of key `k` in an association list. -/
def assocSum (l : List (String × ℚ)) (k : String) : ℚ :=
  ((l.filter (fun p => p.1 = k)).map Prod.snd).sum

/-- Sum of the scores of the matches bearing `cv_id = k`. -/
def matchSum (ms : List VMatch) (k : String) : ℚ :=
  ((ms.filter (fun m => matchCv m = some k)).map effScore).sum

theorem assocSum_nil (k : String) : assocSum [] k = 0 := rfl

theorem assocSum_cons (a : String) (b : ℚ) (t : List (String × ℚ)) (k : String) :
    assocSum ((a, b) :: t) k = (if a = k then b else 0) + assocSum t k := by
  by_cases h : a = k <;> simp [assocSum, List.filter_cons, h]

theorem assocSum_addScore (cv : String) (s : ℚ) (k : String) :
    ∀ l, assocSum (addScore l cv s) k
      = assocSum l k + (if k = cv then s else 0) := by
  intro l
  induction l with
  | nil =>
    show assocSum [(cv, s)] k = assocSum [] k + (if k = cv then s else 0)
    rw [assocSum_cons, assocSum_nil]
    by_cases h : k = cv
    · simp [h]
    · have h' : ¬ cv = k := fun hc => h hc.symm
      simp [h, h']
  | cons p t ih =>
    rcases p with ⟨a, b⟩
    by_cases ha : a = cv
    · rw [show addScore ((a, b) :: t) cv s = (a, b + s) :: t by
        simp [addScore, ha]]
      rw [assocSum_cons, assocSum_cons]
      by_cases hk : a = k
      · have : k = cv := by rw [← hk, ha]
        simp [hk, this]
        ring
      · have : ¬ k = cv := by
          rw [← ha]
          intro hc
          exact hk hc.symm
        simp [hk, this]
    · rw [show addScore ((a, b) :: t) cv s = (a, b) :: addScore t cv s by
        simp [addScore, ha]]
      rw [assocSum_cons, assocSum_cons, ih]
      ring

/-- Membership in `addScore`: every binding is an old one, possibly
with an updated value at the key `cv`, or the fresh `cv` binding. -/
theorem mem_addScore_fst (cv : String) (s : ℚ) :
    ∀ l p, p ∈ addScore l cv s → p.1 ∈ l.map Prod.fst ∨ p.1 = cv := by
  intro l
  induction l with
  | nil =>
    intro p hp
    simp [addScore] at hp
    right
    rw [hp]
  | cons q t ih =>
    rcases q with ⟨a, b⟩
    intro p hp
    by_cases ha : a = cv
    · rw [show addScore ((a, b) :: t) cv s = (a, b + s) :: t by
        simp [addScore, ha]] at hp
      rcases List.mem_cons.mp hp with h | h
      · left; rw [h]; simp
      · left
        simp only [List.map_cons, List.mem_cons]
        right
        exact List.mem_map_of_mem Prod.fst h
    · rw [show addScore ((a, b) :: t) cv s = (a, b) :: addScore t cv s by
        simp [addScore, ha]] at hp
      rcases List.mem_cons.mp hp with h | h
      · left; rw [h]; simp
      · rcases ih p h with h' | h'
        · left
          simp only [List.map_cons, List.mem_cons]
          right
          exact h'
        · right; exact h'

theorem map_fst_addScore (cv : String) (s : ℚ) :
    ∀ l, (addScore l cv s).map Prod.fst
      = if cv ∈ l.map Prod.fst then l.map Prod.fst
        else l.map Prod.fst ++ [cv] := by
  intro l
  induction l with
  | nil => simp [addScore]
  | cons q t ih =>
    rcases q with ⟨a, b⟩
    by_cases ha : a = cv
    · rw [show addScore ((a, b) :: t) cv s = (a, b + s) :: t by
        simp [addScore, ha]]
      simp [ha]
    · rw [show addScore ((a, b) :: t) cv s = (a, b) :: addScore t cv s by
        simp [addScore, ha]]
      simp only [List.map_cons, ih]
      have hca : ¬ cv = a := fun h => ha h.symm
      by_cases hmem : cv ∈ t.map Prod.fst
      · simp [hmem, hca]
      · simp [hmem, hca]

theorem nodup_fst_addScore (cv : String) (s : ℚ) (l : List (String × ℚ))
    (h : (l.map Prod.fst).Nodup) : ((addScore l cv s).map Prod.fst).Nodup := by
  rw [map_fst_addScore]
  by_cases hmem : cv ∈ l.map Prod.fst
  · simpa [hmem] using h
  · simp only [hmem, if_false]
    rw [List.nodup_append]
    refine ⟨h, by simp, ?_⟩
    intro x hx hx'
    simp only [List.mem_singleton] at hx'
    rw [hx'] at hx
    exact hmem hx

theorem assocSum_eq_zero_of_not_mem (k : String) :
    ∀ l : List (String × ℚ), k ∉ l.map Prod.fst → assocSum l k = 0 := by
  intro l
  induction l with
  | nil => intro _; rfl
  | cons p t ih =>
    rcases p with ⟨a, b⟩
    intro hk
    rw [assocSum_cons]
    have ha : ¬ a = k := by
      intro hc
      exact hk (by simp [hc])
    rw [if_neg ha, ih (fun hc => hk (by simp [hc]))]
    ring

theorem assoc_nodup_value :
    ∀ (l : List (String × ℚ)) (k : String) (v : ℚ),
      (l.map Prod.fst).Nodup → (k, v) ∈ l → assocSum l k = v := by
  intro l
  induction l with
  | nil => intro k v _ hm; simp at hm
  | cons p t ih =>
    rcases p with ⟨a, b⟩
    intro k v hnd hm
    simp only [List.map_cons, List.nodup_cons] at hnd
    rcases List.mem_cons.mp hm with h | h
    · have hak : a = k := by
        have := congrArg Prod.fst h.symm
        exact this
      have hbv : b = v := by
        have := congrArg Prod.snd h.symm
        exact this
      rw [assocSum_cons, if_pos hak, ← hak,
        assocSum_eq_zero_of_not_mem a t hnd.1, hbv]
      ring
    · have hak : ¬ a = k := by
        intro hc
        apply hnd.1
        rw [hc]
        exact List.mem_map_of_mem Prod.fst h
      rw [assocSum_cons, if_neg hak, ih k v hnd.2 h]
      ring

theorem foldl_aggStep_sum (k : String) (hk : k ≠ "") :
    ∀ (ms : List VMatch) (acc : List (String × ℚ)),
      assocSum (ms.foldl aggStep acc) k = assocSum acc k + matchSum ms k := by
  intro ms
  induction ms with
  | nil => intro acc; simp [matchSum]
  | cons m ms ih =>
    intro acc
    rw [List.foldl_cons, ih]
    simp only [matchSum, List.filter_cons]
    cases hcv : (m.metadata.getD emptyMeta).cv_id with
    | none =>
      have hstep : aggStep acc m = acc := by simp [aggStep, hcv]
      have hbear : ¬ matchCv m = some k := by simp [matchCv, hcv]
      rw [hstep, if_neg (by simpa using hbear)]
    | some cv =>
      by_cases hcve : cv = ""
      · have hstep : aggStep acc m = acc := by simp [aggStep, hcv, hcve]
        have hbear : ¬ matchCv m = some k := by
          simp [matchCv, hcv, hcve]
          intro hc
          exact hk hc.symm
        rw [hstep, if_neg (by simpa using hbear)]
      · have hstep : aggStep acc m = addScore acc cv (effScore m) := by
          simp [aggStep, hcv, hcve]
        rw [hstep, assocSum_addScore]
        by_cases hkc : k = cv
        · have hbear : matchCv m = some k := by simp [matchCv, hcv, hkc]
          rw [if_pos (show decide (matchCv m = some k) = true by simp [hbear])]
          simp only [List.map_cons, List.sum_cons]
          rw [if_pos hkc]
          ring
        · have hbear : ¬ matchCv m = some k := by
            simp [matchCv, hcv]
            intro hc
            exact hkc hc.symm
          rw [if_neg (show ¬ decide (matchCv m = some k) = true by simp [hbear])]
          rw [if_neg hkc]
          ring

theorem foldl_aggStep_nodup :
    ∀ (ms : List VMatch) (acc : List (String × ℚ)),
      (acc.map Prod.fst).Nodup → ((ms.foldl aggStep acc).map Prod.fst).Nodup := by
  intro ms
  induction ms with
  | nil => intro acc h; exact h
  | cons m ms ih =>
    intro acc h
    rw [List.foldl_cons]
    apply ih
    cases hcv : (m.metadata.getD emptyMeta).cv_id with
    | none => simpa [aggStep, hcv] using h
    | some cv =>
      by_cases hcve : cv = ""
      · simpa [aggStep, hcv, hcve] using h
      · rw [show aggStep acc m = addScore acc cv (effScore m) by
          simp [aggStep, hcv, hcve]]
        exact nodup_fst_addScore cv (effScore m) acc h

theorem foldl_aggStep_keys_ne :
    ∀ (ms : List VMatch) (acc : List (String × ℚ)),
      (∀ p ∈ acc, p.1 ≠ "") → ∀ p ∈ ms.foldl aggStep acc, p.1 ≠ "" := by
  intro ms
  induction ms with
  | nil => intro acc h; exact h
  | cons m ms ih =>
    intro acc h
    rw [List.foldl_cons]
    apply ih
    intro p hp
    cases hcv : (m.metadata.getD emptyMeta).cv_id with
    | none =>
      rw [show aggStep acc m = acc by simp [aggStep, hcv]] at hp
      exact h p hp
    | some cv =>
      by_cases hcve : cv = ""
      · rw [show aggStep acc m = acc by simp [aggStep, hcv, hcve]] at hp
        exact h p hp
      · rw [show aggStep acc m = addScore acc cv (effScore m) by
          simp [aggStep, hcv, hcve]] at hp
        rcases mem_addScore_fst cv (effScore m) acc p hp with hm | hm
        · rcases List.mem_map.mp hm with ⟨q, hq, hq1⟩
          rw [← hq1]
          exact h q hq
        · rw [hm]
          exact hcve

/-- **C4.** `search_top_k_cvs` computes each returned `cv_id`'s score as
the sum of the scores of all matches bearing that `cv_id` (matches with
a missing — or falsy/empty — `cv_id` skipped), sorts aggregates by
score descending, returns at most `top_k` entries, each `cv_id` at most
once, with scores non-increasing. -/
theorem search_top_k_cvs_spec
    (jd_text : String) (mlist : List VMatch) (top_k raw_top_k : ℕ)
    (out : List CvHit)
    (hout : search_top_k_cvs jd_text mlist top_k raw_top_k = .ok out) :
    (∀ hit ∈ out, hit.cv_id ≠ "" ∧ hit.score = matchSum mlist hit.cv_id)
    ∧ out.Pairwise (fun a b => b.score ≤ a.score)
    ∧ out.length ≤ top_k
    ∧ (out.map CvHit.cv_id).Nodup := by
  have hcore : out = search_top_k_cvs_core mlist top_k := by
    unfold search_top_k_cvs at hout
    split at hout
    · exact absurd hout (by simp)
    · injection hout with h
      exact h.symm
  subst hcore
  simp only [search_top_k_cvs_core]
  set agg := aggScores mlist with hagg
  set le : (String × ℚ) → (String × ℚ) → Bool := fun a b => decide (b.2 ≤ a.2) with hle
  have hperm : (agg.mergeSort le).Perm agg := List.mergeSort_perm agg le
  have hnodup_agg : (agg.map Prod.fst).Nodup := by
    rw [hagg, aggScores_eq_fold]
    exact foldl_aggStep_nodup mlist [] (by simp)
  have hkeys_ne : ∀ p ∈ agg, p.1 ≠ "" := by
    rw [hagg, aggScores_eq_fold]
    exact foldl_aggStep_keys_ne mlist [] (by simp)
  have hval : ∀ p ∈ agg, p.2 = matchSum mlist p.1 := by
    intro p hp
    have hne := hkeys_ne p hp
    have h1 : assocSum agg p.1 = p.2 :=
      assoc_nodup_value agg p.1 p.2 hnodup_agg hp
    have h2 : assocSum agg p.1 = assocSum [] p.1 + matchSum mlist p.1 := by
      rw [hagg, aggScores_eq_fold]
      exact foldl_aggStep_sum p.1 hne mlist []
    rw [← h1, h2, assocSum_nil]
    ring
  refine ⟨?_, ?_, ?_, ?_⟩
  · intro hit hm
    rcases List.mem_map.mp hm with ⟨p, hp, rfl⟩
    have hpagg : p ∈ agg := hperm.mem_iff.mp (List.mem_of_mem_take hp)
    exact ⟨hkeys_ne p hpagg, hval p hpagg⟩
  · have hsorted : (agg.mergeSort le).Pairwise (fun a b => le a b = true) := by
      apply List.sorted_mergeSort
      · intro a b c hab hbc
        simp only [hle, decide_eq_true_eq] at hab hbc ⊢
        exact le_trans hbc hab
      · intro a b
        simp only [hle, Bool.or_eq_true, decide_eq_true_eq]
        exact le_total b.2 a.2
    have htake : ((agg.mergeSort le).take top_k).Pairwise (fun a b => le a b = true) :=
      hsorted.sublist (List.take_sublist _ _)
    rw [List.pairwise_map]
    refine htake.imp ?_
    intro a b hab
    simpa [hle] using hab
  · simpa using List.length_take_le top_k (agg.mergeSort le)
  · have h1 : ((agg.mergeSort le).map Prod.fst).Nodup :=
      (hperm.map Prod.fst).nodup_iff.mpr hnodup_agg
    have h2 : (((agg.mergeSort le).take top_k).map Prod.fst).Nodup :=
      h1.sublist ((List.take_sublist _ _).map Prod.fst)
    have h3 : (((agg.mergeSort le).take top_k).map
        (fun p => ({ cv_id := p.1, score := p.2 } : CvHit))).map CvHit.cv_id
        = ((agg.mergeSort le).take top_k).map Prod.fst := by
      rw [List.map_map]
      rfl
    rw [h3]
    exact h2

theorem search_top_k_cvs_on_empty : search_top_k_cvs "python" [] 3 30 = .ok [] := by
  unfold search_top_k_cvs
  rw [if_neg (by decide : ¬ pystrip "python" = "")]
  unfold search_top_k_cvs_core
  rw [show aggScores [] = [] from rfl, List.mergeSort_nil]
  rfl

/-- Witness for C4 at a concrete input. -/
theorem search_top_k_cvs_spec_witness :
    search_top_k_cvs "python" [] 3 30 = .ok []
    ∧ ((∀ hit ∈ ([] : List CvHit), hit.cv_id ≠ "" ∧ hit.score = matchSum [] hit.cv_id)
      ∧ ([] : List CvHit).Pairwise (fun a b => b.score ≤ a.score)
      ∧ ([] : List CvHit).length ≤ 3
      ∧ (([] : List CvHit).map CvHit.cv_id).Nodup) :=
  ⟨search_top_k_cvs_on_empty,
   search_top_k_cvs_spec "python" [] 3 30 [] search_top_k_cvs_on_empty⟩

/-! ## Chunk counts for experience and projects (claim C3) -/

/-- Whether a value is a list whose items are all strings. -/
def isStrList : JVal → Bool
  | .jlist bs => bs.all fun b => match b with | .jstr _ => true | _ => false
  | _ => false

/-- The strings of a string list value. -/
def jstrsOf : JVal → List String
  | .jlist bs => bs.filterMap fun b => match b with | .jstr s => some s | _ => none
  | _ => []

/-- Whether an optional dict entry is absent or a string. -/
def isStrOrAbsent : Option JVal → Bool
  | none => true
  | some (.jstr _) => true
  | some _ => false

/-- A well-typed experience entry: a dict whose `bullets` value (default
`[]`) is a list of strings. -/
def wtExpEntry : JVal → Bool
  | .jdict obj => isStrList (pyGetD obj "bullets" (.jlist []))
  | _ => false

/-- A well-typed experience section: a list of well-typed entries. -/
def wtExpList : JVal → Bool
  | .jlist items => items.all wtExpEntry
  | _ => false

/-- A well-typed project entry: a dict with string-list `bullets` and an
absent-or-string `description`. -/
def wtProjEntry : JVal → Bool
  | .jdict obj => isStrList (pyGetD obj "bullets" (.jlist []))
      && isStrOrAbsent (pyGet obj "description")
  | _ => false

/-- A well-typed projects section: a list of well-typed entries. -/
def wtProjList : JVal → Bool
  | .jlist items => items.all wtProjEntry
  | _ => false

/-- The texts the spec expects from one experience entry: one per
non-blank bullet, `"{company} - {bullet_trimmed}"`. -/
def expEntryTexts (e : JVal) : List String :=
  match e with
  | .jdict obj =>
    ((jstrsOf (pyGetD obj "bullets" (.jlist []))).filter
        (fun s => pystrip s ≠ "")).map
      (fun s => pyStr (pyGetD obj "company" (.jstr "")) ++ " - " ++ pystrip s)
  | _ => []

/-- The texts the spec expects from one project entry: one per non-blank
bullet (`"{name} - {bullet_trimmed}"`), or — when the entry has no
bullets — one `"{name} - {description_trimmed}"` if the description is
non-blank. -/
def projEntryTexts (e : JVal) : List String :=
  match e with
  | .jdict obj =>
    match pyGetD obj "bullets" (.jlist []) with
    | .jlist (b :: bs) =>
      ((jstrsOf (.jlist (b :: bs))).filter (fun s => pystrip s ≠ "")).map
        (fun s => pyStr (pyGetD obj "name" (.jstr "")) ++ " - " ++ pystrip s)
    | _ =>
      match pyGet obj "description" with
      | some (.jstr d) =>
        if pystrip d ≠ ""
        then [pyStr (pyGetD obj "name" (.jstr "")) ++ " - " ++ pystrip d]
        else []
      | _ => []
  | _ => []

theorem expBulletLoop_spec (cv : String) (company title loc sd ed : JVal)
    (i : ℕ) :
    ∀ (bs : List JVal) (bi : ℕ), (∀ b ∈ bs, ∃ s, b = .jstr s) →
      ∃ chunks, expBulletLoop cv company title loc sd ed i bi bs = .ok chunks
        ∧ chunks.map Chunk.text
          = ((bs.filterMap (fun b => match b with | .jstr s => some s | _ => none)).filter
              (fun s => pystrip s ≠ "")).map
            (fun s => pyStr company ++ " - " ++ pystrip s)
        ∧ ∀ c ∈ chunks, c.sect = "experience" ∧ c.cv_id = cv := by
  intro bs
  induction bs with
  | nil =>
    intro bi _
    exact ⟨[], rfl, rfl, by simp⟩
  | cons b t ih =>
    intro bi hwt
    rcases hwt b (by simp) with ⟨s, rfl⟩
    rcases ih (bi + 1) (fun x hx => hwt x (by simp [hx])) with
      ⟨chunks, hok, htexts, hsc⟩
    by_cases hs : s = ""
    · subst hs
      refine ⟨chunks, ?_, ?_, hsc⟩
      · rw [expBulletLoop]
        rw [if_neg (by simp [JVal.truthy])]
        exact hok
      · rw [htexts]
        simp only [List.filterMap_cons]
        rw [List.filter_cons, if_neg (by decide)]
    · by_cases hstrip : pystrip s = ""
      · refine ⟨chunks, ?_, ?_, hsc⟩
        · rw [expBulletLoop]
          rw [if_pos (by simp [JVal.truthy, hs])]
          rw [if_pos hstrip]
          exact hok
        · rw [htexts]
          simp [hstrip]
      · let c0 : Chunk :=
          { cv_id := cv, sect := "experience",
            text := pyStr company ++ " - " ++ pystrip s,
            metadata := [("type", .jstr "experience_bullet"),
              ("company", company), ("title", title), ("exp_index", .jint i),
              ("bullet_index", .jint bi), ("location", loc),
              ("start_date", sd), ("end_date", ed)] }
        refine ⟨c0 :: chunks, ?_, ?_, ?_⟩
        · rw [expBulletLoop]
          rw [if_pos (by simp [JVal.truthy, hs])]
          rw [if_neg hstrip]
          rw [hok]
        · simp only [List.map_cons, List.filterMap_cons]
          rw [List.filter_cons, if_pos (by simp [hstrip])]
          simp only [List.map_cons]
          rw [htexts]
        · intro c hc
          rcases List.mem_cons.mp hc with rfl | hc'
          · exact ⟨rfl, rfl⟩
          · exact hsc c hc'

theorem expEntryLoop_spec (cv : String) :
    ∀ (items : List JVal) (i : ℕ), (∀ e ∈ items, wtExpEntry e = true) →
      ∃ chunks, expEntryLoop cv i items = .ok chunks
        ∧ chunks.map Chunk.text = items.flatMap expEntryTexts
        ∧ ∀ c ∈ chunks, c.sect = "experience" ∧ c.cv_id = cv := by
  intro items
  induction items with
  | nil =>
    intro i _
    exact ⟨[], rfl, by simp, by simp⟩
  | cons e es ih =>
    intro i hwt
    have hwte := hwt e (by simp)
    obtain ⟨obj, rfl⟩ : ∃ obj, e = JVal.jdict obj := by
      cases e <;> simp [wtExpEntry] at hwte <;> exact ⟨_, rfl⟩
    obtain ⟨bs, hb, hstrs⟩ : ∃ bs, pyGetD obj "bullets" (.jlist []) = .jlist bs
        ∧ ∀ b ∈ bs, ∃ s, b = JVal.jstr s := by
      simp only [wtExpEntry] at hwte
      cases hbv : pyGetD obj "bullets" (.jlist []) with
      | jlist bs =>
        refine ⟨bs, rfl, ?_⟩
        rw [hbv] at hwte
        simp only [isStrList, List.all_eq_true] at hwte
        intro b hbmem
        have := hwte b hbmem
        cases b <;> simp at this <;> exact ⟨_, rfl⟩
      | jstr s => rw [hbv] at hwte; simp [isStrList] at hwte
      | jint n => rw [hbv] at hwte; simp [isStrList] at hwte
      | jbool b => rw [hbv] at hwte; simp [isStrList] at hwte
      | jdict d => rw [hbv] at hwte; simp [isStrList] at hwte
    rcases expBulletLoop_spec cv (pyGetD obj "company" (.jstr ""))
        (pyGetD obj "title" (.jstr "")) (pyGetD obj "location" (.jstr ""))
        (pyGetD obj "start_date" (.jstr "")) (pyGetD obj "end_date" (.jstr ""))
        i bs 0 hstrs with ⟨cbs, hok1, htexts1, hsc1⟩
    rcases ih (i + 1) (fun x hx => hwt x (by simp [hx])) with
      ⟨crest, hok2, htexts2, hsc2⟩
    refine ⟨cbs ++ crest, ?_, ?_, ?_⟩
    · show expEntryLoop cv i (JVal.jdict obj :: es) = .ok (cbs ++ crest)
      simp only [expEntryLoop]
      rw [hb]
      show (Except.ok bs >>= fun bs' =>
        expBulletLoop cv (pyGetD obj "company" (.jstr ""))
          (pyGetD obj "title" (.jstr "")) (pyGetD obj "location" (.jstr ""))
          (pyGetD obj "start_date" (.jstr "")) (pyGetD obj "end_date" (.jstr ""))
          i 0 bs' >>= fun here => expEntryLoop cv (i + 1) es >>= fun rest =>
          .ok (here ++ rest)) = .ok (cbs ++ crest)
      rw [show (Except.ok bs >>= fun bs' =>
        expBulletLoop cv (pyGetD obj "company" (.jstr ""))
          (pyGetD obj "title" (.jstr "")) (pyGetD obj "location" (.jstr ""))
          (pyGetD obj "start_date" (.jstr "")) (pyGetD obj "end_date" (.jstr ""))
          i 0 bs' >>= fun here => expEntryLoop cv (i + 1) es >>= fun rest =>
          Except.ok (here ++ rest)) = (expBulletLoop cv (pyGetD obj "company" (.jstr ""))
          (pyGetD obj "title" (.jstr "")) (pyGetD obj "location" (.jstr ""))
          (pyGetD obj "start_date" (.jstr "")) (pyGetD obj "end_date" (.jstr ""))
          i 0 bs >>= fun here => expEntryLoop cv (i + 1) es >>= fun rest =>
          Except.ok (here ++ rest)) from rfl]
      rw [hok1]
      show (expEntryLoop cv (i + 1) es >>= fun rest => Except.ok (cbs ++ rest))
        = .ok (cbs ++ crest)
      rw [hok2]
      rfl
    · rw [List.map_append, htexts1, htexts2, List.flatMap_cons]
      congr 1
      simp only [expEntryTexts, hb, jstrsOf]
    · intro c hc
      rcases List.mem_append.mp hc with h | h
      · exact hsc1 c h
      · exact hsc2 c h

theorem projBulletLoop_spec (cv : String) (name techs link : JVal) (i : ℕ) :
    ∀ (bs : List JVal) (bi : ℕ), (∀ b ∈ bs, ∃ s, b = .jstr s) →
      ∃ chunks, projBulletLoop cv name techs link i bi bs = .ok chunks
        ∧ chunks.map Chunk.text
          = ((bs.filterMap (fun b => match b with | .jstr s => some s | _ => none)).filter
              (fun s => pystrip s ≠ "")).map
            (fun s => pyStr name ++ " - " ++ pystrip s)
        ∧ ∀ c ∈ chunks, c.sect = "projects" ∧ c.cv_id = cv := by
  intro bs
  induction bs with
  | nil =>
    intro bi _
    exact ⟨[], rfl, rfl, by simp⟩
  | cons b t ih =>
    intro bi hwt
    rcases hwt b (by simp) with ⟨s, rfl⟩
    rcases ih (bi + 1) (fun x hx => hwt x (by simp [hx])) with
      ⟨chunks, hok, htexts, hsc⟩
    by_cases hs : s = ""
    · subst hs
      refine ⟨chunks, ?_, ?_, hsc⟩
      · rw [projBulletLoop]
        rw [if_neg (by simp [JVal.truthy])]
        exact hok
      · rw [htexts]
        simp only [List.filterMap_cons]
        rw [List.filter_cons, if_neg (by decide)]
    · by_cases hstrip : pystrip s = ""
      · refine ⟨chunks, ?_, ?_, hsc⟩
        · rw [projBulletLoop]
          rw [if_pos (by simp [JVal.truthy, hs])]
          rw [if_pos hstrip]
          exact hok
        · rw [htexts]
          simp only [List.filterMap_cons]
          rw [List.filter_cons, if_neg (by simp [hstrip])]
      · let c0 : Chunk :=
          { cv_id := cv, sect := "projects",
            text := pyStr name ++ " - " ++ pystrip s,
            metadata := [("type", .jstr "project_bullet"),
              ("project_name", name), ("proj_index", .jint i),
              ("bullet_index", .jint bi), ("technologies", techs),
              ("link", link)] }
        refine ⟨c0 :: chunks, ?_, ?_, ?_⟩
        · rw [projBulletLoop]
          rw [if_pos (by simp [JVal.truthy, hs])]
          rw [if_neg hstrip]
          rw [hok]
        · simp only [List.map_cons, List.filterMap_cons]
          rw [List.filter_cons, if_pos (by simp [hstrip])]
          simp only [List.map_cons]
          rw [htexts]
        · intro c hc
          rcases List.mem_cons.mp hc with rfl | hc'
          · exact ⟨rfl, rfl⟩
          · exact hsc c hc'

theorem projEntryLoop_spec (cv : String) :
    ∀ (items : List JVal) (i : ℕ), (∀ e ∈ items, wtProjEntry e = true) →
      ∃ chunks, projEntryLoop cv i items = .ok chunks
        ∧ chunks.map Chunk.text = items.flatMap projEntryTexts
        ∧ ∀ c ∈ chunks, c.sect = "projects" ∧ c.cv_id = cv := by
  intro items
  induction items with
  | nil =>
    intro i _
    exact ⟨[], rfl, by simp, by simp⟩
  | cons e es ih =>
    intro i hwt
    have hwte := hwt e (by simp)
    obtain ⟨obj, rfl⟩ : ∃ obj, e = JVal.jdict obj := by
      cases e <;> simp [wtProjEntry] at hwte <;> exact ⟨_, rfl⟩
    simp only [wtProjEntry, Bool.and_eq_true] at hwte
    obtain ⟨bs, hb, hstrs⟩ : ∃ bs, pyGetD obj "bullets" (.jlist []) = .jlist bs
        ∧ ∀ b ∈ bs, ∃ s, b = JVal.jstr s := by
      rcases hwte with ⟨hwtb, _⟩
      cases hbv : pyGetD obj "bullets" (.jlist []) with
      | jlist bs =>
        refine ⟨bs, rfl, ?_⟩
        rw [hbv] at hwtb
        simp only [isStrList, List.all_eq_true] at hwtb
        intro b hbmem
        have := hwtb b hbmem
        cases b <;> simp at this <;> exact ⟨_, rfl⟩
      | jstr s => rw [hbv] at hwtb; simp [isStrList] at hwtb
      | jint n => rw [hbv] at hwtb; simp [isStrList] at hwtb
      | jbool b => rw [hbv] at hwtb; simp [isStrList] at hwtb
      | jdict d => rw [hbv] at hwtb; simp [isStrList] at hwtb
    rcases ih (i + 1) (fun x hx => hwt x (by simp [hx])) with
      ⟨crest, hok2, htexts2, hsc2⟩
    cases bs with
    | cons b bs' =>
      rcases projBulletLoop_spec cv (pyGetD obj "name" (.jstr ""))
          (pyGetD obj "technologies" (.jlist []))
          (pyGetD obj "link" (.jstr "")) i (b :: bs') 0 hstrs with
        ⟨cbs, hok1, htexts1, hsc1⟩
      refine ⟨cbs ++ crest, ?_, ?_, ?_⟩
      · show projEntryLoop cv i (JVal.jdict obj :: es) = .ok (cbs ++ crest)
        simp only [projEntryLoop]
        rw [hb]
        rw [if_pos (by simp [JVal.truthy])]
        show (Except.ok (b :: bs') >>= fun bs'' =>
          projBulletLoop cv (pyGetD obj "name" (.jstr ""))
            (pyGetD obj "technologies" (.jlist []))
            (pyGetD obj "link" (.jstr "")) i 0 bs'' >>= fun here =>
            projEntryLoop cv (i + 1) es >>= fun rest =>
            .ok (here ++ rest)) = .ok (cbs ++ crest)
        rw [show (Except.ok (b :: bs') >>= fun bs'' =>
          projBulletLoop cv (pyGetD obj "name" (.jstr ""))
            (pyGetD obj "technologies" (.jlist []))
            (pyGetD obj "link" (.jstr "")) i 0 bs'' >>= fun here =>
            projEntryLoop cv (i + 1) es >>= fun rest =>
            Except.ok (here ++ rest))
          = (projBulletLoop cv (pyGetD obj "name" (.jstr ""))
            (pyGetD obj "technologies" (.jlist []))
            (pyGetD obj "link" (.jstr "")) i 0 (b :: bs') >>= fun here =>
            projEntryLoop cv (i + 1) es >>= fun rest =>
            Except.ok (here ++ rest)) from rfl]
        rw [hok1]
        show (projEntryLoop cv (i + 1) es >>= fun rest => Except.ok (cbs ++ rest))
          = .ok (cbs ++ crest)
        rw [hok2]
        rfl
      · rw [List.map_append, htexts1, htexts2, List.flatMap_cons]
        congr 1
        simp only [projEntryTexts, hb, jstrsOf]
      · intro c hc
        rcases List.mem_append.mp hc with h | h
        · exact hsc1 c h
        · exact hsc2 c h
    | nil =>
      have hbfalsy : (pyGetD obj "bullets" (.jlist [])).truthy = false := by
        rw [hb]
        simp [JVal.truthy]
      rcases hwte with ⟨_, hwtd⟩
      cases hd : pyGet obj "description" with
      | none =>
        refine ⟨crest, ?_, ?_, hsc2⟩
        · simp only [projEntryLoop]
          rw [if_neg (by rw [hbfalsy]; simp)]
          rw [show pyGetD obj "description" (.jstr "") = .jstr "" by
            simp [pyGetD, hd]]
          rw [if_neg (by simp [JVal.truthy])]
          exact hok2
        · rw [htexts2, List.flatMap_cons]
          simp only [projEntryTexts, hb, hd]
          rw [List.nil_append]
      | some dv =>
        rw [hd] at hwtd
        obtain ⟨d, rfl⟩ : ∃ d, dv = JVal.jstr d := by
          cases dv <;> simp [isStrOrAbsent] at hwtd <;> exact ⟨_, rfl⟩
        have hdesc : pyGetD obj "description" (.jstr "") = .jstr d := by
          simp [pyGetD, hd]
        by_cases hde : d = ""
        · refine ⟨crest, ?_, ?_, hsc2⟩
          · simp only [projEntryLoop]
            rw [if_neg (by rw [hbfalsy]; simp)]
            rw [hdesc]
            rw [if_neg (by simp [JVal.truthy, hde])]
            exact hok2
          · rw [htexts2, List.flatMap_cons]
            simp only [projEntryTexts, hb, hd, hde]
            rw [show pystrip "" = "" from rfl]
            simp
        · by_cases hstrip : pystrip d = ""
          · refine ⟨crest, ?_, ?_, hsc2⟩
            · simp only [projEntryLoop]
              rw [if_neg (by rw [hbfalsy]; simp)]
              rw [hdesc]
              rw [if_pos (by simp [JVal.truthy, hde])]
              show (if pystrip d = "" then projEntryLoop cv (i + 1) es
                else
                  match projEntryLoop cv (i + 1) es with
                  | Except.error e => Except.error e
                  | Except.ok rest => Except.ok
                      ({ cv_id := cv, sect := "projects",
                          text := pyStr (pyGetD obj "name" (JVal.jstr ""))
                            ++ " - " ++ pystrip d,
                          metadata := [("type", JVal.jstr "project_description"),
                            ("project_name", pyGetD obj "name" (JVal.jstr "")),
                            ("proj_index", JVal.jint i),
                            ("technologies", pyGetD obj "technologies" (JVal.jlist []))] }
                        :: rest)) = Except.ok crest
              rw [if_pos hstrip]
              exact hok2
            · rw [htexts2, List.flatMap_cons]
              simp only [projEntryTexts, hb, hd, hstrip]
              simp
          · let c0 : Chunk :=
              { cv_id := cv, sect := "projects",
                text := pyStr (pyGetD obj "name" (.jstr "")) ++ " - " ++ pystrip d,
                metadata := [("type", .jstr "project_description"),
                  ("project_name", pyGetD obj "name" (.jstr "")),
                  ("proj_index", .jint i),
                  ("technologies", pyGetD obj "technologies" (.jlist []))] }
            refine ⟨c0 :: crest, ?_, ?_, ?_⟩
            · simp only [projEntryLoop]
              rw [if_neg (by rw [hbfalsy]; simp)]
              rw [hdesc]
              rw [if_pos (by simp [JVal.truthy, hde])]
              show (if pystrip d = "" then projEntryLoop cv (i + 1) es
                else
                  match projEntryLoop cv (i + 1) es with
                  | Except.error e => Except.error e
                  | Except.ok rest => Except.ok
                      ({ cv_id := cv, sect := "projects",
                          text := pyStr (pyGetD obj "name" (JVal.jstr ""))
                            ++ " - " ++ pystrip d,
                          metadata := [("type", JVal.jstr "project_description"),
                            ("project_name", pyGetD obj "name" (JVal.jstr "")),
                            ("proj_index", JVal.jint i),
                            ("technologies", pyGetD obj "technologies" (JVal.jlist []))] }
                        :: rest)) = Except.ok (c0 :: crest)
              rw [if_neg hstrip]
              rw [hok2]
            · simp only [List.map_cons]
              rw [htexts2, List.flatMap_cons]
              simp only [projEntryTexts, hb, hd]
              rw [if_pos (by simpa using hstrip)]
              rfl
            · intro c hc
              rcases List.mem_cons.mp hc with rfl | hc'
              · exact ⟨rfl, rfl⟩
              · exact hsc2 c hc'

/-- **C3.** For every résumé (well-typed experience and projects
sections), the chunker produces exactly one experience chunk per
non-blank experience bullet with text `"{company} - {bullet_trimmed}"`,
and exactly one projects chunk per non-blank project bullet with text
`"{name} - {bullet_trimmed}"` (or, for a project with no bullets but a
non-blank description, exactly one chunk
`"{name} - {description_trimmed}"`); the chunk counts equal those text
counts exactly (`expEntryTexts` / `projEntryTexts` spell the expected
texts out section by section). -/
theorem chunk_bullets_exact (cv : String) (itemsE itemsP : List JVal)
    (hwe : wtExpList (.jlist itemsE) = true)
    (hwp : wtProjList (.jlist itemsP) = true) :
    ∃ ecs pcs,
      chunk_experience_bullets (.jlist itemsE) cv = .ok ecs
      ∧ chunk_projects_bullets (.jlist itemsP) cv = .ok pcs
      ∧ ecs.map Chunk.text = itemsE.flatMap expEntryTexts
      ∧ pcs.map Chunk.text = itemsP.flatMap projEntryTexts
      ∧ ecs.length = (itemsE.flatMap expEntryTexts).length
      ∧ pcs.length = (itemsP.flatMap projEntryTexts).length
      ∧ (∀ c ∈ ecs, c.sect = "experience" ∧ c.cv_id = cv)
      ∧ (∀ c ∈ pcs, c.sect = "projects" ∧ c.cv_id = cv) := by
  simp only [wtExpList, List.all_eq_true] at hwe
  simp only [wtProjList, List.all_eq_true] at hwp
  rcases expEntryLoop_spec cv itemsE 0 hwe with ⟨ecs, hok1, htext1, hsc1⟩
  rcases projEntryLoop_spec cv itemsP 0 hwp with ⟨pcs, hok2, htext2, hsc2⟩
  refine ⟨ecs, pcs, ?_, ?_, htext1, htext2, ?_, ?_, hsc1, hsc2⟩
  · show (Except.ok itemsE >>= fun items => expEntryLoop cv 0 items) = .ok ecs
    rw [show (Except.ok itemsE >>= fun items => expEntryLoop cv 0 items)
      = expEntryLoop cv 0 itemsE from rfl]
    exact hok1
  · show (Except.ok itemsP >>= fun items => projEntryLoop cv 0 items) = .ok pcs
    rw [show (Except.ok itemsP >>= fun items => projEntryLoop cv 0 items)
      = projEntryLoop cv 0 itemsP from rfl]
    exact hok2
  · rw [← htext1, List.length_map]
  · rw [← htext2, List.length_map]

/-- The S1 experience section:
`[{company: "Acme", bullets: ["Led X", "Built Y"]}]`. -/
def s1Experience : List JVal :=
  [.jdict [("company", .jstr "Acme"),
           ("bullets", .jlist [.jstr "Led X", .jstr "Built Y"])]]

/-- The S1 projects section: `[{name: "P", bullets: []}]`. -/
def s1Projects : List JVal :=
  [.jdict [("name", .jstr "P"), ("bullets", .jlist [])]]

/-- Witness for C3 at the spec's S1 scenario. -/
theorem chunk_bullets_exact_witness :
    wtExpList (.jlist s1Experience) = true
    ∧ wtProjList (.jlist s1Projects) = true
    ∧ ∃ ecs pcs,
        chunk_experience_bullets (.jlist s1Experience) "cv1" = .ok ecs
        ∧ chunk_projects_bullets (.jlist s1Projects) "cv1" = .ok pcs
        ∧ ecs.map Chunk.text = s1Experience.flatMap expEntryTexts
        ∧ pcs.map Chunk.text = s1Projects.flatMap projEntryTexts
        ∧ ecs.length = (s1Experience.flatMap expEntryTexts).length
        ∧ pcs.length = (s1Projects.flatMap projEntryTexts).length
        ∧ (∀ c ∈ ecs, c.sect = "experience" ∧ c.cv_id = "cv1")
        ∧ (∀ c ∈ pcs, c.sect = "projects" ∧ c.cv_id = "cv1") :=
  ⟨by decide, by decide,
   chunk_bullets_exact "cv1" s1Experience s1Projects (by decide) (by decide)⟩

/-! ## Chunker well-formedness (claim C6) -/

/-- The closed set of section names of the data model (§3), with
`contact` excluded by the chunker. -/
def closedSectionSet : List String :=
  ["summary", "skills", "experience", "projects", "education",
   "leadership", "certifications", "publications", "awards",
   "additional_sections"]

/-- A string is empty or non-blank (never whitespace-only). -/
def noWSOnlyStr (s : String) : Bool :=
  decide (s = "") || decide (pystrip s ≠ "")

mutual

/-- No whitespace-only string occurs anywhere in the value. -/
def noWSOnly : JVal → Bool
  | .jstr s => noWSOnlyStr s
  | .jint _ => true
  | .jbool _ => true
  | .jlist xs => noWSOnlyList xs
  | .jdict kvs => noWSOnlyEntries kvs

/-- `noWSOnly` over list elements. -/
def noWSOnlyList : List JVal → Bool
  | [] => true
  | v :: vs => noWSOnly v && noWSOnlyList vs

/-- `noWSOnly` over dict values. -/
def noWSOnlyEntries : List (String × JVal) → Bool
  | [] => true
  | kv :: kvs => noWSOnly kv.2 && noWSOnlyEntries kvs

end

/-- No category of a skills dict contains an empty-string item. -/
def skillsValOK : JVal → Bool
  | .jdict d => d.all fun cat =>
      match cat.2 with
      | .jlist l => l.all fun x =>
          match x with
          | .jstr s => decide (s ≠ "")
          | _ => true
      | _ => true
  | _ => true

/-- The skills condition over all sections. -/
def sectionsSkillsOK (sections : List (String × JVal)) : Bool :=
  sections.all fun kv => if kv.1 = "skills" then skillsValOK kv.2 else true

theorem noWSOnlyList_mem {xs : List JVal} {v : JVal}
    (h : noWSOnlyList xs = true) (hv : v ∈ xs) : noWSOnly v = true := by
  induction xs with
  | nil => simp at hv
  | cons x t ih =>
    rw [noWSOnlyList, Bool.and_eq_true] at h
    rcases List.mem_cons.mp hv with rfl | hm
    · exact h.1
    · exact ih h.2 hm

theorem noWSOnlyEntries_mem {kvs : List (String × JVal)} {kv : String × JVal}
    (h : noWSOnlyEntries kvs = true) (hv : kv ∈ kvs) : noWSOnly kv.2 = true := by
  induction kvs with
  | nil => simp at hv
  | cons x t ih =>
    rw [noWSOnlyEntries, Bool.and_eq_true] at h
    rcases List.mem_cons.mp hv with rfl | hm
    · exact h.1
    · exact ih h.2 hm

theorem pyGet_mem {obj : List (String × JVal)} {k : String} {v : JVal}
    (h : pyGet obj k = some v) : (k, v) ∈ obj ∨ ∃ k', (k', v) ∈ obj := by
  induction obj with
  | nil => simp [pyGet] at h
  | cons kv t ih =>
    rcases kv with ⟨k', v'⟩
    rw [pyGet] at h
    by_cases hk : k' = k
    · rw [if_pos hk] at h
      injection h with hv
      right
      exact ⟨k', by simp [hv]⟩
    · rw [if_neg hk] at h
      rcases ih h with h1 | ⟨k'', h2⟩
      · left; simp [h1]
      · right; exact ⟨k'', by simp [h2]⟩

/-- A string fetched with `obj.get(key, "")` from a dict without
whitespace-only strings is empty or non-blank. -/
theorem pyGetD_str_nonblank {obj : List (String × JVal)} {k : String} {s : String}
    (hno : noWSOnlyEntries obj = true)
    (hget : pyGetD obj k (.jstr "") = .jstr s) :
    s = "" ∨ pystrip s ≠ "" := by
  unfold pyGetD at hget
  cases hv : pyGet obj k with
  | none =>
    rw [hv] at hget
    simp at hget
    left
    exact hget.symm
  | some v =>
    rw [hv] at hget
    simp at hget
    rcases pyGet_mem hv with hm | ⟨k', hm⟩
    · have := noWSOnlyEntries_mem hno hm
      rw [hget] at this
      simpa [noWSOnly, noWSOnlyStr] using this
    · have := noWSOnlyEntries_mem hno hm
      rw [hget] at this
      simpa [noWSOnly, noWSOnlyStr] using this

theorem dash_text_nonblank (a b : String) : pystrip (a ++ " - " ++ b) ≠ "" := by
  apply pystrip_ne_empty_of_mem (c := '-')
  · show '-' ∈ (a ++ " - " ++ b).data
    rw [show (a ++ " - " ++ b).data = a.data ++ (" - ".data ++ b.data) by
      simp [String.data_append]]
    apply List.mem_append_right
    apply List.mem_append_left
    decide
  · decide

theorem brace_text_nonblank (obj : List (String × JVal)) :
    pystrip (pyStr (.jdict obj)) ≠ "" := by
  have hrepr : pyStr (.jdict obj)
      = "\x7b" ++ sepJoin ", " (pyReprEntries obj) ++ "\x7d" := by
    show pyRepr (.jdict obj) = _
    rw [pyRepr]
  apply pystrip_ne_empty_of_mem (c := '{')
  · show '{' ∈ (pyStr (.jdict obj)).data
    rw [hrepr]
    rw [show ("\x7b" ++ sepJoin ", " (pyReprEntries obj) ++ "\x7d").data
      = "\x7b".data ++ ((sepJoin ", " (pyReprEntries obj)).data ++ "\x7d".data) by
      simp [String.data_append]]
    apply List.mem_append_left
    decide
  · decide

theorem pyStrList_cons_ok {p : JVal} {rest : List JVal} {ss : List String}
    (h : pyStrList (p :: rest) = .ok ss) :
    ∃ s ss', p = .jstr s ∧ ss = s :: ss' ∧ pyStrList rest = .ok ss' := by
  cases p with
  | jstr s =>
    rw [pyStrList] at h
    cases hrest : pyStrList rest with
    | ok ss' =>
      rw [hrest] at h
      injection h with h'
      exact ⟨s, ss', rfl, h'.symm, rfl⟩
    | error e =>
      rw [hrest] at h
      simp at h
  | jint n => simp [pyStrList] at h
  | jbool b => simp [pyStrList] at h
  | jlist xs => simp [pyStrList] at h
  | jdict kvs => simp [pyStrList] at h

theorem sepJoin_nonblank_of_head (sep s0 : String) (t : List String)
    (h : pystrip s0 ≠ "") : pystrip (sepJoin sep (s0 :: t)) ≠ "" := by
  obtain ⟨c, hc, hcw⟩ : ∃ c ∈ s0.data, ¬ pyIsSpace c := by
    by_contra hall
    push_neg at hall
    exact h ((pystrip_eq_empty_iff s0).mpr (by simpa using hall))
  apply pystrip_ne_empty_of_mem (c := c) _ hcw
  cases t with
  | nil => exact hc
  | cons s1 t' =>
    show c ∈ (s0 ++ sep ++ sepJoin sep (s1 :: t')).data
    rw [show (s0 ++ sep ++ sepJoin sep (s1 :: t')).data
      = s0.data ++ (sep.data ++ (sepJoin sep (s1 :: t')).data) by
      simp [String.data_append]]
    exact List.mem_append_left _ hc

theorem sepJoin_dash_two_nonblank (s0 s1 : String) (t : List String) :
    pystrip (sepJoin " - " (s0 :: s1 :: t)) ≠ "" := by
  rw [show sepJoin " - " (s0 :: s1 :: t)
    = s0 ++ " - " ++ sepJoin " - " (s1 :: t) from rfl]
  exact dash_text_nonblank _ _

/-- The common `" - ".join(parts) if parts else None` tail of
`extract_text_from_object`: when the first part is empty-or-non-blank
and the join returns a truthy string, that string is non-blank. -/
theorem extract_branch_nonblank (first : JVal) (extra : List JVal) (t : String)
    (hfirst : ∀ s, first = .jstr s → (s = "" ∨ pystrip s ≠ ""))
    (hok : (if (first :: extra).isEmpty then Except.ok none else do
        let s ← pyJoin " - " (first :: extra)
        Except.ok (some s)) = .ok (some t))
    (ht : t ≠ "") : pystrip t ≠ "" := by
  rw [if_neg (by simp)] at hok
  have hpj : pyJoin " - " (first :: extra)
      = (pyStrList (first :: extra) >>= fun ss => Except.ok (sepJoin " - " ss)) := rfl
  cases hsl : pyStrList (first :: extra) with
  | error e =>
    rw [show (do
        let s ← pyJoin " - " (first :: extra)
        Except.ok (some s)) = (pyJoin " - " (first :: extra) >>= fun s =>
        Except.ok (some s)) from rfl, hpj, hsl] at hok
    have hbad : (Except.error e : Except String (Option String))
        = .ok (some t) := hok
    exact absurd hbad (by simp)
  | ok ss =>
    rw [show (do
        let s ← pyJoin " - " (first :: extra)
        Except.ok (some s)) = (pyJoin " - " (first :: extra) >>= fun s =>
        Except.ok (some s)) from rfl, hpj, hsl] at hok
    have hok1 : (Except.ok (some (sepJoin " - " ss))
        : Except String (Option String)) = .ok (some t) := hok
    injection hok1 with hok'
    injection hok' with hok''
    rcases pyStrList_cons_ok hsl with ⟨s0, ss', hfirst', hss, _⟩
    subst hss
    rw [← hok''] at ht ⊢
    cases ss' with
    | nil =>
      have hs0 : sepJoin " - " [s0] = s0 := rfl
      rw [hs0] at ht ⊢
      rcases hfirst s0 hfirst' with h | h
      · exact absurd (by rw [h]) ht
      · exact h
    | cons s1 t' => exact sepJoin_dash_two_nonblank s0 s1 t'

theorem extract_nonblank (obj : List (String × JVal)) (sname : String) (t : String)
    (hno : noWSOnlyEntries obj = true)
    (hok : extract_text_from_object obj sname = .ok (some t))
    (ht : t ≠ "") : pystrip t ≠ "" := by
  simp only [extract_text_from_object] at hok
  by_cases h1 : sname = "experience"
  · rw [if_pos h1] at hok
    by_cases htr : (pyGetD obj "bullets" (.jlist [])).truthy
    · rw [if_pos htr] at hok
      exact absurd hok (by simp)
    · rw [if_neg htr] at hok
      injection hok with hok'
      injection hok' with hok''
      rw [← hok'', pystrip_idem]
      rw [← hok''] at ht
      exact ht
  · rw [if_neg h1] at hok
    by_cases h2 : sname = "projects"
    · rw [if_pos h2] at hok
      have hfirst : ∀ s, pyGetD obj "name" (.jstr "") = .jstr s
          → (s = "" ∨ pystrip s ≠ "") := fun s hs => pyGetD_str_nonblank hno hs
      by_cases hdesc : (pyGetD obj "description" (.jstr "")).truthy
      · simp only [if_pos hdesc] at hok
        by_cases htech : (pyGetD obj "technologies" (.jlist [])).truthy
        · simp only [if_pos htech] at hok
          cases hj : pyJoinIter ", " (pyGetD obj "technologies" (.jlist [])) with
          | error e =>
            rw [hj] at hok
            have hbad : (Except.error e : Except String (Option String))
                = .ok (some t) := hok
            exact absurd hbad (by simp)
          | ok tj =>
            rw [hj] at hok
            have hok2 : (if ((pyGetD obj "name" (.jstr ""))
                  :: [pyGetD obj "description" (.jstr ""),
                      JVal.jstr ("Technologies: " ++ tj)]).isEmpty
                then Except.ok none
                else do
                  let s ← pyJoin " - " ((pyGetD obj "name" (.jstr ""))
                    :: [pyGetD obj "description" (.jstr ""),
                        JVal.jstr ("Technologies: " ++ tj)])
                  Except.ok (some s)) = .ok (some t) := hok
            exact extract_branch_nonblank _ _ t hfirst hok2 ht
        · simp only [if_neg htech] at hok
          have hok2 : (if ((pyGetD obj "name" (.jstr ""))
                :: [pyGetD obj "description" (.jstr "")]).isEmpty
              then Except.ok none
              else do
                let s ← pyJoin " - " ((pyGetD obj "name" (.jstr ""))
                  :: [pyGetD obj "description" (.jstr "")])
                Except.ok (some s)) = .ok (some t) := hok
          exact extract_branch_nonblank _ _ t hfirst hok2 ht
      · simp only [if_neg hdesc] at hok
        by_cases htech : (pyGetD obj "technologies" (.jlist [])).truthy
        · simp only [if_pos htech] at hok
          cases hj : pyJoinIter ", " (pyGetD obj "technologies" (.jlist [])) with
          | error e =>
            rw [hj] at hok
            have hbad : (Except.error e : Except String (Option String))
                = .ok (some t) := hok
            exact absurd hbad (by simp)
          | ok tj =>
            rw [hj] at hok
            have hok2 : (if ((pyGetD obj "name" (.jstr ""))
                  :: [JVal.jstr ("Technologies: " ++ tj)]).isEmpty
                then Except.ok none
                else do
                  let s ← pyJoin " - " ((pyGetD obj "name" (.jstr ""))
                    :: [JVal.jstr ("Technologies: " ++ tj)])
                  Except.ok (some s)) = .ok (some t) := hok
            exact extract_branch_nonblank _ _ t hfirst hok2 ht
        · simp only [if_neg htech] at hok
          have hok2 : (if ((pyGetD obj "name" (.jstr "")) :: ([] : List JVal)).isEmpty
              then Except.ok none
              else do
                let s ← pyJoin " - " ((pyGetD obj "name" (.jstr "")) :: ([] : List JVal))
                Except.ok (some s)) = .ok (some t) := hok
          exact extract_branch_nonblank _ _ t hfirst hok2 ht
    · rw [if_neg h2] at hok
      by_cases h3 : sname = "education"
      · rw [if_pos h3] at hok
        have hfirst : ∀ s, pyGetD obj "institution" (.jstr "") = .jstr s
            → (s = "" ∨ pystrip s ≠ "") := fun s hs => pyGetD_str_nonblank hno hs
        by_cases c1 : (pyGetD obj "degree" (.jstr "")).truthy <;>
          by_cases c2 : (pyGetD obj "field" (.jstr "")).truthy <;>
          by_cases c3 : (pyGetD obj "gpa" (.jstr "")).truthy <;>
          simp only [if_pos, if_neg, c1, c2, c3, if_true, if_false,
            List.cons_append, List.nil_append, List.singleton_append] at hok <;>
          exact extract_branch_nonblank _ _ t hfirst hok ht
      · rw [if_neg h3] at hok
        by_cases h4 : sname = "leadership"
        · rw [if_pos h4] at hok
          have hfirst : ∀ s, pyGetD obj "role" (.jstr "") = .jstr s
              → (s = "" ∨ pystrip s ≠ "") := fun s hs => pyGetD_str_nonblank hno hs
          by_cases c1 : (pyGetD obj "organization" (.jstr "")).truthy <;>
            by_cases c2 : (pyGetD obj "description" (.jstr "")).truthy <;>
            simp only [if_pos, if_neg, c1, c2, if_true, if_false,
              List.cons_append, List.nil_append, List.singleton_append] at hok <;>
            exact extract_branch_nonblank _ _ t hfirst hok ht
        · rw [if_neg h4] at hok
          by_cases h5 : sname = "certifications"
          · rw [if_pos h5] at hok
            have hfirst : ∀ s, pyGetD obj "name" (.jstr "") = .jstr s
                → (s = "" ∨ pystrip s ≠ "") := fun s hs => pyGetD_str_nonblank hno hs
            by_cases c1 : (pyGetD obj "issuer" (.jstr "")).truthy <;>
              by_cases c2 : (pyGetD obj "date" (.jstr "")).truthy <;>
              simp only [if_pos, if_neg, c1, c2, if_true, if_false,
                List.cons_append, List.nil_append, List.singleton_append] at hok <;>
              exact extract_branch_nonblank _ _ t hfirst hok ht
          · rw [if_neg h5] at hok
            injection hok with hok'
            injection hok' with hok''
            rw [← hok'']
            exact brace_text_nonblank obj

theorem cssListLoop_wf (cv sname : String) :
    ∀ (items : List JVal) (idx : ℕ) (chunks : List Chunk),
      cssListLoop cv sname idx items = .ok chunks →
      (∀ v ∈ items, noWSOnly v = true) →
      ∀ c ∈ chunks, pystrip c.text ≠ "" ∧ c.sect = sname := by
  intro items
  induction items with
  | nil =>
    intro idx chunks hok _ c hc
    have h0 : (Except.ok [] : Except String (List Chunk)) = .ok chunks := hok
    injection h0 with h0'
    rw [← h0'] at hc
    simp at hc
  | cons item rest ih =>
    intro idx chunks hok hno c hc
    have hno' : ∀ v ∈ rest, noWSOnly v = true := fun v h => hno v (by simp [h])
    cases item with
    | jdict obj =>
      rw [cssListLoop] at hok
      cases hex : extract_text_from_object obj sname with
      | error e =>
        rw [hex] at hok
        have hbad : (Except.error e : Except String (List Chunk)) = .ok chunks := hok
        exact absurd hbad (by simp)
      | ok t? =>
        rw [hex] at hok
        cases hrest : cssListLoop cv sname (idx + 1) rest with
        | error e =>
          rw [hrest] at hok
          have hbad : (Except.error e : Except String (List Chunk)) = .ok chunks := hok
          exact absurd hbad (by simp)
        | ok rcs =>
          rw [hrest] at hok
          cases t? with
          | none =>
            have h0 : (Except.ok rcs : Except String (List Chunk)) = .ok chunks := hok
            injection h0 with h0'
            rw [← h0'] at hc
            exact ih (idx + 1) rcs hrest hno' c hc
          | some tv =>
            by_cases htv : tv = ""
            · have h0 : (Except.ok rcs : Except String (List Chunk)) = .ok chunks := by
                rw [← hok]
                show Except.ok rcs = if tv = "" then Except.ok rcs else _
                rw [if_pos htv]
              injection h0 with h0'
              rw [← h0'] at hc
              exact ih (idx + 1) rcs hrest hno' c hc
            · have h0 : (Except.ok
                  (({ cv_id := cv, sect := sname, text := tv,
                      metadata := pyDictExtend
                        [("type", .jstr "object"), ("index", .jint idx)] obj } : Chunk)
                    :: rcs) : Except String (List Chunk)) = .ok chunks := by
                rw [← hok]
                show _ = if tv = "" then Except.ok rcs else _
                rw [if_neg htv]
              injection h0 with h0'
              rw [← h0'] at hc
              rcases List.mem_cons.mp hc with rfl | hcm
              · refine ⟨?_, rfl⟩
                have hnoobj : noWSOnlyEntries obj = true := by
                  have := hno (.jdict obj) (by simp)
                  simpa [noWSOnly] using this
                exact extract_nonblank obj sname tv hnoobj hex htv
              · exact ih (idx + 1) rcs hrest hno' c hcm
    | jstr s =>
      rw [cssListLoop] at hok
      cases hrest : cssListLoop cv sname (idx + 1) rest with
      | error e =>
        rw [hrest] at hok
        have hbad : (Except.error e : Except String (List Chunk)) = .ok chunks := hok
        exact absurd hbad (by simp)
      | ok rcs =>
        rw [hrest] at hok
        by_cases hs : pystrip s = ""
        · have h0 : (Except.ok rcs : Except String (List Chunk)) = .ok chunks := by
            rw [← hok]
            show Except.ok rcs = if pystrip s = "" then Except.ok rcs else _
            rw [if_pos hs]
          injection h0 with h0'
          rw [← h0'] at hc
          exact ih (idx + 1) rcs hrest hno' c hc
        · have h0 : (Except.ok
              (({ cv_id := cv, sect := sname, text := pystrip s,
                  metadata := [("type", .jstr "list_item"), ("index", .jint idx)] } : Chunk)
                :: rcs) : Except String (List Chunk)) = .ok chunks := by
            rw [← hok]
            show _ = if pystrip s = "" then Except.ok rcs else _
            rw [if_neg hs]
          injection h0 with h0'
          rw [← h0'] at hc
          rcases List.mem_cons.mp hc with rfl | hcm
          · constructor
            · show pystrip (pystrip s) ≠ ""
              rw [pystrip_idem]
              exact hs
            · rfl
          · exact ih (idx + 1) rcs hrest hno' c hcm
    | jint n =>
      rw [cssListLoop] at hok
      · exact ih (idx + 1) chunks hok hno' c hc
      · intro obj h
        simp at h
      · intro s h
        simp at h
    | jbool b =>
      rw [cssListLoop] at hok
      · exact ih (idx + 1) chunks hok hno' c hc
      · intro obj h
        simp at h
      · intro s h
        simp at h
    | jlist xs =>
      rw [cssListLoop] at hok
      · exact ih (idx + 1) chunks hok hno' c hc
      · intro obj h
        simp at h
      · intro s h
        simp at h

theorem skillParts_mem :
    ∀ (entries : List (String × JVal)) (p : JVal), p ∈ skillParts entries →
      ∃ kv ∈ entries, ∃ l, kv.2 = .jlist l ∧ p ∈ l := by
  have haux : ∀ (entries : List (String × JVal)) (acc : List JVal) (p : JVal),
      p ∈ entries.foldl
        (fun acc kv =>
          match kv.2 with
          | .jlist l => if l.isEmpty then acc else acc ++ l
          | _ => acc) acc →
      p ∈ acc ∨ ∃ kv ∈ entries, ∃ l, kv.2 = .jlist l ∧ p ∈ l := by
    intro entries
    induction entries with
    | nil =>
      intro acc p hp
      left
      exact hp
    | cons kv rest ih =>
      intro acc p hp
      rw [List.foldl_cons] at hp
      rcases kv with ⟨k, v⟩
      cases hv : v with
      | jlist l =>
        by_cases hl : l.isEmpty
        · rw [hv] at hp
          simp only [hl, if_true] at hp
          rcases ih acc p hp with h | ⟨kv', hkv', l', hl', hp'⟩
          · left; exact h
          · right; exact ⟨kv', by simp [hkv'], l', hl', hp'⟩
        · rw [hv] at hp
          simp only [hl, if_false] at hp
          rcases ih (acc ++ l) p hp with h | ⟨kv', hkv', l', hl', hp'⟩
          · rcases List.mem_append.mp h with h' | h'
            · left; exact h'
            · right
              exact ⟨(k, .jlist l), List.mem_cons_self _ _, l, rfl, h'⟩
          · right; exact ⟨kv', by simp [hkv'], l', hl', hp'⟩
      | jstr s =>
        rw [hv] at hp
        rcases ih acc p hp with h | ⟨kv', hkv', l', hl', hp'⟩
        · left; exact h
        · right; exact ⟨kv', by simp [hkv'], l', hl', hp'⟩
      | jint n =>
        rw [hv] at hp
        rcases ih acc p hp with h | ⟨kv', hkv', l', hl', hp'⟩
        · left; exact h
        · right; exact ⟨kv', by simp [hkv'], l', hl', hp'⟩
      | jbool b =>
        rw [hv] at hp
        rcases ih acc p hp with h | ⟨kv', hkv', l', hl', hp'⟩
        · left; exact h
        · right; exact ⟨kv', by simp [hkv'], l', hl', hp'⟩
      | jdict d =>
        rw [hv] at hp
        rcases ih acc p hp with h | ⟨kv', hkv', l', hl', hp'⟩
        · left; exact h
        · right; exact ⟨kv', by simp [hkv'], l', hl', hp'⟩
  intro entries p hp
  rcases haux entries [] p hp with h | h
  · simp at h
  · exact h

theorem cssEntry_wf (cv sname : String) (sdata : JVal) (chunks : List Chunk)
    (hok : cssEntry cv sname sdata = .ok chunks)
    (hno : noWSOnly sdata = true)
    (hsk : sname = "skills" → skillsValOK sdata = true) :
    ∀ c ∈ chunks, pystrip c.text ≠ "" ∧ c.sect = sname := by
  unfold cssEntry at hok
  by_cases htr : (!sdata.truthy) = true
  · rw [if_pos htr] at hok
    injection hok with h0
    rw [← h0]
    simp
  · rw [if_neg htr] at hok
    split at hok
    · -- summary with a dict value
      rename_i d
      cases hg : pyGet d "text" with
      | none =>
        rw [hg] at hok
        injection hok with h0
        rw [← h0]
        simp
      | some tv =>
        rw [hg] at hok
        cases tv with
        | jstr s =>
          have hok2 : (if (!(JVal.jstr s).truthy) = true
              then (Except.ok [] : Except String (List Chunk))
              else if pystrip s = "" then .ok []
              else .ok [summaryChunkOf cv s]) = .ok chunks := hok
          by_cases htv : (!(JVal.jstr s).truthy) = true
          · rw [if_pos htv] at hok2
            injection hok2 with h0
            rw [← h0]
            simp
          · rw [if_neg htv] at hok2
            by_cases hs : pystrip s = ""
            · rw [if_pos hs] at hok2
              injection hok2 with h0
              rw [← h0]
              simp
            · rw [if_neg hs] at hok2
              injection hok2 with h0
              rw [← h0]
              intro c hc
              rcases List.mem_singleton.mp hc with rfl
              refine ⟨?_, rfl⟩
              show pystrip (pystrip s) ≠ ""
              rw [pystrip_idem]
              exact hs
        | jint n =>
          have hok2 : (if (!(JVal.jint n).truthy) = true
              then (Except.ok [] : Except String (List Chunk))
              else .error "AttributeError: strip") = .ok chunks := hok
          by_cases htv : (!(JVal.jint n).truthy) = true
          · rw [if_pos htv] at hok2
            injection hok2 with h0
            rw [← h0]
            simp
          · rw [if_neg htv] at hok2
            exact absurd hok2 (by simp)
        | jbool b =>
          have hok2 : (if (!(JVal.jbool b).truthy) = true
              then (Except.ok [] : Except String (List Chunk))
              else .error "AttributeError: strip") = .ok chunks := hok
          by_cases htv : (!(JVal.jbool b).truthy) = true
          · rw [if_pos htv] at hok2
            injection hok2 with h0
            rw [← h0]
            simp
          · rw [if_neg htv] at hok2
            exact absurd hok2 (by simp)
        | jlist xs =>
          have hok2 : (if (!(JVal.jlist xs).truthy) = true
              then (Except.ok [] : Except String (List Chunk))
              else .error "AttributeError: strip") = .ok chunks := hok
          by_cases htv : (!(JVal.jlist xs).truthy) = true
          · rw [if_pos htv] at hok2
            injection hok2 with h0
            rw [← h0]
            simp
          · rw [if_neg htv] at hok2
            exact absurd hok2 (by simp)
        | jdict d' =>
          have hok2 : (if (!(JVal.jdict d').truthy) = true
              then (Except.ok [] : Except String (List Chunk))
              else .error "AttributeError: strip") = .ok chunks := hok
          by_cases htv : (!(JVal.jdict d').truthy) = true
          · rw [if_pos htv] at hok2
            injection hok2 with h0
            rw [← h0]
            simp
          · rw [if_neg htv] at hok2
            exact absurd hok2 (by simp)
    · -- contact
      injection hok with h0
      rw [← h0]
      simp
    · -- experience
      injection hok with h0
      rw [← h0]
      simp
    · -- projects
      injection hok with h0
      rw [← h0]
      simp
    · -- skills with a dict value
      rename_i d
      have hok2 : (if (skillParts d).isEmpty = true
          then (Except.ok [] : Except String (List Chunk))
          else pyJoin ", " (skillParts d) >>= fun skills_text =>
            Except.ok [skillsChunkOf cv d skills_text]) = .ok chunks := hok
      by_cases hpe : (skillParts d).isEmpty = true
      · rw [if_pos hpe] at hok2
        injection hok2 with h0
        rw [← h0]
        simp
      · rw [if_neg hpe] at hok2
        have hok2' : ((pyStrList (skillParts d) >>= fun ss =>
            (Except.ok (sepJoin ", " ss) : Except String String)) >>= fun skills_text =>
              (Except.ok [skillsChunkOf cv d skills_text]
                : Except String (List Chunk))) = .ok chunks := hok2
        cases hparts : skillParts d with
        | nil => rw [hparts] at hpe; simp at hpe
        | cons p t =>
          rw [hparts] at hok2'
          cases hsl : pyStrList (p :: t) with
          | error e =>
            rw [hsl] at hok2'
            have hbad : (Except.error e : Except String (List Chunk)) = .ok chunks := hok2'
            exact absurd hbad (by simp)
          | ok ss =>
            rw [hsl] at hok2'
            have hok3 : (Except.ok [skillsChunkOf cv d (sepJoin ", " ss)]
                : Except String (List Chunk)) = .ok chunks := hok2'
            injection hok3 with h0
            rw [← h0]
            intro c hc
            rcases List.mem_singleton.mp hc with rfl
            rcases pyStrList_cons_ok hsl with ⟨s0, ss', hp, hss, _⟩
            refine ⟨?_, rfl⟩
            show pystrip (sepJoin ", " ss) ≠ ""
            rw [hss]
            apply sepJoin_nonblank_of_head
            have hpmem : p ∈ skillParts d := by rw [hparts]; simp
            rcases skillParts_mem d p hpmem with ⟨kv, hkv, l, hkvl, hpl⟩
            have hs0ne : s0 ≠ "" := by
              have hskv := hsk rfl
              simp only [skillsValOK, List.all_eq_true] at hskv
              have := hskv kv hkv
              rw [hkvl] at this
              simp only [List.all_eq_true] at this
              have := this p hpl
              rw [hp] at this
              simpa using this
            have hs0wf : s0 = "" ∨ pystrip s0 ≠ "" := by
              have hnoe : noWSOnlyEntries d = true := by
                simpa [noWSOnly] using hno
              have h1 := noWSOnlyEntries_mem hnoe hkv
              rw [hkvl] at h1
              have h2 : noWSOnlyList l = true := by
                simpa [noWSOnly] using h1
              have h3 := noWSOnlyList_mem h2 hpl
              rw [hp] at h3
              simpa [noWSOnly, noWSOnlyStr] using h3
            rcases hs0wf with h | h
            · exact absurd h hs0ne
            · exact h
    · -- generic list-valued section
      rename List JVal => items
      have hlist : ∀ v ∈ items, noWSOnly v = true := by
        intro v hv
        have : noWSOnlyList items = true := by
          simpa [noWSOnly] using hno
        exact noWSOnlyList_mem this hv
      exact cssListLoop_wf cv _ items 0 chunks hok hlist
    · -- generic string-valued section
      rename String => s
      have hok2 : (if pystrip s = "" then (Except.ok [] : Except String (List Chunk))
          else .ok [strChunkOf cv sname s]) = .ok chunks := hok
      by_cases hs : pystrip s = ""
      · rw [if_pos hs] at hok2
        injection hok2 with h0
        rw [← h0]
        simp
      · rw [if_neg hs] at hok2
        injection hok2 with h0
        rw [← h0]
        intro c hc
        rcases List.mem_singleton.mp hc with rfl
        refine ⟨?_, rfl⟩
        show pystrip (pystrip s) ≠ ""
        rw [pystrip_idem]
        exact hs
    · -- remaining shapes contribute nothing
      injection hok with h0
      rw [← h0]
      simp

theorem expBulletLoop_wf (cv : String) (company title loc sd ed : JVal) (ei : ℕ) :
    ∀ (bs : List JVal) (bi : ℕ) (chunks : List Chunk),
      expBulletLoop cv company title loc sd ed ei bi bs = .ok chunks →
      ∀ c ∈ chunks, pystrip c.text ≠ "" ∧ c.sect = "experience" := by
  intro bs
  induction bs with
  | nil =>
    intro bi chunks hok
    rw [expBulletLoop] at hok
    injection hok with h0
    rw [← h0]
    simp
  | cons b t ih =>
    intro bi chunks hok
    cases b with
    | jstr s =>
      rw [expBulletLoop] at hok
      by_cases hb : (JVal.jstr s).truthy = true
      · rw [if_pos hb] at hok
        cases hrec : expBulletLoop cv company title loc sd ed ei (bi + 1) t with
        | error e =>
          rw [hrec] at hok
          have hok2 : (if pystrip s = "" then (Except.error e : Except String (List Chunk))
              else .error e) = .ok chunks := hok
          by_cases hs : pystrip s = ""
          · rw [if_pos hs] at hok2
            exact absurd hok2 (by simp)
          · rw [if_neg hs] at hok2
            exact absurd hok2 (by simp)
        | ok rest =>
          rw [hrec] at hok
          have hok2 : (if pystrip s = "" then (Except.ok rest : Except String (List Chunk))
              else .ok (expChunkOf cv company title loc sd ed ei bi s :: rest))
              = .ok chunks := hok
          by_cases hs : pystrip s = ""
          · rw [if_pos hs] at hok2
            injection hok2 with h0
            rw [← h0]
            exact ih (bi + 1) rest hrec
          · rw [if_neg hs] at hok2
            injection hok2 with h0
            rw [← h0]
            intro c hc
            rcases List.mem_cons.mp hc with rfl | hmem
            · refine ⟨?_, rfl⟩
              show pystrip (pyStr company ++ " - " ++ pystrip s) ≠ ""
              exact dash_text_nonblank _ _
            · exact ih (bi + 1) rest hrec c hmem
      · rw [if_neg hb] at hok
        exact ih (bi + 1) chunks hok
    | jint n =>
      rw [expBulletLoop] at hok
      · by_cases hb : (JVal.jint n).truthy = true
        · rw [if_pos hb] at hok
          exact absurd hok (by simp)
        · rw [if_neg hb] at hok
          exact ih (bi + 1) chunks hok
      · intro s h
        simp at h
    | jbool b' =>
      rw [expBulletLoop] at hok
      · by_cases hb : (JVal.jbool b').truthy = true
        · rw [if_pos hb] at hok
          exact absurd hok (by simp)
        · rw [if_neg hb] at hok
          exact ih (bi + 1) chunks hok
      · intro s h
        simp at h
    | jlist xs =>
      rw [expBulletLoop] at hok
      · by_cases hb : (JVal.jlist xs).truthy = true
        · rw [if_pos hb] at hok
          exact absurd hok (by simp)
        · rw [if_neg hb] at hok
          exact ih (bi + 1) chunks hok
      · intro s h
        simp at h
    | jdict d =>
      rw [expBulletLoop] at hok
      · by_cases hb : (JVal.jdict d).truthy = true
        · rw [if_pos hb] at hok
          exact absurd hok (by simp)
        · rw [if_neg hb] at hok
          exact ih (bi + 1) chunks hok
      · intro s h
        simp at h

theorem projBulletLoop_wf (cv : String) (name techs link : JVal) (pi0 : ℕ) :
    ∀ (bs : List JVal) (bi : ℕ) (chunks : List Chunk),
      projBulletLoop cv name techs link pi0 bi bs = .ok chunks →
      ∀ c ∈ chunks, pystrip c.text ≠ "" ∧ c.sect = "projects" := by
  intro bs
  induction bs with
  | nil =>
    intro bi chunks hok
    rw [projBulletLoop] at hok
    injection hok with h0
    rw [← h0]
    simp
  | cons b t ih =>
    intro bi chunks hok
    cases b with
    | jstr s =>
      rw [projBulletLoop] at hok
      by_cases hb : (JVal.jstr s).truthy = true
      · rw [if_pos hb] at hok
        cases hrec : projBulletLoop cv name techs link pi0 (bi + 1) t with
        | error e =>
          rw [hrec] at hok
          have hok2 : (if pystrip s = "" then (Except.error e : Except String (List Chunk))
              else .error e) = .ok chunks := hok
          by_cases hs : pystrip s = ""
          · rw [if_pos hs] at hok2
            exact absurd hok2 (by simp)
          · rw [if_neg hs] at hok2
            exact absurd hok2 (by simp)
        | ok rest =>
          rw [hrec] at hok
          have hok2 : (if pystrip s = "" then (Except.ok rest : Except String (List Chunk))
              else .ok (projChunkOf cv name techs link pi0 bi s :: rest))
              = .ok chunks := hok
          by_cases hs : pystrip s = ""
          · rw [if_pos hs] at hok2
            injection hok2 with h0
            rw [← h0]
            exact ih (bi + 1) rest hrec
          · rw [if_neg hs] at hok2
            injection hok2 with h0
            rw [← h0]
            intro c hc
            rcases List.mem_cons.mp hc with rfl | hmem
            · refine ⟨?_, rfl⟩
              show pystrip (pyStr name ++ " - " ++ pystrip s) ≠ ""
              exact dash_text_nonblank _ _
            · exact ih (bi + 1) rest hrec c hmem
      · rw [if_neg hb] at hok
        exact ih (bi + 1) chunks hok
    | jint n =>
      rw [projBulletLoop] at hok
      · by_cases hb : (JVal.jint n).truthy = true
        · rw [if_pos hb] at hok
          exact absurd hok (by simp)
        · rw [if_neg hb] at hok
          exact ih (bi + 1) chunks hok
      · intro s h
        simp at h
    | jbool b' =>
      rw [projBulletLoop] at hok
      · by_cases hb : (JVal.jbool b').truthy = true
        · rw [if_pos hb] at hok
          exact absurd hok (by simp)
        · rw [if_neg hb] at hok
          exact ih (bi + 1) chunks hok
      · intro s h
        simp at h
    | jlist xs =>
      rw [projBulletLoop] at hok
      · by_cases hb : (JVal.jlist xs).truthy = true
        · rw [if_pos hb] at hok
          exact absurd hok (by simp)
        · rw [if_neg hb] at hok
          exact ih (bi + 1) chunks hok
      · intro s h
        simp at h
    | jdict d =>
      rw [projBulletLoop] at hok
      · by_cases hb : (JVal.jdict d).truthy = true
        · rw [if_pos hb] at hok
          exact absurd hok (by simp)
        · rw [if_neg hb] at hok
          exact ih (bi + 1) chunks hok
      · intro s h
        simp at h

theorem expEntryLoop_wf (cv : String) :
    ∀ (es : List JVal) (i : ℕ) (chunks : List Chunk),
      expEntryLoop cv i es = .ok chunks →
      ∀ c ∈ chunks, pystrip c.text ≠ "" ∧ c.sect = "experience" := by
  intro es
  induction es with
  | nil =>
    intro i chunks hok
    rw [expEntryLoop] at hok
    injection hok with h0
    rw [← h0]
    simp
  | cons e es ih =>
    intro i chunks hok
    cases e with
    | jdict obj =>
      rw [expEntryLoop] at hok
      have hok2 : (pyIter (pyGetD obj "bullets" (.jlist [])) >>= fun bs =>
          expBulletLoop cv (pyGetD obj "company" (.jstr ""))
            (pyGetD obj "title" (.jstr "")) (pyGetD obj "location" (.jstr ""))
            (pyGetD obj "start_date" (.jstr "")) (pyGetD obj "end_date" (.jstr ""))
            i 0 bs >>= fun here =>
          expEntryLoop cv (i + 1) es >>= fun rest =>
          (Except.ok (here ++ rest) : Except String (List Chunk))) = .ok chunks := hok
      cases hit : pyIter (pyGetD obj "bullets" (.jlist [])) with
      | error e' =>
        rw [hit] at hok2
        exact absurd (show (Except.error e' : Except String (List Chunk)) = .ok chunks
          from hok2) (by simp)
      | ok bs =>
        rw [hit] at hok2
        have hok3 : (expBulletLoop cv (pyGetD obj "company" (.jstr ""))
            (pyGetD obj "title" (.jstr "")) (pyGetD obj "location" (.jstr ""))
            (pyGetD obj "start_date" (.jstr "")) (pyGetD obj "end_date" (.jstr ""))
            i 0 bs >>= fun here =>
          expEntryLoop cv (i + 1) es >>= fun rest =>
          (Except.ok (here ++ rest) : Except String (List Chunk))) = .ok chunks := hok2
        cases hbl : expBulletLoop cv (pyGetD obj "company" (.jstr ""))
            (pyGetD obj "title" (.jstr "")) (pyGetD obj "location" (.jstr ""))
            (pyGetD obj "start_date" (.jstr "")) (pyGetD obj "end_date" (.jstr ""))
            i 0 bs with
        | error e' =>
          rw [hbl] at hok3
          exact absurd (show (Except.error e' : Except String (List Chunk)) = .ok chunks
            from hok3) (by simp)
        | ok here =>
          rw [hbl] at hok3
          have hok4 : (expEntryLoop cv (i + 1) es >>= fun rest =>
              (Except.ok (here ++ rest) : Except String (List Chunk))) = .ok chunks := hok3
          cases hre : expEntryLoop cv (i + 1) es with
          | error e' =>
            rw [hre] at hok4
            exact absurd (show (Except.error e' : Except String (List Chunk)) = .ok chunks
              from hok4) (by simp)
          | ok rest =>
            rw [hre] at hok4
            have hok5 : (Except.ok (here ++ rest)
                : Except String (List Chunk)) = .ok chunks := hok4
            injection hok5 with h0
            rw [← h0]
            intro c hc
            rcases List.mem_append.mp hc with hm | hm
            · exact expBulletLoop_wf cv _ _ _ _ _ i bs 0 here hbl c hm
            · exact ih (i + 1) rest hre c hm
    | jstr s =>
      rw [expEntryLoop] at hok
      · exact absurd hok (by simp)
      · intro o h
        simp at h
    | jint n =>
      rw [expEntryLoop] at hok
      · exact absurd hok (by simp)
      · intro o h
        simp at h
    | jbool b' =>
      rw [expEntryLoop] at hok
      · exact absurd hok (by simp)
      · intro o h
        simp at h
    | jlist xs =>
      rw [expEntryLoop] at hok
      · exact absurd hok (by simp)
      · intro o h
        simp at h

theorem projEntryLoop_wf (cv : String) :
    ∀ (ps : List JVal) (i : ℕ) (chunks : List Chunk),
      projEntryLoop cv i ps = .ok chunks →
      ∀ c ∈ chunks, pystrip c.text ≠ "" ∧ c.sect = "projects" := by
  intro ps
  induction ps with
  | nil =>
    intro i chunks hok
    rw [projEntryLoop] at hok
    injection hok with h0
    rw [← h0]
    simp
  | cons p ps ih =>
    intro i chunks hok
    cases p with
    | jdict obj =>
      rw [projEntryLoop] at hok
      have hok2 : (if (pyGetD obj "bullets" (.jlist [])).truthy = true then
            pyIter (pyGetD obj "bullets" (.jlist [])) >>= fun bs =>
              projBulletLoop cv (pyGetD obj "name" (.jstr ""))
                (pyGetD obj "technologies" (.jlist []))
                (pyGetD obj "link" (.jstr "")) i 0 bs >>= fun here =>
              projEntryLoop cv (i + 1) ps >>= fun rest =>
              (Except.ok (here ++ rest) : Except String (List Chunk))
          else if (pyGetD obj "description" (.jstr "")).truthy = true then
            projDescStep cv i ps obj (pyGetD obj "description" (.jstr ""))
          else projEntryLoop cv (i + 1) ps) = .ok chunks := hok
      by_cases hbt : (pyGetD obj "bullets" (.jlist [])).truthy = true
      · rw [if_pos hbt] at hok2
        cases hit : pyIter (pyGetD obj "bullets" (.jlist [])) with
        | error e' =>
          rw [hit] at hok2
          exact absurd (show (Except.error e' : Except String (List Chunk)) = .ok chunks
            from hok2) (by simp)
        | ok bs =>
          rw [hit] at hok2
          have hok3 : (projBulletLoop cv (pyGetD obj "name" (.jstr ""))
              (pyGetD obj "technologies" (.jlist []))
              (pyGetD obj "link" (.jstr "")) i 0 bs >>= fun here =>
            projEntryLoop cv (i + 1) ps >>= fun rest =>
            (Except.ok (here ++ rest) : Except String (List Chunk))) = .ok chunks := hok2
          cases hbl : projBulletLoop cv (pyGetD obj "name" (.jstr ""))
              (pyGetD obj "technologies" (.jlist []))
              (pyGetD obj "link" (.jstr "")) i 0 bs with
          | error e' =>
            rw [hbl] at hok3
            exact absurd (show (Except.error e' : Except String (List Chunk)) = .ok chunks
              from hok3) (by simp)
          | ok here =>
            rw [hbl] at hok3
            have hok4 : (projEntryLoop cv (i + 1) ps >>= fun rest =>
                (Except.ok (here ++ rest) : Except String (List Chunk))) = .ok chunks := hok3
            cases hre : projEntryLoop cv (i + 1) ps with
            | error e' =>
              rw [hre] at hok4
              exact absurd (show (Except.error e' : Except String (List Chunk)) = .ok chunks
                from hok4) (by simp)
            | ok rest =>
              rw [hre] at hok4
              have hok5 : (Except.ok (here ++ rest)
                  : Except String (List Chunk)) = .ok chunks := hok4
              injection hok5 with h0
              rw [← h0]
              intro c hc
              rcases List.mem_append.mp hc with hm | hm
              · exact projBulletLoop_wf cv _ _ _ i bs 0 here hbl c hm
              · exact ih (i + 1) rest hre c hm
      · rw [if_neg hbt] at hok2
        by_cases hdt : (pyGetD obj "description" (.jstr "")).truthy = true
        · rw [if_pos hdt] at hok2
          cases hd : pyGetD obj "description" (.jstr "") with
          | jstr d =>
            rw [hd, projDescStep] at hok2
            cases hre : projEntryLoop cv (i + 1) ps with
            | error e' =>
              rw [hre] at hok2
              have hok3 : (if pystrip d = ""
                  then (Except.error e' : Except String (List Chunk))
                  else .error e') = .ok chunks := hok2
              by_cases hs : pystrip d = ""
              · rw [if_pos hs] at hok3
                exact absurd hok3 (by simp)
              · rw [if_neg hs] at hok3
                exact absurd hok3 (by simp)
            | ok rest =>
              rw [hre] at hok2
              have hok3 : (if pystrip d = ""
                  then (Except.ok rest : Except String (List Chunk))
                  else .ok (projDescChunkOf cv i obj d :: rest)) = .ok chunks := hok2
              by_cases hs : pystrip d = ""
              · rw [if_pos hs] at hok3
                injection hok3 with h0
                rw [← h0]
                exact ih (i + 1) rest hre
              · rw [if_neg hs] at hok3
                injection hok3 with h0
                rw [← h0]
                intro c hc
                rcases List.mem_cons.mp hc with rfl | hmem
                · refine ⟨?_, rfl⟩
                  show pystrip (pyStr (pyGetD obj "name" (.jstr "")) ++ " - " ++ pystrip d) ≠ ""
                  exact dash_text_nonblank _ _
                · exact ih (i + 1) rest hre c hmem
          | jint n =>
            rw [hd, projDescStep] at hok2
            · exact absurd hok2 (by simp)
            · intro d h
              simp at h
          | jbool b' =>
            rw [hd, projDescStep] at hok2
            · exact absurd hok2 (by simp)
            · intro d h
              simp at h
          | jlist xs =>
            rw [hd, projDescStep] at hok2
            · exact absurd hok2 (by simp)
            · intro d h
              simp at h
          | jdict d' =>
            rw [hd, projDescStep] at hok2
            · exact absurd hok2 (by simp)
            · intro d h
              simp at h
        · rw [if_neg hdt] at hok2
          exact ih (i + 1) chunks hok2
    | jstr s =>
      rw [projEntryLoop] at hok
      · exact absurd hok (by simp)
      · intro o h
        simp at h
    | jint n =>
      rw [projEntryLoop] at hok
      · exact absurd hok (by simp)
      · intro o h
        simp at h
    | jbool b' =>
      rw [projEntryLoop] at hok
      · exact absurd hok (by simp)
      · intro o h
        simp at h
    | jlist xs =>
      rw [projEntryLoop] at hok
      · exact absurd hok (by simp)
      · intro o h
        simp at h

theorem chunk_experience_bullets_wf (v : JVal) (cv : String) (chunks : List Chunk)
    (hok : chunk_experience_bullets v cv = .ok chunks) :
    ∀ c ∈ chunks, pystrip c.text ≠ "" ∧ c.sect = "experience" := by
  rw [chunk_experience_bullets] at hok
  cases hit : pyIter v with
  | error e =>
    rw [hit] at hok
    exact absurd (show (Except.error e : Except String (List Chunk)) = .ok chunks
      from hok) (by simp)
  | ok items =>
    rw [hit] at hok
    exact expEntryLoop_wf cv items 0 chunks hok

theorem chunk_projects_bullets_wf (v : JVal) (cv : String) (chunks : List Chunk)
    (hok : chunk_projects_bullets v cv = .ok chunks) :
    ∀ c ∈ chunks, pystrip c.text ≠ "" ∧ c.sect = "projects" := by
  rw [chunk_projects_bullets] at hok
  cases hit : pyIter v with
  | error e =>
    rw [hit] at hok
    exact absurd (show (Except.error e : Except String (List Chunk)) = .ok chunks
      from hok) (by simp)
  | ok items =>
    rw [hit] at hok
    exact projEntryLoop_wf cv items 0 chunks hok

theorem cssLoop_wf (cv : String) :
    ∀ (sections : List (String × JVal)) (chunks : List Chunk),
      cssLoop cv sections = .ok chunks →
      (∀ kv ∈ sections, noWSOnly kv.2 = true) →
      (∀ kv ∈ sections, kv.1 = "skills" → skillsValOK kv.2 = true) →
      ∀ c ∈ chunks, pystrip c.text ≠ "" ∧ ∃ kv ∈ sections, c.sect = kv.1 := by
  intro sections
  induction sections with
  | nil =>
    intro chunks hok _ _
    rw [cssLoop] at hok
    injection hok with h0
    rw [← h0]
    simp
  | cons kv rest ih =>
    intro chunks hok hno hsk
    rcases kv with ⟨sname, sdata⟩
    rw [cssLoop] at hok
    cases he : cssEntry cv sname sdata with
    | error e =>
      rw [he] at hok
      exact absurd (show (Except.error e : Except String (List Chunk)) = .ok chunks
        from hok) (by simp)
    | ok here =>
      rw [he] at hok
      have hok2 : (cssLoop cv rest >>= fun tail =>
          (Except.ok (here ++ tail) : Except String (List Chunk))) = .ok chunks := hok
      cases ht : cssLoop cv rest with
      | error e =>
        rw [ht] at hok2
        exact absurd (show (Except.error e : Except String (List Chunk)) = .ok chunks
          from hok2) (by simp)
      | ok tail =>
        rw [ht] at hok2
        have hok3 : (Except.ok (here ++ tail)
            : Except String (List Chunk)) = .ok chunks := hok2
        injection hok3 with h0
        rw [← h0]
        intro c hc
        rcases List.mem_append.mp hc with hm | hm
        · have hhere := cssEntry_wf cv sname sdata here he
            (hno ⟨sname, sdata⟩ (List.mem_cons_self _ _))
            (fun h => hsk ⟨sname, sdata⟩ (List.mem_cons_self _ _) h) c hm
          exact ⟨hhere.1, ⟨sname, sdata⟩, List.mem_cons_self _ _, hhere.2⟩
        · have htail := ih tail ht
            (fun kv' hkv' => hno kv' (List.mem_cons_of_mem _ hkv'))
            (fun kv' hkv' => hsk kv' (List.mem_cons_of_mem _ hkv')) c hm
          rcases htail with ⟨hne, kv', hkv', hsect⟩
          exact ⟨hne, kv', List.mem_cons_of_mem _ hkv', hsect⟩

theorem expStep_wf (ss : List (String × JVal)) (cv : String) (ec : List Chunk)
    (hok : expStep ss cv = .ok ec) :
    ∀ c ∈ ec, pystrip c.text ≠ "" ∧ c.sect = "experience" := by
  rw [expStep] at hok
  cases hge : pyGet ss "experience" with
  | none =>
    rw [hge] at hok
    have h0 : (Except.ok [] : Except String (List Chunk)) = .ok ec := hok
    injection h0 with h1
    rw [← h1]
    simp
  | some v =>
    rw [hge] at hok
    have hok2 : (if v.truthy = true then chunk_experience_bullets v cv
        else (Except.ok [] : Except String (List Chunk))) = .ok ec := hok
    by_cases hv : v.truthy = true
    · rw [if_pos hv] at hok2
      exact chunk_experience_bullets_wf v cv ec hok2
    · rw [if_neg hv] at hok2
      injection hok2 with h1
      rw [← h1]
      simp

theorem projStep_wf (ss : List (String × JVal)) (cv : String) (pc : List Chunk)
    (hok : projStep ss cv = .ok pc) :
    ∀ c ∈ pc, pystrip c.text ≠ "" ∧ c.sect = "projects" := by
  rw [projStep] at hok
  cases hge : pyGet ss "projects" with
  | none =>
    rw [hge] at hok
    have h0 : (Except.ok [] : Except String (List Chunk)) = .ok pc := hok
    injection h0 with h1
    rw [← h1]
    simp
  | some v =>
    rw [hge] at hok
    have hok2 : (if v.truthy = true then chunk_projects_bullets v cv
        else (Except.ok [] : Except String (List Chunk))) = .ok pc := hok
    by_cases hv : v.truthy = true
    · rw [if_pos hv] at hok2
      exact chunk_projects_bullets_wf v cv pc hok2
    · rw [if_neg hv] at hok2
      injection hok2 with h1
      rw [← h1]
      simp

/-- C6 (amended): for every structured résumé whose section keys come from
the closed §3 set, whose values contain no whitespace-only strings, and
whose skills categories contain no empty strings, every chunk produced by
the chunker has non-empty trimmed text and a section drawn from the closed
set.  Unamended, the claim is false: a skills category containing the empty
string yields a chunk whose text is blank (see the counterexample). -/
theorem chunker_only_nonblank_closed_sections
    (ss : List (String × JVal)) (cv_id : String) (chunks : List Chunk)
    (hok : buildAllChunks ss cv_id = .ok chunks)
    (hkeys : ∀ kv ∈ ss, kv.1 ∈ closedSectionSet)
    (hno : ∀ kv ∈ ss, noWSOnly kv.2 = true)
    (hsk : sectionsSkillsOK ss = true) :
    ∀ c ∈ chunks, pystrip c.text ≠ "" ∧ c.sect ∈ closedSectionSet := by
  rw [buildAllChunks] at hok
  cases he : expStep ss cv_id with
  | error e =>
    rw [he] at hok
    exact absurd (show (Except.error e : Except String (List Chunk)) = .ok chunks
      from hok) (by simp)
  | ok ec =>
    rw [he] at hok
    have hok2 : (projStep ss cv_id >>= fun project_chunks =>
        chunk_structured_sections
          (ss.filter (fun kv => kv.1 ≠ "experience" && kv.1 ≠ "projects")) cv_id
          >>= fun other_chunks =>
        (Except.ok (ec ++ project_chunks ++ other_chunks)
          : Except String (List Chunk))) = .ok chunks := hok
    cases hp : projStep ss cv_id with
    | error e =>
      rw [hp] at hok2
      exact absurd (show (Except.error e : Except String (List Chunk)) = .ok chunks
        from hok2) (by simp)
    | ok pc =>
      rw [hp] at hok2
      have hok3 : (chunk_structured_sections
          (ss.filter (fun kv => kv.1 ≠ "experience" && kv.1 ≠ "projects")) cv_id
          >>= fun other_chunks =>
        (Except.ok (ec ++ pc ++ other_chunks)
          : Except String (List Chunk))) = .ok chunks := hok2
      cases ho : chunk_structured_sections
          (ss.filter (fun kv => kv.1 ≠ "experience" && kv.1 ≠ "projects")) cv_id with
      | error e =>
        rw [ho] at hok3
        exact absurd (show (Except.error e : Except String (List Chunk)) = .ok chunks
          from hok3) (by simp)
      | ok oc =>
        rw [ho] at hok3
        have hok4 : (Except.ok (ec ++ pc ++ oc)
            : Except String (List Chunk)) = .ok chunks := hok3
        injection hok4 with h0
        rw [← h0]
        intro c hc
        rcases List.mem_append.mp hc with hm | hm
        · rcases List.mem_append.mp hm with hm' | hm'
          · have h := expStep_wf ss cv_id ec he c hm'
            refine ⟨h.1, ?_⟩
            rw [h.2]
            decide
          · have h := projStep_wf ss cv_id pc hp c hm'
            refine ⟨h.1, ?_⟩
            rw [h.2]
            decide
        · rw [chunk_structured_sections] at ho
          have hno' : ∀ kv ∈ ss.filter
              (fun kv => kv.1 ≠ "experience" && kv.1 ≠ "projects"),
              noWSOnly kv.2 = true :=
            fun kv hkv => hno kv (List.mem_of_mem_filter hkv)
          have hsk' : ∀ kv ∈ ss.filter
              (fun kv => kv.1 ≠ "experience" && kv.1 ≠ "projects"),
              kv.1 = "skills" → skillsValOK kv.2 = true := by
            intro kv hkv hk
            have hmem := List.mem_of_mem_filter hkv
            have := (List.all_eq_true.mp hsk) kv hmem
            simpa [hk] using this
          have h := cssLoop_wf cv_id _ oc ho hno' hsk' c hm
          rcases h with ⟨hne, kv, hkv, hsect⟩
          refine ⟨hne, ?_⟩
          rw [hsect]
          exact hkeys kv (List.mem_of_mem_filter hkv)

/-- C6 counterexample: on a résumé whose skills dict has a category
containing the empty string, the chunker emits a chunk whose trimmed text
is empty, refuting the unamended claim that every emitted chunk has
non-empty trimmed text. -/
theorem chunker_only_nonblank_closed_sections_counterexample :
    ∃ chunks, buildAllChunks
        [("skills", JVal.jdict [("languages", JVal.jlist [JVal.jstr ""])])] "cv1"
        = .ok chunks ∧ ∃ c ∈ chunks, pystrip c.text = "" := by
  refine ⟨[skillsChunkOf "cv1" [("languages", JVal.jlist [JVal.jstr ""])] ""], ?_, ?_⟩
  · rfl
  · exact ⟨skillsChunkOf "cv1" [("languages", JVal.jlist [JVal.jstr ""])] "",
      List.mem_singleton.mpr rfl, rfl⟩

/-- C6 witness: the amended theorem applied to a concrete one-section
résumé. -/
theorem chunker_only_nonblank_closed_sections_witness :
    pystrip (summaryChunkOf "cv1" "Hi").text ≠ ""
      ∧ (summaryChunkOf "cv1" "Hi").sect ∈ closedSectionSet :=
  chunker_only_nonblank_closed_sections
    [("summary", JVal.jdict [("text", JVal.jstr "Hi")])] "cv1"
    [summaryChunkOf "cv1" "Hi"] rfl (by decide) (by decide) (by decide)
    (summaryChunkOf "cv1" "Hi") (List.mem_singleton.mpr rfl)

theorem upsert_ids_nodup (chunks : List Chunk) :
    ((upsert_chunks_to_pinecone chunks).map fun r => r.id).Nodup := by
  rw [upsert_chunks_to_pinecone, List.map_map]
  apply List.Nodup.map_on
  · intro x hx y hy hf
    have hidx : x.1 = y.1 := stem_underscore_repr_inj _ _ _ _ hf
    have hx' := List.mem_enum_iff_getElem?.mp hx
    have hy' := List.mem_enum_iff_getElem?.mp hy
    rw [hidx] at hx'
    have hval : x.2 = y.2 := by
      rw [hx'] at hy'
      exact Option.some.inj hy'
    rcases x with ⟨x1, x2⟩
    rcases y with ⟨y1, y2⟩
    simp only at hidx hval
    rw [hidx, hval]
  · apply List.Nodup.of_map Prod.fst
    rw [List.enum_map_fst]
    exact List.nodup_range _

theorem countP_take_lt (l : List Chunk) (p : Chunk → Bool) (i j : ℕ)
    (hij : i < j) (hi : i < l.length)
    (hp : p (l.get ⟨i, hi⟩) = true) :
    (l.take i).countP p < (l.take j).countP p := by
  have h1 : l.take j = l.take i ++ (l.drop i).take (j - i) := by
    rw [← List.take_add]
    congr 1
    omega
  rw [h1, List.countP_append]
  have h2 : (l.drop i).take (j - i)
      = l.get ⟨i, hi⟩ :: (l.drop (i + 1)).take (j - i - 1) := by
    rw [List.drop_eq_get_cons hi]
    cases hk : j - i with
    | zero => omega
    | succ k =>
      rw [List.take_succ_cons]
      congr 1
  rw [h2, List.countP_cons, hp]
  simp

theorem withinOrdinal_inj (chunks : List Chunk) (i j : ℕ)
    (hi : i < chunks.length) (hj : j < chunks.length)
    (hsect : (chunks.get ⟨i, hi⟩).sect = (chunks.get ⟨j, hj⟩).sect)
    (hcount : withinOrdinal chunks i ((chunks.get ⟨i, hi⟩).sect)
      = withinOrdinal chunks j ((chunks.get ⟨j, hj⟩).sect)) : i = j := by
  by_contra hne
  rw [withinOrdinal, withinOrdinal, hsect] at hcount
  rcases Nat.lt_or_ge i j with hij | hij
  · have hlt := countP_take_lt chunks
      (fun c => decide (c.sect = (chunks.get ⟨j, hj⟩).sect)) i j hij hi
      (by simpa using hsect)
    omega
  · have hij' : j < i := by omega
    have hlt := countP_take_lt chunks
      (fun c => decide (c.sect = (chunks.get ⟨j, hj⟩).sect)) j i hij' hj
      (by simp)
    omega

/-- **C7.** The id of every vector record produced for a résumé is a
deterministic function of `(cv_id, section, ordinal_within_section)`:
positions with equal `(cv_id, section, within-section ordinal)` receive
equal ids, processing the same `cv.created` event twice against the same
store yields the same vector ids, and the ids of one run contain no
duplicates. -/
theorem vector_ids_deterministic_and_nodup
    (store : String → Option Resume) (cv_id : String) (recs : List VectorRecord)
    (hok : process_cv_for_embedding store cv_id = .ok recs) :
    ((recs.map fun r => r.id).Nodup)
    ∧ (∀ recs', process_cv_for_embedding store cv_id = .ok recs' →
        recs'.map (fun r => r.id) = recs.map fun r => r.id)
    ∧ (∀ (chunks : List Chunk) (i j : ℕ) (hi : i < chunks.length)
        (hj : j < chunks.length),
        (chunks.get ⟨i, hi⟩).cv_id = (chunks.get ⟨j, hj⟩).cv_id →
        (chunks.get ⟨i, hi⟩).sect = (chunks.get ⟨j, hj⟩).sect →
        withinOrdinal chunks i ((chunks.get ⟨i, hi⟩).sect)
          = withinOrdinal chunks j ((chunks.get ⟨j, hj⟩).sect) →
        ((upsert_chunks_to_pinecone chunks).map fun r => r.id).get? i
          = ((upsert_chunks_to_pinecone chunks).map fun r => r.id).get? j) := by
  refine ⟨?_, ?_, ?_⟩
  · rw [process_cv_for_embedding] at hok
    cases hs : store cv_id with
    | none =>
      rw [hs] at hok
      exact absurd (show (Except.error (PyExc.other ("Failed to fetch CV: " ++ pyNatRepr 404))
        : Except PyExc (List VectorRecord)) = .ok recs from hok) (by simp)
    | some ss =>
      rw [hs] at hok
      have hok1 : (match buildAllChunks ss cv_id with
          | Except.error e => Except.error (PyExc.other e)
          | Except.ok all_chunks =>
            if all_chunks.isEmpty = true then Except.ok []
            else Except.ok (upsert_chunks_to_pinecone all_chunks))
          = Except.ok recs := hok
      cases hb : buildAllChunks ss cv_id with
      | error e =>
        rw [hb] at hok1
        exact absurd (show (Except.error (PyExc.other e)
          : Except PyExc (List VectorRecord)) = .ok recs from hok1) (by simp)
      | ok all_chunks =>
        rw [hb] at hok1
        have hok2 : (if all_chunks.isEmpty = true
            then (Except.ok [] : Except PyExc (List VectorRecord))
            else .ok (upsert_chunks_to_pinecone all_chunks)) = .ok recs := hok1
        by_cases hemp : all_chunks.isEmpty = true
        · rw [if_pos hemp] at hok2
          injection hok2 with h0
          rw [← h0]
          simp
        · rw [if_neg hemp] at hok2
          injection hok2 with h0
          rw [← h0]
          exact upsert_ids_nodup all_chunks
  · intro recs' hok'
    rw [hok] at hok'
    rw [Except.ok.inj hok']
  · intro chunks i j hi hj _ hsect hcount
    have hij := withinOrdinal_inj chunks i j hi hj hsect hcount
    rw [hij]

/-- Witness for C7: the theorem applied to a concrete store holding one
résumé with a single summary section. -/
theorem vector_ids_deterministic_and_nodup_witness :
    ((upsert_chunks_to_pinecone [summaryChunkOf "cv1" "Hi"]).map fun r => r.id).Nodup :=
  (vector_ids_deterministic_and_nodup
    (fun c => if c = "cv1"
      then some [("summary", JVal.jdict [("text", JVal.jstr "Hi")])] else none)
    "cv1" (upsert_chunks_to_pinecone [summaryChunkOf "cv1" "Hi"]) rfl).1

theorem pySlice_length_le (s : String) (n : ℕ) : (pySlice s n).length ≤ n := by
  show (List.take n s.data).length ≤ n
  rw [List.length_take]
  omega

theorem pyDictInsert_mem {md : List (String × String)} {k : String}
    {v : String} {kv : String × String} (h : kv ∈ pyDictInsert md k v) :
    kv ∈ md ∨ kv = (k, v) := by
  induction md with
  | nil =>
    right
    rw [pyDictInsert] at h
    simpa using h
  | cons x t ih =>
    rcases x with ⟨k', v'⟩
    rw [pyDictInsert] at h
    by_cases hk : k' = k
    · rw [if_pos hk] at h
      rcases List.mem_cons.mp h with rfl | hm
      · right; rfl
      · left; exact List.mem_cons_of_mem _ hm
    · rw [if_neg hk] at h
      rcases List.mem_cons.mp h with rfl | hm
      · left; exact List.mem_cons_self _ _
      · rcases ih hm with hm' | hm'
        · left; exact List.mem_cons_of_mem _ hm'
        · right; exact hm'

theorem foldl_scalar_insert_mem (l : List (String × JVal)) :
    ∀ (md0 : List (String × String)) (kv : String × String),
      kv ∈ l.foldl
        (fun md kv' =>
          if kv'.2.isScalar then pyDictInsert md kv'.1 (pySlice (pyStr kv'.2) 500) else md)
        md0 →
      kv ∈ md0 ∨ ∃ v, (kv.1, v) ∈ l ∧ v.isScalar = true
        ∧ kv.2 = pySlice (pyStr v) 500 := by
  induction l with
  | nil =>
    intro md0 kv h
    left
    exact h
  | cons x t ih =>
    intro md0 kv h
    rw [List.foldl_cons] at h
    by_cases hx : x.2.isScalar = true
    · rw [if_pos hx] at h
      rcases ih _ kv h with hmem | ⟨v, hv, hsc, heq⟩
      · rcases pyDictInsert_mem hmem with hm | rfl
        · left; exact hm
        · right
          exact ⟨x.2, by simpa using List.mem_cons_self x t, hx, rfl⟩
      · right; exact ⟨v, List.mem_cons_of_mem _ hv, hsc, heq⟩
    · rw [if_neg hx] at h
      rcases ih md0 kv h with hmem | ⟨v, hv, hsc, heq⟩
      · left; exact hmem
      · right; exact ⟨v, List.mem_cons_of_mem _ hv, hsc, heq⟩

/-- **C8 (amended).** Every metadata entry of an upserted record is one of
the base entries `cv_id`, `section` or `text` — the latter sliced to at
most 1000 characters — or the stringification of a *scalar* extra sliced
to at most 500 characters.  Unamended, the claim is false: a structured
(non-scalar) extra is dropped by the `isinstance` test rather than
stringified (see the counterexample). -/
theorem record_metadata_truncation (c : Chunk) :
    ∀ kv ∈ recordMetadata c,
      kv = ("cv_id", c.cv_id) ∨ kv = ("section", c.sect)
      ∨ (kv = ("text", pySlice c.text 1000) ∧ kv.2.length ≤ 1000)
      ∨ ∃ v, (kv.1, v) ∈ c.metadata ∧ v.isScalar = true
          ∧ kv.2 = pySlice (pyStr v) 500 ∧ kv.2.length ≤ 500 := by
  intro kv h
  rw [recordMetadata] at h
  rcases foldl_scalar_insert_mem c.metadata _ kv h with hmem | ⟨v, hv, hsc, heq⟩
  · rcases List.mem_cons.mp hmem with rfl | hmem'
    · left; rfl
    · rcases List.mem_cons.mp hmem' with rfl | hmem''
      · right; left; rfl
      · rcases List.mem_cons.mp hmem'' with rfl | hmem'''
        · right; right; left
          exact ⟨rfl, pySlice_length_le _ _⟩
        · simp at hmem'''
  · right; right; right
    refine ⟨v, hv, hsc, heq, ?_⟩
    rw [heq]
    exact pySlice_length_le _ _

/-- **C8 counterexample.** A project-bullet chunk carries the structured
extra `technologies`; the upserted record's metadata has no `technologies`
key at all — the non-scalar value is dropped, not stringified as the
claim states. -/
theorem record_metadata_truncation_counterexample :
    ("technologies", JVal.jlist [JVal.jstr "Python"])
      ∈ (projChunkOf "cv1" (JVal.jstr "P") (JVal.jlist [JVal.jstr "Python"])
          (JVal.jstr "") 0 0 "did x").metadata
    ∧ (recordMetadata (projChunkOf "cv1" (JVal.jstr "P")
          (JVal.jlist [JVal.jstr "Python"]) (JVal.jstr "") 0 0 "did x")).lookup
        "technologies" = none := by
  constructor
  · simp [projChunkOf]
  · rfl

/-- Witness for C8 at the `type` entry of a concrete summary chunk. -/
theorem record_metadata_truncation_witness :
    ("type", "summary") = ("cv_id", (summaryChunkOf "cv1" "Hi").cv_id)
    ∨ ("type", "summary") = ("section", (summaryChunkOf "cv1" "Hi").sect)
    ∨ (("type", "summary") = ("text", pySlice (summaryChunkOf "cv1" "Hi").text 1000)
        ∧ ("type", "summary").2.length ≤ 1000)
    ∨ ∃ v, (("type", "summary").1, v) ∈ (summaryChunkOf "cv1" "Hi").metadata
        ∧ v.isScalar = true ∧ ("type", "summary").2 = pySlice (pyStr v) 500
        ∧ ("type", "summary").2.length ≤ 500 :=
  record_metadata_truncation (summaryChunkOf "cv1" "Hi") ("type", "summary")
    (by decide)

theorem natDigits_404 : natDigits 404 = [4, 0, 4] := by
  rw [natDigits]
  norm_num
  rw [natDigits]
  norm_num
  rw [natDigits]
  norm_num

theorem pyNatRepr_404 : pyNatRepr 404 = "404" := by
  rw [pyNatRepr, natDigits_404]
  rfl

/-- **C1 (amended).** A `cv.created` event whose `cv_id` resolves to a 404
from the document store raises the generic
`Exception("Failed to fetch CV: 404")`; its lowercased text contains none
of the markers `"paging file"`, `"1455"`, `"memory"`, so the generic
handler nacks the message WITH requeue — not the no-requeue poison path
the claim describes — and no vectors are written. -/
theorem poison_on_404 (store : String → Option Resume) (cv_id : String)
    (hcv : cv_id ≠ "") (h404 : store cv_id = none) :
    consumer_callback store (some cv_id) = (.nackRequeue, []) := by
  have hp : process_cv_for_embedding store cv_id
      = .error (.other ("Failed to fetch CV: " ++ pyNatRepr 404)) := by
    rw [process_cv_for_embedding, h404]
  rw [consumer_callback, if_neg hcv, hp, pyNatRepr_404]
  rfl

/-- **C1 counterexample.** Against a store with no documents, the callback
for `cv.created(cv1)` requeues the message: the action is `nackRequeue`,
which refutes the claimed nack-no-requeue poison handling (while indeed
writing no vectors). -/
theorem poison_on_404_counterexample :
    (consumer_callback (fun _ => none) (some "cv1")).1 = MqAction.nackRequeue
    ∧ (consumer_callback (fun _ => none) (some "cv1")).1 ≠ MqAction.nackNoRequeue
    ∧ (consumer_callback (fun _ => none) (some "cv1")).2 = [] := by
  have hp : process_cv_for_embedding (fun _ => none) "cv1"
      = .error (.other ("Failed to fetch CV: " ++ pyNatRepr 404)) := by
    rw [process_cv_for_embedding]
  have hc : consumer_callback (fun _ => none) (some "cv1") = (.nackRequeue, []) := by
    rw [consumer_callback, if_neg (show ¬("cv1" : String) = "" by decide), hp,
      pyNatRepr_404]
    rfl
  refine ⟨by rw [hc], by rw [hc]; decide, by rw [hc]⟩

/-- Witness for C1 at a concrete empty store. -/
theorem poison_on_404_witness :
    consumer_callback (fun _ => none) (some "cv1") = (.nackRequeue, []) :=
  poison_on_404 (fun _ => none) "cv1" (by decide) rfl

/-- **C9 (code bug).** The route body forwards `top_k=body.top_k` to
`find_similar_chunks`, whose signature has no `top_k` parameter; the call
raises `TypeError` before any validation or retrieval runs, and the
blanket `except Exception` maps every exception to HTTP 500.  So every
request receives 500 — in particular a blank `jd_text` is never surfaced
as the InvalidInput 400 the claim describes (and the request model carries
`top_k`, not `min_score`/`max_chunks_to_query`). -/
theorem similar_chunks_always_500 (body : SimilarChunksRequest) :
    similar_chunks_route body
      = .httpError 500 ("Error while finding similar chunks: "
          ++ "TypeError: find_similar_chunks() got an unexpected keyword argument 'top_k'")
    ∧ similar_chunks_route { jd_text := "" }
      ≠ .httpError 400 "Job description text cannot be empty" := by
  constructor
  · rfl
  · decide

end TailorCV
